import Mathlib

/-!
Row-to-struct scanning (package sqlx, file scan.go)

A shallow embedding of `scan.go`: the tag-driven field resolver `getFieldInfo`
with its process-wide cache `finfos`, the target builder `getTargets`, the commit
step `setTargets`, the driver `scanRow` / `ScanStruct`, the map scanner `ScanMap` and
the default Name Mapper `ToSnakeCase`.

Conventions of the embedding

* A Go `string` is a Lean `String`, read as its sequence of runes (`String.data`);
  the strings are those of valid UTF-8. Indices into a string count runes; the only
  index the code takes is that of `","`, a one-byte rune, so `tag[:idx]` is the same
  text in both readings.
* `strings.ToLower` lower-cases rune by rune with `unicode.ToLower`: ASCII runes by
  the rule written in Go's own source, the runes beyond ASCII by the case table of
  package `unicode`, which is a parameter (`CaseRanges`) of every definition and
  theorem that lower-cases. The evaluations at sample inputs are on ASCII text.
* `reflect.Type` is the inductive `GoType`, `reflect.Value` is `Value`. A parameter
  of type `interface{}` is an `Option Interface`, `none` being the nil interface.
* The package variables `NameMapper`, `ZeroIsNull` and `TagName` are the fields of a
  `Config` record passed to every function.
* The mutable package state (the cache `finfos`, the standard logger and the calls
  made on the cursor) is the record `State`, passed in and returned.
* A Go function that can return an `error` or raise a run-time panic reports it as a
  `Failure`: `Failure.error` is a returned error value, `Failure.panic` is a panic.
-/

namespace Sqlx

/-! ## Strings -/

/-- The lower-case mapping of Go's package `unicode` on the runes beyond ASCII,
`unicode.To(unicode.LowerCase, r)` as read off the table `unicode.CaseRanges`. The
table belongs to the Go library, not to this repository, and is a parameter of the
embedding. Two facts about it are used: a rune beyond ASCII is lower-cased to a rune
beyond ASCII or to one of `a`..`z` (U+212A to `k`, U+0130 to `i`), and a lower-cased
rune beyond ASCII is its own lower-case form. -/
class CaseRanges where
  toLower : Char → Char
  toLower_range : ∀ r : Char, ¬ r.toNat ≤ 127 →
    ¬ (toLower r).toNat ≤ 127 ∨ ('a' ≤ toLower r ∧ toLower r ≤ 'z')
  toLower_fixed : ∀ r : Char, ¬ r.toNat ≤ 127 → ¬ (toLower r).toNat ≤ 127 →
    toLower (toLower r) = toLower r

/-- The table that changes no rune beyond ASCII. The evaluations at sample inputs,
all of them ASCII text, are computed with it; on ASCII text every table gives the
same result. -/
instance CaseRanges.ascii : CaseRanges where
  toLower := fun r => r
  toLower_range := fun _ h => Or.inl h
  toLower_fixed := fun _ _ _ => rfl

/-- Go `unicode.ToLower`, the rune mapping of `strings.ToLower`: the letters `A`..`Z`
are shifted to `a`..`z`, every other ASCII rune is kept, and a rune beyond ASCII
(`r > unicode.MaxASCII`) is looked up in the case table. -/
def unicodeToLower [CaseRanges] (r : Char) : Char :=
  if r.toNat ≤ 127 then
    if 'A' ≤ r ∧ r ≤ 'Z' then Char.ofNat (r.toNat + 32) else r
  else CaseRanges.toLower r

/-- Go `strings.ToLower`. -/
def strings.ToLower [CaseRanges] (s : String) : String :=
  ⟨s.data.map unicodeToLower⟩

/-- The scan behind `strings.Index`: position of the first occurrence of `sub` in
the rune list, counting from `n`; `-1` when there is none. -/
def strings.indexFrom (sub : List Char) : List Char → Nat → Int
  | [], n => if sub = [] then (n : Int) else -1
  | c :: cs, n => if sub.isPrefixOf (c :: cs) then (n : Int) else strings.indexFrom sub cs (n + 1)

/-- Go `strings.Index(s, sub)`. -/
def strings.Index (s sub : String) : Int :=
  strings.indexFrom sub.data s.data 0

/-- The Go slice expression `s[:idx]`. -/
def sliceTo (s : String) (idx : Nat) : String :=
  ⟨s.data.take idx⟩

/-- Loop body state of `ToSnakeCase`: runes already written to `buf` (in order) and
`prevUpper`. The flag `first` is true exactly while `i = 0`. -/
def ToSnakeCase.loop : List Char → Bool → Bool → List Char → List Char
  | [], _, _, buf => buf
  | v :: rest, first, prevUpper, buf =>
    let thisUpper : Bool := decide ('A' ≤ v ∧ v ≤ 'Z')
    let buf1 := if !first && thisUpper && !prevUpper then buf ++ ['_'] else buf
    ToSnakeCase.loop rest false thisUpper (buf1 ++ [v])

/-- Go `ToSnakeCase` (scan.go, lines 186-203). -/
def ToSnakeCase [CaseRanges] (src : String) : String :=
  strings.ToLower ⟨ToSnakeCase.loop src.data true false []⟩

/-! ## Go maps as association lists -/

/-- Go `m[k]` with the comma-ok form: the value stored under `k`, if any. -/
def mapGet {κ β : Type} [BEq κ] : List (κ × β) → κ → Option β
  | [], _ => none
  | (k1, v) :: rest, k => if k1 == k then some v else mapGet rest k

/-- Go `m[k] = v`: replaces the entry of `k` or adds one. A map built from the
empty list by `mapSet` never holds a key twice. -/
def mapSet {κ β : Type} [BEq κ] : List (κ × β) → κ → β → List (κ × β)
  | [], k, v => [(k, v)]
  | (k1, v1) :: rest, k, v => if k1 == k then (k, v) :: rest else (k1, v1) :: mapSet rest k v

/-! ## Types as seen through reflection -/

/-- Go `reflect.Kind`, for the kinds the embedding covers. -/
inductive Kind where
  | Bool | Int | String | Slice | Ptr | Struct
deriving DecidableEq, Repr

/-- Go `reflect.StructField`: `Tag` is the struct tag already split into its
`key:"value"` pairs, `PkgPath` is empty exactly for exported fields, `Anonymous`
marks an embedded field and `Typ` is the field's type (`StructField.Type` in Go). -/
structure StructField (τ : Type) where
  Name : String
  Tag : List (String × String)
  PkgPath : String
  Anonymous : Bool
  Typ : τ

/-- Go types: `bool`, `int`, `string`, `[]byte`, pointers and structs. -/
inductive GoType where
  | bool
  | int
  | string
  | bytes
  | ptr (elem : GoType)
  | struct (fields : List (StructField GoType))

/-- Go `reflect.Type.Kind`. -/
def GoType.Kind : GoType → Kind
  | .bool => .Bool
  | .int => .Int
  | .string => .String
  | .bytes => .Slice
  | .ptr _ => .Ptr
  | .struct _ => .Struct

/-- Go `StructTag.Get(key)`: the value of the first pair with that key, else `""`. -/
def StructTag.Get (tag : List (String × String)) (key : String) : String :=
  (mapGet tag key).getD ""

mutual
/-- Identity of `reflect.Type` values, used as the key comparison of `finfos`. -/
def GoType.beq : GoType → GoType → Bool
  | .bool, .bool => true
  | .int, .int => true
  | .string, .string => true
  | .bytes, .bytes => true
  | .ptr a, .ptr b => GoType.beq a b
  | .struct fs, .struct gs => GoType.beqFields fs gs
  | _, _ => false
/-- Field-by-field comparison of two struct layouts. -/
def GoType.beqFields : List (StructField GoType) → List (StructField GoType) → Bool
  | [], [] => true
  | f :: fs, g :: gs =>
    (f.Name == g.Name && f.Tag == g.Tag && f.PkgPath == g.PkgPath && f.Anonymous == g.Anonymous
      && GoType.beq f.Typ g.Typ) && GoType.beqFields fs gs
  | _, _ => false
end

instance : BEq GoType := ⟨GoType.beq⟩

/-! ## The field resolver and its cache -/

/-- The type `fieldInfo` of scan.go: `map[string][]int`. -/
abbrev fieldInfo := List (String × List Nat)

/-- The package variable `finfos`: `map[reflect.Type]fieldInfo`. -/
abbrev Cache := List (GoType × fieldInfo)

/-- The package variables `NameMapper`, `ZeroIsNull` and `TagName`. -/
structure Config where
  NameMapper : String → String
  ZeroIsNull : Bool
  TagName : String

/-- The values the package variables are initialised with. -/
def Config.default [CaseRanges] : Config :=
  { NameMapper := ToSnakeCase, ZeroIsNull := true, TagName := "db" }

/-- Lines 60-68 of `getFieldInfo`: the map key of a field that is not handled as an
embedded struct, computed from `tag = f.Tag.Get(TagName)`. -/
def columnName (cfg : Config) (f : StructField GoType) : String :=
  let tag := StructTag.Get f.Tag cfg.TagName
  let tag := if tag = "" then f.Name else tag
  let idx := strings.Index tag ","
  let tag := if idx > 0 then sliceTo tag idx.toNat else tag
  cfg.NameMapper tag

/-- The loop `for k, v := range sub { finfo[k] = append([]int{i}, v...) }`. Go ranges
over a map in an unspecified order; the keys of `sub` are distinct, so the order
does not affect which path a key ends up with. -/
def mergeEmbedded (finfo : fieldInfo) (i : Nat) (sub : fieldInfo) : fieldInfo :=
  sub.foldl (fun m kv => mapSet m kv.1 (i :: kv.2)) finfo

mutual
/-- Go `getFieldInfo` (scan.go, lines 32-78) on the cache `finfos`; returns the map
and the cache after the call. `none` is the panic of `NumField` on a type that is
not a struct. -/
def getFieldInfo (cfg : Config) : GoType → Cache → Option (fieldInfo × Cache)
  | .struct fs, finfos =>
    match mapGet finfos (GoType.struct fs) with
    | some finfo => some (finfo, finfos)
    | none =>
      match getFieldInfo.loop cfg fs 0 [] finfos with
      | some (finfo, finfos1) => some (finfo, mapSet finfos1 (GoType.struct fs) finfo)
      | none => none
  | .bool, finfos => (mapGet finfos GoType.bool).map (fun finfo => (finfo, finfos))
  | .int, finfos => (mapGet finfos GoType.int).map (fun finfo => (finfo, finfos))
  | .string, finfos => (mapGet finfos GoType.string).map (fun finfo => (finfo, finfos))
  | .bytes, finfos => (mapGet finfos GoType.bytes).map (fun finfo => (finfo, finfos))
  | .ptr e, finfos => (mapGet finfos (GoType.ptr e)).map (fun finfo => (finfo, finfos))
/-- The loop `for i := 0; i < n; i++` of `getFieldInfo` over the fields from index
`i` on, with the map built so far. -/
def getFieldInfo.loop (cfg : Config) :
    List (StructField GoType) → Nat → fieldInfo → Cache → Option (fieldInfo × Cache)
  | [], _, finfo, finfos => some (finfo, finfos)
  | f :: rest, i, finfo, finfos =>
    let tag := StructTag.Get f.Tag cfg.TagName
    if f.PkgPath ≠ "" ∨ tag = "-" then
      getFieldInfo.loop cfg rest (i + 1) finfo finfos
    else if f.Anonymous ∧ f.Typ.Kind = Kind.Struct then
      match getFieldInfo cfg f.Typ finfos with
      | some (sub, finfos1) =>
        getFieldInfo.loop cfg rest (i + 1) (mergeEmbedded finfo i sub) finfos1
      | none => none
    else
      getFieldInfo.loop cfg rest (i + 1) (mapSet finfo (columnName cfg f) [i]) finfos
end

/-! ## Values, destinations and scan targets -/

/-- Go values as reflection sees them. `nil` is the nil pointer, the nil slice and
the driver's NULL; `ptr v` is a non-nil pointer together with the value it points
to. -/
inductive Value where
  | bool (b : Bool)
  | int (n : Int)
  | string (s : String)
  | bytes (b : List Nat)
  | nil
  | ptr (elem : Value)
  | struct (fields : List Value)

/-- The content of a non-nil `interface{}`: dynamic type and value. A parameter
`dst interface{}` of the program is an `Option Interface`, with `none` for the nil
interface, of which `reflect.ValueOf` gives the zero `reflect.Value`. -/
structure Interface where
  typ : GoType
  val : Value

mutual
/-- Go `reflect.Zero(t)`. -/
def GoType.Zero : GoType → Value
  | .bool => .bool false
  | .int => .int 0
  | .string => .string ""
  | .bytes => .nil
  | .ptr _ => .nil
  | .struct fs => .struct (GoType.zeroFields fs)
/-- Zero values of the fields of a struct, in order. -/
def GoType.zeroFields : List (StructField GoType) → List Value
  | [] => []
  | f :: fs => GoType.Zero f.Typ :: GoType.zeroFields fs
end

mutual
/-- The value `v` is a value of the Go type `t`. -/
def hasType : GoType → Value → Bool
  | .bool, .bool _ => true
  | .int, .int _ => true
  | .string, .string _ => true
  | .bytes, .bytes _ => true
  | .bytes, .nil => true
  | .ptr _, .nil => true
  | .ptr t, .ptr v => hasType t v
  | .struct fs, .struct vs => hasTypeFields fs vs
  | _, _ => false
/-- The values `vs` are, position by position, values of the field types of `fs`. -/
def hasTypeFields : List (StructField GoType) → List Value → Bool
  | [], [] => true
  | f :: fs, v :: vs => hasType f.Typ v && hasTypeFields fs vs
  | _, _ => false
end

/-- Go `reflect.Type.Elem` on a pointer type; `none` is its panic on other kinds. -/
def GoType.Elem : GoType → Option GoType
  | .ptr e => some e
  | _ => none

/-- Go `reflect.Type.Field(i)`; `none` is the panic on a non-struct or an index out
of range. -/
def GoType.Field : GoType → Nat → Option (StructField GoType)
  | .struct fs, i => fs[i]?
  | _, _ => none

/-- Go `reflect.Type.FieldByIndex(index).Type`: the type of the field that
`FieldByIndex(index)` reaches. -/
def GoType.FieldByIndex : GoType → List Nat → Option GoType
  | t, [] => some t
  | t, x :: rest =>
    match t.Field x with
    | some f => f.Typ.FieldByIndex rest
    | none => none

/-- Go `reflect.Value.Elem` on a pointer: the pointee, `none` for the invalid Value
that a nil pointer yields (and for non-pointers). -/
def Value.Elem : Value → Option Value
  | .ptr v => some v
  | _ => none

/-- Go `reflect.Value.Field(i)`; `none` is the panic on a non-struct or an index out
of range. -/
def Value.Field : Value → Nat → Option Value
  | .struct vs, i => vs[i]?
  | _, _ => none

/-- The loop of `reflect.Value.FieldByIndex`: one `Field` per index. The paths that
`getFieldInfo` records only step through fields of kind struct, so the indirection
through embedded pointers that reflect also performs is not modelled. -/
def Value.walk : Value → List Nat → Option Value
  | v, [] => some v
  | v, x :: rest =>
    match v.Field x with
    | some w => w.walk rest
    | none => none

/-- Go `reflect.Value.FieldByIndex`; `none` is a panic. -/
def Value.FieldByIndex (v : Value) (index : List Nat) : Option Value :=
  match index with
  | [] => (match v with
    | .struct _ => some v
    | _ => none)
  | _ :: _ => v.walk index

/-- The struct `v` after the location reached by `index` has been overwritten with
`x`; `none` when the location does not exist. -/
def Value.setWalk : Value → List Nat → Value → Option Value
  | _, [], x => some x
  | .struct vs, i :: rest, x =>
    match vs[i]? with
    | some w =>
      (match w.setWalk rest x with
      | some w1 => some (.struct (vs.set i w1))
      | none => none)
    | none => none
  | _, _ :: _, _ => none

/-- Effect of `v.FieldByIndex(index).Set(x)` on the addressable struct `v`. -/
def Value.setFieldByIndex (v : Value) (index : List Nat) (x : Value) : Option Value :=
  match v.FieldByIndex index with
  | some _ => v.setWalk index x
  | none => none

/-- What a Go call ends with besides its results: a returned `error` or a panic. -/
inductive Failure where
  | error (msg : String)
  | panic (msg : String)
deriving DecidableEq, Repr

/-- The scan targets `getTargets` hands to the cursor.
* `rawBytes b` is `&sql.RawBytes{}`, holding `b`;
* `ptrPtr t cell` is the result of `zeroFill`: a fresh `**T` whose `*T` cell is
  `nil` or points to a decoded `T`;
* `fieldAddr index t` is `elem.FieldByIndex(index).Addr()`, a `*T` into the
  destination;
* `iface v` is the `new(interface{})` of `ScanMap`, a `*interface{}` holding `v`. -/
inductive Target where
  | rawBytes (b : Value)
  | ptrPtr (t : GoType) (cell : Value)
  | fieldAddr (index : List Nat) (t : GoType)
  | iface (v : Value)

/-- What the package does to the world besides its results. -/
inductive Event where
  | log (msg : String)
  | scan (ntargets : Nat)
deriving DecidableEq, Repr

/-- The mutable state around a call: the cache `finfos` and the record of log lines
written and physical scans requested, oldest first. -/
structure State where
  finfos : Cache
  events : List Event

/-! ## The result cursor -/

/-- The cursor `*sql.Rows` positioned on a row: what `Columns()` returns, the driver
values of the row (`Value.nil` is NULL), the driver-value conversion of
`database/sql` for non-NULL sources and non-pointer destinations, and what `Err()`
returns. -/
structure Rows where
  columns : Except String (List String)
  lastcols : List Value
  conv : Value → GoType → Except String Value
  err : Option String

/-- Is this driver value NULL. -/
def Value.isNull : Value → Bool
  | .nil => true
  | _ => false

/-- Go `convertAssign(dest, src)` of database/sql for a destination cell of type `t`:
the new content of the cell. NULL is stored as nil in pointers and byte slices and
refused elsewhere; a non-NULL source stored through a pointer cell allocates the
pointee and converts into it. -/
def Rows.convertAssign (rows : Rows) (src : Value) : GoType → Except String Value
  | .ptr t =>
    if src.isNull then .ok .nil
    else
      match rows.convertAssign src t with
      | .ok v => .ok (.ptr v)
      | .error e => .error e
  | .bytes => if src.isNull then .ok .nil else rows.conv src .bytes
  | t => if src.isNull then .error "converting NULL is unsupported" else rows.conv src t

/-- One destination of `Rows.Scan`: the target and the destination value after
`src` has been stored through the target. A `*interface{}` takes the driver value
as it is. -/
def Rows.assign (rows : Rows) (dstVal : Value) (src : Value) :
    Target → Except String (Target × Value)
  | .rawBytes _ =>
    match rows.convertAssign src .bytes with
    | .ok b => .ok (.rawBytes b, dstVal)
    | .error e => .error e
  | .ptrPtr t _ =>
    match rows.convertAssign src (.ptr t) with
    | .ok c => .ok (.ptrPtr t c, dstVal)
    | .error e => .error e
  | .fieldAddr index t =>
    match rows.convertAssign src t with
    | .ok v =>
      (match dstVal.Elem.bind (fun e => e.setWalk index v) with
      | some e1 => .ok (.fieldAddr index t, .ptr e1)
      | none => .ok (.fieldAddr index t, dstVal))
    | .error e => .error e
  | .iface _ => .ok (.iface src, dstVal)

/-- The loop of `Rows.Scan` over the row: stops at the first conversion error. -/
def Rows.Scan.loop (rows : Rows) : List Value → List Target → Value →
    Option Failure × List Target × Value
  | sv :: svs, t :: ts, d =>
    match rows.assign d sv t with
    | .ok (t1, d1) =>
      let r := Rows.Scan.loop rows svs ts d1
      (r.1, t1 :: r.2.1, r.2.2)
    | .error e => (some (.error e), t :: ts, d)
  | _, ts, d => (none, ts, d)

/-- Go `rows.Scan(dest...)`: the error, the targets and the destination afterwards. -/
def Rows.Scan (rows : Rows) (dest : List Target) (dstVal : Value) :
    Option Failure × List Target × Value :=
  if dest.length ≠ rows.lastcols.length then
    (some (.error "sql: expected a different number of destination arguments in Scan"), dest, dstVal)
  else Rows.Scan.loop rows rows.lastcols dest dstVal

/-! ## getTargets, setTargets, scanRow -/

/-- The loop `for _, name := range columns` of `getTargets`. -/
def getTargets.loop [CaseRanges] (cfg : Config) (fieldInfo : fieldInfo) (elemTyp : GoType)
    (elem : Option Value) :
    List String → List Target → List Event → Except Failure (List Target) × List Event
  | [], values, ev => (.ok values, ev)
  | name :: rest, values, ev =>
    match mapGet fieldInfo (strings.ToLower name) with
    | none =>
      getTargets.loop cfg fieldInfo elemTyp elem rest (values ++ [Target.rawBytes (.bytes [])])
        (ev ++ [Event.log ("sql: column [" ++ name ++ "] not found in struct")])
    | some idx =>
      match elem.bind (fun e => e.FieldByIndex idx), elemTyp.FieldByIndex idx with
      | some _, some t =>
        let v := if cfg.ZeroIsNull then Target.ptrPtr t .nil else Target.fieldAddr idx t
        getTargets.loop cfg fieldInfo elemTyp elem rest (values ++ [v]) ev
      | _, _ => (.error (.panic "reflect: call of reflect.Value.FieldByIndex"), ev)

/-- Go `getTargets` (scan.go, lines 128-156). For the nil interface
`reflect.ValueOf(dst)` is the zero `reflect.Value` and `dstVal.Type()` (line 130)
panics before either kind check. -/
def getTargets [CaseRanges] (cfg : Config) (st : State) (dst : Option Interface)
    (columns : List String) :
    Except Failure (List Target) × State :=
  match dst with
  | none => (.error (.panic "reflect: call of reflect.Value.Type on zero Value"), st)
  | some d =>
    if d.typ.Kind ≠ Kind.Ptr then
      (.error (.error "sqlx: called with non-pointer destination"), st)
    else
      match d.typ.Elem with
      | none => (.error (.panic "reflect: Elem of invalid type"), st)
      | some elemTyp =>
        if elemTyp.Kind ≠ Kind.Struct then
          (.error (.error "sqlx: called with pointer to non-struct"), st)
        else
          match getFieldInfo cfg elemTyp st.finfos with
          | none => (.error (.panic "reflect: NumField of non-struct type"), st)
          | some (fieldInfo, finfos1) =>
            let r := getTargets.loop cfg fieldInfo elemTyp d.val.Elem columns [] st.events
            (r.1, { finfos := finfos1, events := r.2 })

/-- The reflect view `sv.Elem()` of a target `sv`: static type and current value of
what the target points to. A `*interface{}` cell is built by `ScanMap` only and is
never handed to `setTargets`; the embedding has no type for its content and gives
`none` for it. -/
def Target.deref (elem : Option Value) : Target → Option (GoType × Value)
  | .rawBytes b => some (.bytes, b)
  | .ptrPtr t cell => some (.ptr t, cell)
  | .fieldAddr index t => (elem.bind (fun e => e.walk index)).map (fun v => (t, v))
  | .iface _ => none

/-- The body of the `else` branch in the loop of `setTargets` (lines 174-180): the
struct after the commit of one matched column, or the panic reflect raises. -/
def setTargets.commit (elemTyp : GoType) (elem : Option Value) (idx : List Nat) (target : Target) :
    Except Failure Value :=
  match target.deref elem with
  | none => .error (.panic "reflect: call of reflect.Value.Elem on zero Value")
  | some (t, v) =>
    if t.Kind ≠ Kind.Ptr ∧ t.Kind ≠ Kind.Slice then
      .error (.panic "reflect: call of reflect.Value.IsNil on a non-nillable Value")
    else
      match elem.bind (fun e => e.FieldByIndex idx), elemTyp.FieldByIndex idx with
      | some _, some ft =>
        if v.isNull then
          (match elem.bind (fun e => e.setFieldByIndex idx ft.Zero) with
          | some e1 => .ok e1
          | none => .error (.panic "reflect: call of reflect.Value.FieldByIndex"))
        else
          (match t.Elem, v.Elem with
          | some t1, some v1 =>
            if t1 == ft then
              (match elem.bind (fun e => e.setFieldByIndex idx v1) with
              | some e1 => .ok e1
              | none => .error (.panic "reflect: call of reflect.Value.FieldByIndex"))
            else .error (.panic "reflect.Set: value is not assignable to the field type")
          | _, _ => .error (.panic "reflect: call of reflect.Value.Elem on slice Value"))
      | _, _ => .error (.panic "reflect: call of reflect.Value.FieldByIndex")

/-- The loop `for i, name := range columns` of `setTargets`, with `targets[i]` taken
from the front of the remaining targets. -/
def setTargets.loop [CaseRanges] (fieldInfo : fieldInfo) (elemTyp : GoType) :
    List String → List Target → Option Value → List Event →
    Option Failure × Option Value × List Event
  | [], _, elem, ev => (none, elem, ev)
  | name :: rest, targets, elem, ev =>
    match mapGet fieldInfo (strings.ToLower name) with
    | none =>
      setTargets.loop fieldInfo elemTyp rest targets.tail elem
        (ev ++ [Event.log ("sqlx: column [" ++ name ++ "] not found in struct")])
    | some idx =>
      match targets with
      | [] => (some (.panic "runtime error: index out of range"), elem, ev)
      | target :: ts =>
        match setTargets.commit elemTyp elem idx target with
        | .ok e1 => setTargets.loop fieldInfo elemTyp rest ts (some e1) ev
        | .error f => (some f, elem, ev)

/-- Rebuild the pointer value of the destination around its pointee. -/
def Value.withElem (v : Value) : Option Value → Value
  | some e => .ptr e
  | none => v

/-- Go `setTargets` (scan.go, lines 158-184): the error, the destination and the
state afterwards. -/
def setTargets [CaseRanges] (cfg : Config) (st : State) (dst : Option Interface)
    (columns : List String) (targets : List Target) : Option Failure × Option Interface × State :=
  if columns.length ≠ targets.length then
    (some (.error "sqlx: mismatch in number of columns and targets"), dst, st)
  else
    match dst with
    | none => (some (.panic "reflect: call of reflect.Value.Type on zero Value"), dst, st)
    | some d =>
      match d.typ.Elem with
      | none => (some (.panic "reflect: Elem of invalid type"), dst, st)
      | some elemTyp =>
        match getFieldInfo cfg elemTyp st.finfos with
        | none => (some (.panic "reflect: NumField of non-struct type"), dst, st)
        | some (fieldInfo, finfos1) =>
          let r := setTargets.loop fieldInfo elemTyp columns targets d.val.Elem st.events
          (r.1, some { typ := d.typ, val := d.val.withElem r.2.1 },
            { finfos := finfos1, events := r.2.2 })

/-- Go `rows.Err()`. -/
def Rows.Err (rows : Rows) : Option Failure :=
  rows.err.map Failure.error

/-- The value a destination holds (`nil` for the nil interface). -/
def Interface.value : Option Interface → Value
  | some d => d.val
  | none => .nil

/-- The destination with the value it holds replaced, its dynamic type kept. -/
def Interface.withValue : Option Interface → Value → Option Interface
  | some d, v => some { typ := d.typ, val := v }
  | none, _ => none

/-- Go `scanRow` (scan.go, lines 106-122): the returned error (or panic), the
destination and the state afterwards. -/
def scanRow [CaseRanges] (cfg : Config) (st : State) (dst : Option Interface) (rows : Rows) :
    Option Failure × Option Interface × State :=
  match rows.columns with
  | .error e => (some (.error e), dst, st)
  | .ok columns =>
    match getTargets cfg st dst columns with
    | (.error f, st1) => (some f, dst, st1)
    | (.ok targets, st1) =>
      let st2 : State := { finfos := st1.finfos, events := st1.events ++ [Event.scan targets.length] }
      match rows.Scan targets (Interface.value dst) with
      | (some f, _, d1) => (some f, Interface.withValue dst d1, st2)
      | (none, targets1, d1) =>
        match setTargets cfg st2 (Interface.withValue dst d1) columns targets1 with
        | (some f, dst1, st3) => (some f, dst1, st3)
        | (none, dst1, st3) => (rows.Err, dst1, st3)

/-- Go `ScanStruct` (scan.go, lines 80-84). -/
def ScanStruct [CaseRanges] (cfg : Config) (st : State) (rows : Rows) (dst : Option Interface) :
    Option Failure × Option Interface × State :=
  scanRow cfg st dst rows

/-- The Go type `map[string]interface{}` of the destination of `ScanMap` (an
allocated map). -/
abbrev GoMap := List (String × Value)

/-- The loop `for i, column := range columns { dst[column] = *(values[i].(*interface{})) }`
of `ScanMap`, with `values[i]` taken from the front of the remaining values. -/
def ScanMap.store : List String → List Target → GoMap → Option Failure × GoMap
  | [], _, dst => (none, dst)
  | column :: rest, .iface v :: vs, dst => ScanMap.store rest vs (mapSet dst column v)
  | _ :: _, _ :: _, dst =>
    (some (.panic "interface conversion: interface {} is not *interface {}"), dst)
  | _ :: _, [], dst => (some (.panic "runtime error: index out of range"), dst)

/-- Go `ScanMap` (scan.go, lines 86-104): the returned error (or panic), the
destination map and the state afterwards. -/
def ScanMap (st : State) (rows : Rows) (dst : GoMap) : Option Failure × GoMap × State :=
  match rows.columns with
  | .error e => (some (.error e), dst, st)
  | .ok columns =>
    let values := List.replicate columns.length (Target.iface .nil)
    let st1 : State := { finfos := st.finfos, events := st.events ++ [Event.scan values.length] }
    match rows.Scan values .nil with
    | (some f, _, _) => (some f, dst, st1)
    | (none, values1, _) =>
      match ScanMap.store columns values1 dst with
      | (some f, dst1) => (some f, dst1, st1)
      | (none, dst1) => (rows.Err, dst1, st1)

/-! ## Reference definitions for the statements -/

mutual
/-- The map `getFieldInfo` builds for a type when no cache entry is consulted: the
same loop, with the recursive calls resolved the same way. -/
def resolve (cfg : Config) : GoType → fieldInfo
  | .struct fs => resolve.loop cfg fs 0 []
  | _ => []
/-- The field loop of `resolve`. -/
def resolve.loop (cfg : Config) : List (StructField GoType) → Nat → fieldInfo → fieldInfo
  | [], _, finfo => finfo
  | f :: rest, i, finfo =>
    if f.PkgPath ≠ "" ∨ StructTag.Get f.Tag cfg.TagName = "-" then
      resolve.loop cfg rest (i + 1) finfo
    else if f.Anonymous ∧ f.Typ.Kind = Kind.Struct then
      resolve.loop cfg rest (i + 1) (mergeEmbedded finfo i (resolve cfg f.Typ))
    else
      resolve.loop cfg rest (i + 1) (mapSet finfo (columnName cfg f) [i])
end

/-- Every entry of the cache is the uncached resolution of its type. -/
def CacheValid (cfg : Config) (finfos : Cache) : Prop :=
  ∀ t m, mapGet finfos t = some m → m = resolve cfg t

/-- A field is visible and not ignored: exported, tag not `"-"`. -/
def StructField.visible (cfg : Config) (f : StructField GoType) : Prop :=
  f.PkgPath = "" ∧ StructTag.Get f.Tag cfg.TagName ≠ "-"

/-- A field is an embedded struct. -/
def StructField.embedded (f : StructField GoType) : Prop :=
  f.Anonymous = true ∧ f.Typ.Kind = Kind.Struct

instance (cfg : Config) (f : StructField GoType) : Decidable (f.visible cfg) := by
  unfold StructField.visible; infer_instance

instance (f : StructField GoType) : Decidable f.embedded := by
  unfold StructField.embedded; infer_instance

mutual
/-- The canonical names the visible, non-ignored fields of a type produce, each with
the path of the field producing it, in the order the fields are visited: declared
order, an embedded struct contributing the names of its own fields at its place. -/
def visits (cfg : Config) : GoType → List (String × List Nat)
  | .struct fs => visits.fields cfg fs 0
  | _ => []
/-- The names produced by the fields from index `i` on. -/
def visits.fields (cfg : Config) : List (StructField GoType) → Nat → List (String × List Nat)
  | [], _ => []
  | f :: rest, i =>
    (if ¬ f.visible cfg then []
     else if f.embedded then (visits cfg f.Typ).map (fun kp => (kp.1, i :: kp.2))
     else [(columnName cfg f, [i])]) ++ visits.fields cfg rest (i + 1)
end

/-- The path of the last pair with key `k` in a list of visits. -/
def lastPath (k : String) : List (String × List Nat) → Option (List Nat)
  | [] => none
  | (k1, p) :: rest =>
    match lastPath k rest with
    | some q => some q
    | none => if k1 = k then some p else none

/-- A path as the resolver may record it: every index is in range, every step but
the last goes through a visible embedded struct, and the last step reaches a
visible field that is not an embedded struct. -/
def validPath (cfg : Config) : GoType → List Nat → Bool
  | _, [] => false
  | t, i :: rest =>
    match t.Field i with
    | none => false
    | some f =>
      if rest = [] then decide (f.visible cfg ∧ ¬ f.embedded)
      else decide (f.visible cfg ∧ f.embedded) && validPath cfg f.Typ rest

/-- The value the commit step stores for a staged target: the zero value of the
cell's element type when the cell is nil, else what the cell points to. -/
def stagedValue : Target → Value
  | .ptrPtr t .nil => t.Zero
  | .ptrPtr _ (.ptr v) => v
  | _ => .nil

/-- The path a result column is matched to, if any: the lookup of lines 143 and 170. -/
def matchColumn [CaseRanges] (finfo : fieldInfo) (name : String) : Option (List Nat) :=
  mapGet finfo (strings.ToLower name)

/-- Column `i` is the last column of the list that is matched to the path `p`. -/
def lastMatch [CaseRanges] (finfo : fieldInfo) (columns : List String) (i : Nat) (p : List Nat) :
    Prop :=
  (∃ name, columns[i]? = some name ∧ matchColumn finfo name = some p) ∧
    ∀ j name, i < j → columns[j]? = some name → matchColumn finfo name ≠ some p

/-- The target `getTargets` allocates for one column (lines 142-152). -/
def targetFor [CaseRanges] (cfg : Config) (finfo : fieldInfo) (elemTyp : GoType) (name : String) :
    Target :=
  match matchColumn finfo name with
  | none => .rawBytes (.bytes [])
  | some idx =>
    let t := (elemTyp.FieldByIndex idx).getD .bytes
    if cfg.ZeroIsNull then .ptrPtr t .nil else .fieldAddr idx t

/-- A target as the cursor leaves it for a column matched to a field of the type
`elemTyp`: a staging cell of the field's type, nil or pointing to a value. -/
def Staged [CaseRanges] (finfo : fieldInfo) (elemTyp : GoType) (name : String) (target : Target) :
    Prop :=
  ∀ idx, matchColumn finfo name = some idx →
    ∃ t cell, target = .ptrPtr t cell ∧ elemTyp.FieldByIndex idx = some t ∧
      (cell = .nil ∨ ∃ v, cell = .ptr v)

/-- A target that is not a pointer into the destination. -/
def Target.isStaging : Target → Bool
  | .fieldAddr _ _ => false
  | _ => true

/-! ## Reference definitions for ToSnakeCase -/

/-- Is the rune one of the letters `A` to `Z`: the test `v >= 'A' && v <= 'Z'`. -/
def isUpperAZ (c : Char) : Bool :=
  decide ('A' ≤ c ∧ c ≤ 'Z')

/-- Every rune of the string is an ASCII character. -/
def isASCII (s : String) : Prop :=
  ∀ c ∈ s.data, c.toNat < 128

/-- The separator rule in the spec's words: one `'_'` immediately before each
character that is an uppercase letter, is not at position 0 and whose preceding
character is not an uppercase letter. `prev` is the preceding character, `none` at
position 0; every character of the input is kept, in order. -/
def snakeRef.separate : Option Char → List Char → List Char
  | _, [] => []
  | prev, c :: cs =>
    (match prev with
      | some p => if isUpperAZ c && !isUpperAZ p then ['_', c] else [c]
      | none => [c]) ++ snakeRef.separate (some c) cs

/-- The reference result for `ToSnakeCase`: separators inserted by the rule above,
then every character lower-cased. -/
def snakeRef [CaseRanges] (s : String) : String :=
  ⟨(snakeRef.separate none s.data).map unicodeToLower⟩

/-- The text cut into its maximal runs: maximal blocks of consecutive characters
that are all uppercase letters or all other characters. -/
def maximalRuns : List Char → List (List Char)
  | [] => []
  | c :: cs =>
    match maximalRuns cs with
    | (d :: r) :: rest =>
      if isUpperAZ c = isUpperAZ d then (c :: d :: r) :: rest else [c] :: (d :: r) :: rest
    | other => [c] :: other

/-- A run made of uppercase letters. -/
def runIsUpper : List Char → Bool
  | c :: _ => isUpperAZ c
  | [] => false

/-- The number of maximal runs of uppercase letters that do not start at position 0:
the uppercase runs after the first run of the text. -/
def upperRunsAfterStart (l : List Char) : Nat :=
  ((maximalRuns l).tail.filter runIsUpper).length

/-! ## Sample data -/

/-- The conversions of a driver that delivers `int64`, `string` and `bool` values:
each is stored in a destination of its own type and shown as text in a byte
slice or a string. -/
def sampleConv : Value → GoType → Except String Value
  | .int n, .int => .ok (.int n)
  | .string s, .string => .ok (.string s)
  | .bool b, .bool => .ok (.bool b)
  | .string s, .bytes => .ok (.bytes (s.data.map Char.toNat))
  | .int n, .bytes => .ok (.bytes ((toString n).data.map Char.toNat))
  | .int n, .string => .ok (.string (toString n))
  | _, _ => .error "sql: unsupported conversion"

/-- The struct `struct { ID int; Name string "db:\"full_name\"" }` of the scenarios. -/
def sampleUser : GoType :=
  .struct [⟨"ID", [], "", false, .int⟩, ⟨"Name", [("db", "full_name")], "", false, .string⟩]

/-- The cursor of the first scenario: columns `id`, `full_name`, `extra`, row
`(7, "Ada", "x")`. -/
def sampleRows : Rows :=
  { columns := .ok ["id", "full_name", "extra"],
    lastcols := [.int 7, .string "Ada", .string "x"],
    conv := sampleConv,
    err := none }

/-- The struct `struct { ID int }`. -/
def sampleInner : GoType :=
  .struct [⟨"ID", [], "", false, .int⟩]

/-- The struct `struct { Inner; ID int }` that embeds `sampleInner` and then declares a
field `ID` of its own. -/
def sampleOuter : GoType :=
  .struct [⟨"Inner", [], "", true, sampleInner⟩, ⟨"ID", [], "", false, .int⟩]

/-- A destination of type `*sampleUser` pointing to `{ID: 1, Name: "old"}`. -/
def sampleDst : Option Interface :=
  some { typ := .ptr sampleUser, val := .ptr (.struct [.int 1, .string "old"]) }

/-- The state of a fresh process: empty cache, nothing logged. -/
def State.initial : State :=
  { finfos := [], events := [] }

/-- The cursor of the second scenario: columns `id`, `full_name`, row `(NULL, "Ada")`. -/
def sampleRowsNull : Rows :=
  { columns := .ok ["id", "full_name"],
    lastcols := [.nil, .string "Ada"],
    conv := sampleConv,
    err := none }

/-- A row that delivers the column `id` twice, first NULL and then 7. -/
def sampleRowsTwice : Rows :=
  { columns := .ok ["id", "id"],
    lastcols := [.nil, .int 7],
    conv := sampleConv,
    err := none }

/-- The package variables with the null policy switched off. -/
def Config.nullOff [CaseRanges] : Config :=
  { NameMapper := ToSnakeCase, ZeroIsNull := false, TagName := "db" }

/-- A row with one matched and one unmatched column: `id`, `extra`, values `(7, "x")`. -/
def sampleRowsExtra : Rows :=
  { columns := .ok ["id", "extra"],
    lastcols := [.int 7, .string "x"],
    conv := sampleConv,
    err := none }

/-- The struct `struct { Opt int "db:\",omitempty\"" }`: a tag that starts with a comma. -/
def sampleOpt : GoType :=
  .struct [⟨"Opt", [("db", ",omitempty")], "", false, .int⟩]

/-- The struct `struct { Key int "db:\"id,PRIMARY_KEY\""; Name string }`. -/
def sampleKeyed : GoType :=
  .struct [⟨"Key", [("db", "id,PRIMARY_KEY")], "", false, .int⟩, ⟨"Name", [], "", false, .string⟩]

/-- The struct `struct { UserName string "db:\"userName\"" }`: a tag naming a column
in mixed case. -/
def sampleCamel : GoType :=
  .struct [⟨"UserName", [("db", "userName")], "", false, .string⟩]

/-- The package variables with the identity function installed as `NameMapper`. -/
def Config.identity : Config :=
  { NameMapper := fun s => s, ZeroIsNull := true, TagName := "db" }

/-- A one-column row: column `id`, value `7`. -/
def sampleRowsId : Rows :=
  { columns := .ok ["id"], lastcols := [.int 7], conv := sampleConv, err := none }

/-- A one-column row: column `ID`, value `7`. -/
def sampleRowsUpperId : Rows :=
  { columns := .ok ["ID"], lastcols := [.int 7], conv := sampleConv, err := none }

/-- A one-column row: column `userName`, value `"ada"`. -/
def sampleRowsCamel : Rows :=
  { columns := .ok ["userName"], lastcols := [.string "ada"], conv := sampleConv, err := none }

/-- A destination map that already holds the keys `id` and `keep`. -/
def sampleMap : GoMap :=
  [("id", .int 1), ("keep", .string "k")]

/-- A row with both columns of the scenario struct: `id`, `full_name`, values
`(7, "Ada")`. -/
def sampleRowsPlain : Rows :=
  { columns := .ok ["id", "full_name"],
    lastcols := [.int 7, .string "Ada"],
    conv := sampleConv,
    err := none }

/-- A row whose first value cannot be stored in the `int` field `ID`: columns `id`,
`full_name`, values `("x", "Ada")`. -/
def sampleRowsBad : Rows :=
  { columns := .ok ["full_name", "id"],
    lastcols := [.string "Ada", .string "x"],
    conv := sampleConv,
    err := none }

/-! ## Type identity -/

mutual
theorem GoType.beq_eq : ∀ (a b : GoType), GoType.beq a b = true → a = b
  | .bool, b, h => by cases b <;> simp [GoType.beq] at h ⊢
  | .int, b, h => by cases b <;> simp [GoType.beq] at h ⊢
  | .string, b, h => by cases b <;> simp [GoType.beq] at h ⊢
  | .bytes, b, h => by cases b <;> simp [GoType.beq] at h ⊢
  | .ptr a, b, h => by
    cases b <;> simp [GoType.beq] at h ⊢
    exact GoType.beq_eq _ _ h
  | .struct fs, b, h => by
    cases b <;> simp [GoType.beq] at h ⊢
    exact GoType.beqFields_eq _ _ h
theorem GoType.beqFields_eq : ∀ (fs gs : List (StructField GoType)),
    GoType.beqFields fs gs = true → fs = gs
  | [], gs, h => by cases gs <;> simp [GoType.beqFields] at h ⊢
  | f :: fs, gs, h => by
    cases gs with
    | nil => simp [GoType.beqFields] at h
    | cons g gs =>
      simp [GoType.beqFields] at h
      obtain ⟨⟨⟨⟨⟨h1, h2⟩, h3⟩, h4⟩, h5⟩, h6⟩ := h
      have e1 := GoType.beq_eq f.Typ g.Typ h5
      have e2 := GoType.beqFields_eq fs gs h6
      cases f; cases g
      simp at h1 h2 h3 h4 e1
      simp [h1, h2, h3, h4, e1, e2]
end

mutual
theorem GoType.beq_refl : ∀ (a : GoType), GoType.beq a a = true
  | .bool => by simp [GoType.beq]
  | .int => by simp [GoType.beq]
  | .string => by simp [GoType.beq]
  | .bytes => by simp [GoType.beq]
  | .ptr a => by simp [GoType.beq]; exact GoType.beq_refl a
  | .struct fs => by simp [GoType.beq]; exact GoType.beqFields_refl fs
theorem GoType.beqFields_refl : ∀ (fs : List (StructField GoType)),
    GoType.beqFields fs fs = true
  | [] => by simp [GoType.beqFields]
  | f :: fs => by
    simp [GoType.beqFields]
    exact ⟨GoType.beq_refl f.Typ, GoType.beqFields_refl fs⟩
end

instance : LawfulBEq GoType where
  eq_of_beq h := GoType.beq_eq _ _ h
  rfl := GoType.beq_refl _

/-! ## Maps -/

theorem mapGet_mapSet {κ β : Type} [BEq κ] [LawfulBEq κ] (m : List (κ × β)) (k k1 : κ) (v : β) :
    mapGet (mapSet m k v) k1 = if k == k1 then some v else mapGet m k1 := by
  induction m with
  | nil => simp [mapSet, mapGet]
  | cons e rest ih =>
    obtain ⟨k0, v0⟩ := e
    by_cases h0 : k0 = k
    · subst h0
      by_cases h1 : k0 = k1 <;> simp [mapSet, mapGet, h1]
    · by_cases h1 : k0 = k1
      · subst h1
        have : ¬ k = k0 := fun e => h0 e.symm
        simp [mapSet, mapGet, h0, this]
      · simp [mapSet, mapGet, h0, h1, ih]

theorem mapGet_mapSet_self {κ β : Type} [BEq κ] [LawfulBEq κ] (m : List (κ × β)) (k : κ) (v : β) :
    mapGet (mapSet m k v) k = some v := by
  simp [mapGet_mapSet]

theorem mem_keys_mapSet {κ β : Type} [BEq κ] [LawfulBEq κ] (m : List (κ × β)) (k k1 : κ) (v : β) :
    k1 ∈ (mapSet m k v).map Prod.fst ↔ k1 = k ∨ k1 ∈ m.map Prod.fst := by
  induction m with
  | nil => simp [mapSet]
  | cons e rest ih =>
    obtain ⟨k0, v0⟩ := e
    by_cases h0 : k0 = k
    · subst h0
      simp [mapSet]
    · simp only [mapSet, beq_iff_eq, h0, if_false, List.map_cons, List.mem_cons, ih]
      tauto

theorem nodup_keys_mapSet {κ β : Type} [BEq κ] [LawfulBEq κ] (m : List (κ × β)) (k : κ) (v : β)
    (h : (m.map Prod.fst).Nodup) : ((mapSet m k v).map Prod.fst).Nodup := by
  induction m with
  | nil => simp [mapSet]
  | cons e rest ih =>
    obtain ⟨k0, v0⟩ := e
    simp only [List.map_cons, List.nodup_cons] at h
    by_cases h0 : k0 = k
    · subst h0
      simp only [mapSet, beq_self_eq_true, if_true, List.map_cons, List.nodup_cons]
      exact h
    · simp only [mapSet, beq_iff_eq, h0, if_false, List.map_cons, List.nodup_cons]
      refine ⟨?_, ih h.2⟩
      rw [mem_keys_mapSet]
      rintro (e | e)
      · exact h0 e
      · exact h.1 e

theorem mapGet_eq_none_of_not_mem {κ β : Type} [BEq κ] [LawfulBEq κ] (m : List (κ × β)) (k : κ)
    (h : k ∉ m.map Prod.fst) : mapGet m k = none := by
  induction m with
  | nil => simp [mapGet]
  | cons e rest ih =>
    obtain ⟨k0, v0⟩ := e
    simp only [List.map_cons, List.mem_cons, not_or] at h
    have : ¬ k0 = k := fun e => h.1 e.symm
    simp [mapGet, this, ih h.2]

theorem mapGet_mem {κ β : Type} [BEq κ] [LawfulBEq κ] (m : List (κ × β)) (k : κ) (v : β)
    (h : mapGet m k = some v) : (k, v) ∈ m := by
  induction m with
  | nil => simp [mapGet] at h
  | cons e rest ih =>
    obtain ⟨k0, v0⟩ := e
    by_cases h0 : k0 = k
    · subst h0
      simp [mapGet] at h
      simp [h]
    · simp [mapGet, h0] at h
      exact List.mem_cons_of_mem _ (ih h)

theorem mapGet_of_mem {κ β : Type} [BEq κ] [LawfulBEq κ] (m : List (κ × β)) (k : κ) (v : β)
    (hn : (m.map Prod.fst).Nodup) (h : (k, v) ∈ m) : mapGet m k = some v := by
  induction m with
  | nil => simp at h
  | cons e rest ih =>
    obtain ⟨k0, v0⟩ := e
    simp only [List.map_cons, List.nodup_cons] at hn
    rcases List.mem_cons.mp h with e | h1
    · cases e
      simp [mapGet]
    · have hk : k ∈ rest.map Prod.fst := List.mem_map.mpr ⟨(k, v), h1, rfl⟩
      have : ¬ k0 = k := by
        intro e; subst e; exact hn.1 hk
      simp [mapGet, this, ih hn.2 h1]

theorem mapGet_mergeEmbedded (sub : fieldInfo) (finfo : fieldInfo) (i : Nat) (k : String)
    (hn : (sub.map Prod.fst).Nodup) :
    mapGet (mergeEmbedded finfo i sub) k =
      match mapGet sub k with
      | some p => some (i :: p)
      | none => mapGet finfo k := by
  induction sub generalizing finfo with
  | nil => simp [mergeEmbedded, mapGet]
  | cons e rest ih =>
    obtain ⟨k0, p0⟩ := e
    simp only [List.map_cons, List.nodup_cons] at hn
    have hstep : mergeEmbedded finfo i ((k0, p0) :: rest)
        = mergeEmbedded (mapSet finfo k0 (i :: p0)) i rest := by
      simp [mergeEmbedded]
    rw [hstep, ih _ hn.2]
    by_cases h0 : k0 = k
    · subst h0
      rw [mapGet_eq_none_of_not_mem rest k0 hn.1]
      simp [mapGet, mapGet_mapSet]
    · simp [mapGet, h0, mapGet_mapSet]

theorem nodup_keys_mergeEmbedded (sub : fieldInfo) (finfo : fieldInfo) (i : Nat)
    (h : (finfo.map Prod.fst).Nodup) : ((mergeEmbedded finfo i sub).map Prod.fst).Nodup := by
  induction sub generalizing finfo with
  | nil => simpa [mergeEmbedded] using h
  | cons e rest ih =>
    have hstep : mergeEmbedded finfo i (e :: rest)
        = mergeEmbedded (mapSet finfo e.1 (i :: e.2)) i rest := by
      simp [mergeEmbedded]
    rw [hstep]
    exact ih _ (nodup_keys_mapSet _ _ _ h)

/-! ## The cache returns the uncached resolution -/

theorem cacheValid_nil (cfg : Config) : CacheValid cfg [] := by
  intro t m h
  simp [mapGet] at h

theorem cacheValid_mapSet (cfg : Config) (c : Cache) (t : GoType) (h : CacheValid cfg c) :
    CacheValid cfg (mapSet c t (resolve cfg t)) := by
  intro t1 m hm
  rw [mapGet_mapSet] at hm
  by_cases e : t = t1
  · subst e
    simp at hm
    exact hm.symm
  · simp [e] at hm
    exact h t1 m hm

mutual
theorem getFieldInfo_valid (cfg : Config) : ∀ (t : GoType) (c : Cache), CacheValid cfg c →
    t.Kind = Kind.Struct →
    ∃ c1, getFieldInfo cfg t c = some (resolve cfg t, c1) ∧ CacheValid cfg c1
  | .struct fs, c, hc, _ => by
    rw [getFieldInfo]
    cases hg : mapGet c (GoType.struct fs) with
    | some m =>
      have := hc _ _ hg
      subst this
      exact ⟨c, rfl, hc⟩
    | none =>
      obtain ⟨c1, h1, hc1⟩ := getFieldInfo_loop_valid cfg fs 0 [] c hc
      simp only [h1]
      refine ⟨mapSet c1 (GoType.struct fs) (resolve.loop cfg fs 0 []), ?_, ?_⟩
      · simp [resolve]
      · have := cacheValid_mapSet cfg c1 (GoType.struct fs) hc1
        simpa [resolve] using this
  | .bool, _, _, h => by simp [GoType.Kind] at h
  | .int, _, _, h => by simp [GoType.Kind] at h
  | .string, _, _, h => by simp [GoType.Kind] at h
  | .bytes, _, _, h => by simp [GoType.Kind] at h
  | .ptr _, _, _, h => by simp [GoType.Kind] at h
theorem getFieldInfo_loop_valid (cfg : Config) : ∀ (fs : List (StructField GoType)) (i : Nat)
    (acc : fieldInfo) (c : Cache), CacheValid cfg c →
    ∃ c1, getFieldInfo.loop cfg fs i acc c = some (resolve.loop cfg fs i acc, c1)
      ∧ CacheValid cfg c1
  | [], i, acc, c, hc => ⟨c, by simp [getFieldInfo.loop, resolve.loop], hc⟩
  | f :: rest, i, acc, c, hc => by
    rw [getFieldInfo.loop, resolve.loop]
    by_cases hskip : f.PkgPath ≠ "" ∨ StructTag.Get f.Tag cfg.TagName = "-"
    · simp only [hskip, if_true]
      exact getFieldInfo_loop_valid cfg rest (i + 1) acc c hc
    · simp only [hskip, if_false]
      by_cases hemb : f.Anonymous = true ∧ f.Typ.Kind = Kind.Struct
      · simp only [hemb, and_self, if_true]
        obtain ⟨c1, h1, hc1⟩ := getFieldInfo_valid cfg f.Typ c hc hemb.2
        simp only [h1]
        exact getFieldInfo_loop_valid cfg rest (i + 1) _ c1 hc1
      · simp only [hemb, if_false]
        exact getFieldInfo_loop_valid cfg rest (i + 1) _ c hc
end

/-! ## Resolution against the visit order -/

theorem lastPath_append (k : String) (l1 l2 : List (String × List Nat)) :
    lastPath k (l1 ++ l2) =
      match lastPath k l2 with
      | some q => some q
      | none => lastPath k l1 := by
  induction l1 with
  | nil => cases h : lastPath k l2 <;> simp [lastPath, h]
  | cons e rest ih =>
    obtain ⟨k0, p0⟩ := e
    have e : (k0, p0) :: rest ++ l2 = (k0, p0) :: (rest ++ l2) := rfl
    rw [e, lastPath, lastPath, ih]
    cases lastPath k l2 <;> simp

theorem lastPath_map_cons (k : String) (i : Nat) (l : List (String × List Nat)) :
    lastPath k (l.map (fun kp => (kp.1, i :: kp.2))) = (lastPath k l).map (fun p => i :: p) := by
  induction l with
  | nil => simp [lastPath]
  | cons e rest ih =>
    obtain ⟨k0, p0⟩ := e
    simp only [List.map_cons, lastPath, ih]
    cases lastPath k rest with
    | some q => simp
    | none => by_cases h : k0 = k <;> simp [h]

theorem lastPath_mem (k : String) (l : List (String × List Nat)) (p : List Nat)
    (h : lastPath k l = some p) : (k, p) ∈ l := by
  induction l with
  | nil => simp [lastPath] at h
  | cons e rest ih =>
    obtain ⟨k0, p0⟩ := e
    simp only [lastPath] at h
    cases hr : lastPath k rest with
    | some q =>
      rw [hr] at h
      simp at h
      subst h
      exact List.mem_cons_of_mem _ (ih hr)
    | none =>
      rw [hr] at h
      by_cases e : k0 = k
      · simp [e] at h
        simp [e, h]
      · simp [e] at h

theorem lastPath_isSome_of_mem (k : String) (l : List (String × List Nat)) (p : List Nat)
    (h : (k, p) ∈ l) : ∃ q, lastPath k l = some q := by
  induction l with
  | nil => simp at h
  | cons e rest ih =>
    obtain ⟨k0, p0⟩ := e
    simp only [lastPath]
    cases hr : lastPath k rest with
    | some q => exact ⟨q, rfl⟩
    | none =>
      rcases List.mem_cons.mp h with e | h1
      · cases e
        simp
      · obtain ⟨q, hq⟩ := ih h1
        rw [hr] at hq
        cases hq

theorem lastPath_eq_none (k : String) (l : List (String × List Nat))
    (h : lastPath k l = none) : ∀ p, (k, p) ∉ l := by
  intro p hp
  obtain ⟨q, hq⟩ := lastPath_isSome_of_mem k l p hp
  rw [h] at hq
  cases hq

theorem lastPath_split (k : String) (l : List (String × List Nat)) (p : List Nat)
    (h : lastPath k l = some p) :
    ∃ l1 l2, l = l1 ++ (k, p) :: l2 ∧ ∀ q, (k, q) ∉ l2 := by
  induction l with
  | nil => simp [lastPath] at h
  | cons e rest ih =>
    obtain ⟨k0, p0⟩ := e
    simp only [lastPath] at h
    cases hr : lastPath k rest with
    | some q =>
      rw [hr] at h
      simp at h
      subst h
      obtain ⟨l1, l2, e, hn⟩ := ih hr
      exact ⟨(k0, p0) :: l1, l2, by simp [e], hn⟩
    | none =>
      rw [hr] at h
      by_cases e : k0 = k
      · simp [e] at h
        subst h
        subst e
        exact ⟨[], rest, rfl, lastPath_eq_none _ _ hr⟩
      · simp [e] at h

mutual
theorem resolve_spec (cfg : Config) : ∀ (t : GoType),
    ((resolve cfg t).map Prod.fst).Nodup ∧
      ∀ k, mapGet (resolve cfg t) k = lastPath k (visits cfg t)
  | .struct fs => by
    have h := resolve_loop_spec cfg fs 0 [] (by simp)
    refine ⟨by simpa [resolve] using h.1, fun k => ?_⟩
    have h2 := h.2 k
    simp only [resolve, visits]
    rw [h2]
    cases lastPath k (visits.fields cfg fs 0) <;> simp [mapGet]
  | .bool => by simp [resolve, visits, mapGet, lastPath]
  | .int => by simp [resolve, visits, mapGet, lastPath]
  | .string => by simp [resolve, visits, mapGet, lastPath]
  | .bytes => by simp [resolve, visits, mapGet, lastPath]
  | .ptr _ => by simp [resolve, visits, mapGet, lastPath]
theorem resolve_loop_spec (cfg : Config) : ∀ (fs : List (StructField GoType)) (i : Nat)
    (acc : fieldInfo), (acc.map Prod.fst).Nodup →
    ((resolve.loop cfg fs i acc).map Prod.fst).Nodup ∧
      ∀ k, mapGet (resolve.loop cfg fs i acc) k =
        match lastPath k (visits.fields cfg fs i) with
        | some q => some q
        | none => mapGet acc k
  | [], i, acc, hacc => by simp [resolve.loop, visits.fields, lastPath, hacc]
  | f :: rest, i, acc, hacc => by
    rw [resolve.loop, visits.fields]
    by_cases hskip : f.PkgPath ≠ "" ∨ StructTag.Get f.Tag cfg.TagName = "-"
    · have hv : ¬ f.visible cfg := by
        unfold StructField.visible
        intro hv
        rcases hskip with h | h
        · exact h hv.1
        · exact hv.2 h
      simp only [hskip, if_true, hv, not_false_eq_true, List.nil_append]
      exact resolve_loop_spec cfg rest (i + 1) acc hacc
    · have hv : f.visible cfg := by
        unfold StructField.visible
        simp only [not_or, not_not] at hskip
        exact ⟨hskip.1, hskip.2⟩
      simp only [hskip, if_false, hv, not_true_eq_false]
      by_cases hemb : f.Anonymous = true ∧ f.Typ.Kind = Kind.Struct
      · have he : f.embedded := hemb
        simp only [hemb, and_self, if_true, he]
        have hsub := resolve_spec cfg f.Typ
        have h := resolve_loop_spec cfg rest (i + 1) (mergeEmbedded acc i (resolve cfg f.Typ))
          (nodup_keys_mergeEmbedded _ _ _ hacc)
        refine ⟨h.1, fun k => ?_⟩
        rw [h.2 k, lastPath_append, mapGet_mergeEmbedded _ _ _ _ hsub.1, hsub.2 k,
          lastPath_map_cons]
        cases lastPath k (visits.fields cfg rest (i + 1)) with
        | some q => rfl
        | none => cases lastPath k (visits cfg f.Typ) <;> rfl
      · have he : ¬ f.embedded := hemb
        simp only [hemb, if_false, he]
        have h := resolve_loop_spec cfg rest (i + 1) (mapSet acc (columnName cfg f) [i])
          (nodup_keys_mapSet _ _ _ hacc)
        refine ⟨h.1, fun k => ?_⟩
        rw [h.2 k, lastPath_append, mapGet_mapSet]
        cases lastPath k (visits.fields cfg rest (i + 1)) with
        | some q => rfl
        | none =>
          by_cases e : columnName cfg f = k <;> simp [lastPath, e]
end

/-! ## Shape of the recorded paths -/

theorem validPath_struct_succ (cfg : Config) (f : StructField GoType)
    (rest : List (StructField GoType)) (j : Nat) (q : List Nat) :
    validPath cfg (.struct (f :: rest)) ((j + 1) :: q) = validPath cfg (.struct rest) (j :: q) := by
  simp [validPath, GoType.Field]

/-- Where the last visit of a key comes from: a field of the list, which is either a
leaf producing the key itself or an embedded struct whose own last visit of the
key it is. -/
theorem lastPath_visits_fields (cfg : Config) : ∀ (fs : List (StructField GoType)) (i0 : Nat)
    (k : String) (p : List Nat), lastPath k (visits.fields cfg fs i0) = some p →
    ∃ j f, fs[j]? = some f ∧ f.visible cfg ∧
      ((¬ f.embedded ∧ p = [i0 + j] ∧ k = columnName cfg f) ∨
       (f.embedded ∧ ∃ q, p = (i0 + j) :: q ∧ lastPath k (visits cfg f.Typ) = some q))
  | [], i0, k, p, h => by simp [visits.fields, lastPath] at h
  | f :: rest, i0, k, p, h => by
    rw [visits.fields, lastPath_append] at h
    cases hr : lastPath k (visits.fields cfg rest (i0 + 1)) with
    | some q =>
      rw [hr] at h
      simp only [Option.some.injEq] at h
      subst h
      obtain ⟨j, g, hj, hv, hcase⟩ := lastPath_visits_fields cfg rest (i0 + 1) k q hr
      refine ⟨j + 1, g, by simpa using hj, hv, ?_⟩
      have e : i0 + 1 + j = i0 + (j + 1) := by omega
      rw [e] at hcase
      exact hcase
    | none =>
      rw [hr] at h
      simp only at h
      by_cases hv : f.visible cfg
      · by_cases he : f.embedded
        · simp only [hv, not_true_eq_false, if_false, he, if_true] at h
          rw [lastPath_map_cons] at h
          cases hs : lastPath k (visits cfg f.Typ) with
          | none => rw [hs] at h; simp at h
          | some q =>
            rw [hs] at h
            simp only [Option.map_some', Option.some.injEq] at h
            exact ⟨0, f, by simp, hv, Or.inr ⟨he, q, by simp [← h], hs⟩⟩
        · simp only [hv, not_true_eq_false, if_false, he] at h
          by_cases e : columnName cfg f = k
          · simp [lastPath, e] at h
            exact ⟨0, f, by simp, hv, Or.inl ⟨he, by simp [← h], e.symm⟩⟩
          · simp [lastPath, e] at h
      · simp [hv, lastPath] at h

theorem lastPath_visits_struct (cfg : Config) (fs : List (StructField GoType))
    (k : String) (p : List Nat) (h : lastPath k (visits cfg (.struct fs)) = some p) :
    ∃ j f, fs[j]? = some f ∧ f.visible cfg ∧
      ((¬ f.embedded ∧ p = [j] ∧ k = columnName cfg f) ∨
       (f.embedded ∧ ∃ q, p = j :: q ∧ lastPath k (visits cfg f.Typ) = some q)) := by
  have := lastPath_visits_fields cfg fs 0 k p (by simpa [visits] using h)
  simpa using this

theorem lastPath_visits_ne_nil (cfg : Config) (t : GoType) (k : String) (p : List Nat)
    (h : lastPath k (visits cfg t) = some p) : p ≠ [] := by
  cases t with
  | struct fs =>
    obtain ⟨j, f, _, _, hc⟩ := lastPath_visits_struct cfg fs k p h
    rcases hc with ⟨_, e, _⟩ | ⟨_, q, e, _⟩ <;> simp [e]
  | _ => simp [visits, lastPath] at h

/-- Every recorded path is valid; by induction on the length of the path. -/
theorem validPath_of_lastPath (cfg : Config) : ∀ (p : List Nat) (t : GoType) (k : String),
    lastPath k (visits cfg t) = some p → validPath cfg t p = true
  | [], t, k, h => absurd rfl (lastPath_visits_ne_nil cfg t k [] h)
  | i :: rest, t, k, h => by
    cases t with
    | struct fs =>
      obtain ⟨j, f, hj, hv, hc⟩ := lastPath_visits_struct cfg fs k _ h
      rcases hc with ⟨he, e, _⟩ | ⟨he, q, e, hq⟩
      · simp only [List.cons.injEq] at e
        obtain ⟨e1, e2⟩ := e
        subst e1 e2
        simp [validPath, GoType.Field, hj, hv, he]
      · simp only [List.cons.injEq] at e
        obtain ⟨e1, e2⟩ := e
        subst e1 e2
        have hne := lastPath_visits_ne_nil cfg f.Typ k rest hq
        have ih := validPath_of_lastPath cfg rest f.Typ k hq
        simp [validPath, GoType.Field, hj, hv, he, hne, ih]
    | _ => simp [visits, lastPath] at h

theorem validPath_typeField (cfg : Config) : ∀ (p : List Nat) (t : GoType),
    validPath cfg t p = true → ∃ u, t.FieldByIndex p = some u
  | [], t, h => by simp [validPath] at h
  | i :: rest, t, h => by
    rw [validPath] at h
    cases hf : t.Field i with
    | none => simp [hf] at h
    | some f =>
      simp only [hf] at h
      by_cases hr : rest = []
      · subst hr
        exact ⟨f.Typ, by simp [GoType.FieldByIndex, hf]⟩
      · simp only [hr, if_false, Bool.and_eq_true] at h
        obtain ⟨u, hu⟩ := validPath_typeField cfg rest f.Typ h.2
        exact ⟨u, by simp [GoType.FieldByIndex, hf, hu]⟩

/-- No recorded path extends another one. -/
theorem validPath_isPrefix_eq (cfg : Config) : ∀ (p q : List Nat) (t : GoType),
    validPath cfg t p = true → validPath cfg t q = true → p <+: q → p = q
  | [], q, t, hp, _, _ => by simp [validPath] at hp
  | i :: rest, [], t, _, hq, _ => by simp [validPath] at hq
  | i :: rest, j :: rest2, t, hp, hq, hpre => by
    have hh : i = j ∧ rest <+: rest2 := by
      obtain ⟨s, hs⟩ := hpre
      simp only [List.cons_append, List.cons.injEq] at hs
      exact ⟨hs.1, ⟨s, hs.2⟩⟩
    obtain ⟨e, hpre2⟩ := hh
    subst e
    rw [validPath] at hp hq
    cases hf : t.Field i with
    | none => simp [hf] at hp
    | some f =>
      simp only [hf] at hp hq
      by_cases hr : rest = []
      · subst hr
        simp only [if_true, decide_eq_true_eq] at hp
        by_cases hr2 : rest2 = []
        · subst hr2; rfl
        · simp only [hr2, if_false, Bool.and_eq_true, decide_eq_true_eq] at hq
          exact absurd hq.1.2 hp.2
      · simp only [hr, if_false, Bool.and_eq_true, decide_eq_true_eq] at hp
        by_cases hr2 : rest2 = []
        · subst hr2
          have : rest = [] := List.eq_nil_of_prefix_nil hpre2
          exact absurd this hr
        · simp only [hr2, if_false, Bool.and_eq_true] at hq
          have := validPath_isPrefix_eq cfg rest rest2 f.Typ hp.2 hq.2 hpre2
          rw [this]

/-! ## Reading and writing fields -/

theorem hasTypeFields_get : ∀ (fs : List (StructField GoType)) (vs : List Value) (i : Nat)
    (f : StructField GoType), hasTypeFields fs vs = true → fs[i]? = some f →
    ∃ x, vs[i]? = some x ∧ hasType f.Typ x = true
  | [], _, i, f, _, hf => by simp at hf
  | g :: fs, [], i, f, h, _ => by simp [hasTypeFields] at h
  | g :: fs, v :: vs, 0, f, h, hf => by
    simp only [hasTypeFields, Bool.and_eq_true] at h
    simp only [List.getElem?_cons_zero, Option.some.injEq] at hf
    subst hf
    exact ⟨v, by simp, h.1⟩
  | g :: fs, v :: vs, i + 1, f, h, hf => by
    simp only [hasTypeFields, Bool.and_eq_true] at h
    simp only [List.getElem?_cons_succ] at hf
    obtain ⟨x, hx, ht⟩ := hasTypeFields_get fs vs i f h.2 hf
    exact ⟨x, by simpa using hx, ht⟩

theorem hasType_walk : ∀ (p : List Nat) (t : GoType) (v : Value) (u : GoType),
    hasType t v = true → t.FieldByIndex p = some u →
    ∃ x, v.walk p = some x ∧ hasType u x = true
  | [], t, v, u, h, hu => by
    simp only [GoType.FieldByIndex, Option.some.injEq] at hu
    subst hu
    exact ⟨v, rfl, h⟩
  | i :: rest, t, v, u, h, hu => by
    rw [GoType.FieldByIndex] at hu
    cases hf : t.Field i with
    | none => simp [hf] at hu
    | some f =>
      simp only [hf] at hu
      cases t with
      | struct fs =>
        cases v with
        | struct vs =>
          simp only [hasType] at h
          simp only [GoType.Field] at hf
          obtain ⟨x, hx, hxt⟩ := hasTypeFields_get fs vs i f h hf
          obtain ⟨y, hy, hyt⟩ := hasType_walk rest f.Typ x u hxt hu
          exact ⟨y, by simp [Value.walk, Value.Field, hx, hy], hyt⟩
        | _ => simp [hasType] at h
      | _ => simp [GoType.Field] at hf

theorem FieldByIndex_eq_walk (v : Value) (p : List Nat) (h : p ≠ []) :
    v.FieldByIndex p = v.walk p := by
  cases p with
  | nil => exact absurd rfl h
  | cons i rest => rfl

theorem setWalk_isSome : ∀ (p : List Nat) (v y x : Value), v.walk p = some y →
    ∃ v1, v.setWalk p x = some v1
  | [], v, y, x, _ => ⟨x, by simp [Value.setWalk]⟩
  | i :: rest, v, y, x, h => by
    cases v with
    | struct vs =>
      simp only [Value.walk, Value.Field] at h
      cases hw : vs[i]? with
      | none => simp [hw] at h
      | some w =>
        simp only [hw] at h
        obtain ⟨w1, hw1⟩ := setWalk_isSome rest w y x h
        exact ⟨.struct (vs.set i w1), by simp [Value.setWalk, hw, hw1]⟩
    | _ => simp [Value.walk, Value.Field] at h

theorem walk_setWalk_same : ∀ (p : List Nat) (v x v1 : Value), v.setWalk p x = some v1 →
    v1.walk p = some x
  | [], v, x, v1, h => by
    simp only [Value.setWalk, Option.some.injEq] at h
    subst h
    rfl
  | i :: rest, v, x, v1, h => by
    cases v with
    | struct vs =>
      simp only [Value.setWalk] at h
      cases hw : vs[i]? with
      | none => simp [hw] at h
      | some w =>
        simp only [hw] at h
        cases hs : w.setWalk rest x with
        | none => simp [hs] at h
        | some w1 =>
          simp only [hs, Option.some.injEq] at h
          subst h
          have hi : i < vs.length := by
            rcases Nat.lt_or_ge i vs.length with hlt | hge
            · exact hlt
            · rw [List.getElem?_eq_none hge] at hw; cases hw
          have := walk_setWalk_same rest w x w1 hs
          simp [Value.walk, Value.Field, List.getElem?_set, hi, this]
    | _ => simp [Value.setWalk] at h

theorem walk_setWalk_frame : ∀ (q : List Nat) (v x v1 : Value) (p : List Nat),
    v.setWalk q x = some v1 → ¬ q <+: p → ¬ p <+: q → v1.walk p = v.walk p
  | [], v, x, v1, p, _, hqp, _ => absurd (List.nil_prefix) hqp
  | i :: qr, v, x, v1, [], _, _, hpq => absurd (List.nil_prefix) hpq
  | i :: qr, v, x, v1, j :: pr, h, hqp, hpq => by
    cases v with
    | struct vs =>
      simp only [Value.setWalk] at h
      cases hw : vs[i]? with
      | none => simp [hw] at h
      | some w =>
        simp only [hw] at h
        cases hs : w.setWalk qr x with
        | none => simp [hs] at h
        | some w1 =>
          simp only [hs, Option.some.injEq] at h
          subst h
          have hi : i < vs.length := by
            rcases Nat.lt_or_ge i vs.length with hlt | hge
            · exact hlt
            · rw [List.getElem?_eq_none hge] at hw; cases hw
          by_cases e : i = j
          · subst e
            have h1 : ¬ qr <+: pr := fun hh => hqp ((List.prefix_cons_inj i).mpr hh)
            have h2 : ¬ pr <+: qr := fun hh => hpq ((List.prefix_cons_inj i).mpr hh)
            have := walk_setWalk_frame qr w x w1 pr hs h1 h2
            simp [Value.walk, Value.Field, List.getElem?_set, hi, hw, this]
          · simp [Value.walk, Value.Field, List.getElem?_set, e]
    | _ => simp [Value.setWalk] at h

/-! ## The commit of one staged column -/

theorem commit_staged (elemTyp : GoType) (elem : Value) (idx : List Nat) (t : GoType)
    (cell y : Value) (hne : idx ≠ []) (ht : elemTyp.FieldByIndex idx = some t)
    (hy : elem.walk idx = some y) (hcell : cell = .nil ∨ ∃ v, cell = .ptr v) :
    ∃ e1, setTargets.commit elemTyp (some elem) idx (.ptrPtr t cell) = .ok e1 ∧
      elem.setWalk idx (stagedValue (.ptrPtr t cell)) = some e1 := by
  obtain ⟨e1, he1⟩ := setWalk_isSome idx elem y (stagedValue (.ptrPtr t cell)) hy
  refine ⟨e1, ?_, he1⟩
  have hfb : elem.FieldByIndex idx = some y := by rw [FieldByIndex_eq_walk _ _ hne, hy]
  rcases hcell with e | ⟨v, e⟩
  · subst e
    simp only [stagedValue] at he1
    simp [setTargets.commit, Target.deref, GoType.Kind, hfb, ht, Value.isNull,
      Value.setFieldByIndex, he1]
  · subst e
    simp only [stagedValue] at he1
    simp [setTargets.commit, Target.deref, GoType.Kind, hfb, ht, Value.isNull,
      Value.setFieldByIndex, he1, GoType.Elem, Value.Elem]

/-! ## The loops of getTargets, Scan and setTargets on staged targets -/

theorem lastMatch_succ [CaseRanges] (finfo : fieldInfo) (name : String) (rest : List String) (i : Nat)
    (p : List Nat) (h : lastMatch finfo (name :: rest) (i + 1) p) : lastMatch finfo rest i p := by
  obtain ⟨⟨n, hn, hm⟩, hlast⟩ := h
  refine ⟨⟨n, by simpa using hn, hm⟩, ?_⟩
  intro j n1 hij hj
  exact hlast (j + 1) n1 (by omega) (by simpa using hj)

theorem lastMatch_zero [CaseRanges] (finfo : fieldInfo) (name : String) (rest : List String)
    (p : List Nat) (h : lastMatch finfo (name :: rest) 0 p) :
    matchColumn finfo name = some p ∧ ∀ n ∈ rest, matchColumn finfo n ≠ some p := by
  obtain ⟨⟨n, hn, hm⟩, hlast⟩ := h
  simp only [List.getElem?_cons_zero, Option.some.injEq] at hn
  subst hn
  refine ⟨hm, ?_⟩
  intro n1 hmem
  obtain ⟨j, hj, hje⟩ := List.getElem_of_mem hmem
  refine hlast (j + 1) n1 (by omega) ?_
  simp [List.getElem?_eq_getElem hj, hje]

theorem getTargets_loop_spec [CaseRanges] (cfg : Config) (finfo : fieldInfo) (elemTyp : GoType)
    (elem : Value) :
    ∀ (cols : List String) (values : List Target) (ev : List Event),
    (∀ name ∈ cols, ∀ p, matchColumn finfo name = some p →
      p ≠ [] ∧ (∃ y, elem.walk p = some y) ∧ ∃ t, elemTyp.FieldByIndex p = some t) →
    ∃ ev1, getTargets.loop cfg finfo elemTyp (some elem) cols values ev
      = (.ok (values ++ cols.map (targetFor cfg finfo elemTyp)), ev1)
  | [], values, ev, _ => ⟨ev, by simp [getTargets.loop]⟩
  | name :: rest, values, ev, h => by
    have hrest : ∀ n ∈ rest, ∀ p, matchColumn finfo n = some p →
        p ≠ [] ∧ (∃ y, elem.walk p = some y) ∧ ∃ t, elemTyp.FieldByIndex p = some t :=
      fun n hn => h n (List.mem_cons_of_mem _ hn)
    rw [getTargets.loop]
    cases hm : mapGet finfo (strings.ToLower name) with
    | none =>
      obtain ⟨ev1, h1⟩ := getTargets_loop_spec cfg finfo elemTyp elem rest
        (values ++ [Target.rawBytes (.bytes [])])
        (ev ++ [Event.log ("sql: column [" ++ name ++ "] not found in struct")]) hrest
      exact ⟨ev1, by simp [h1, targetFor, matchColumn, hm]⟩
    | some idx =>
      obtain ⟨hne, ⟨y, hy⟩, t, ht⟩ := h name (List.mem_cons_self _ _) idx hm
      have hfb : elem.FieldByIndex idx = some y := by rw [FieldByIndex_eq_walk _ _ hne, hy]
      obtain ⟨ev1, h1⟩ := getTargets_loop_spec cfg finfo elemTyp elem rest
        (values ++ [if cfg.ZeroIsNull then Target.ptrPtr t .nil else Target.fieldAddr idx t]) ev hrest
      refine ⟨ev1, ?_⟩
      simp only [Option.bind, hfb, ht]
      rw [h1]
      simp [targetFor, matchColumn, hm, ht]

theorem assign_staging (rows : Rows) (d src : Value) (target t1 : Target) (d1 : Value)
    (hs : target.isStaging = true) (h : rows.assign d src target = .ok (t1, d1)) : d1 = d := by
  cases target with
  | rawBytes b =>
    simp only [Rows.assign] at h
    cases hc : rows.convertAssign src .bytes with
    | ok y => simp [hc] at h; exact h.2.symm
    | error e => simp [hc] at h
  | ptrPtr t cell =>
    simp only [Rows.assign] at h
    cases hc : rows.convertAssign src (.ptr t) with
    | ok y => simp [hc] at h; exact h.2.symm
    | error e => simp [hc] at h
  | fieldAddr idx t => simp [Target.isStaging] at hs
  | iface v =>
    simp only [Rows.assign, Except.ok.injEq, Prod.mk.injEq] at h
    exact h.2.symm

theorem scan_loop_staging (rows : Rows) : ∀ (srcs : List Value) (targets : List Target)
    (d : Value) (targets1 : List Target) (d1 : Value),
    srcs.length = targets.length → (∀ t ∈ targets, t.isStaging = true) →
    Rows.Scan.loop rows srcs targets d = (none, targets1, d1) →
    d1 = d ∧ targets1.length = targets.length ∧
      ∀ (i : Nat) (target : Target), targets[i]? = some target →
        ∃ src t1, srcs[i]? = some src ∧ rows.assign d src target = .ok (t1, d)
          ∧ targets1[i]? = some t1
  | [], [], d, targets1, d1, _, _, h => by
    simp only [Rows.Scan.loop, Prod.mk.injEq, true_and] at h
    obtain ⟨h1, h2⟩ := h
    subst h1 h2
    simp
  | [], _ :: _, d, targets1, d1, hl, _, _ => by simp at hl
  | _ :: _, [], d, targets1, d1, hl, _, _ => by simp at hl
  | src :: srcs, target :: targets, d, targets1, d1, hl, hs, h => by
    rw [Rows.Scan.loop] at h
    cases ha : rows.assign d src target with
    | error e => simp [ha] at h
    | ok r =>
      obtain ⟨t1, d2⟩ := r
      have hd2 : d2 = d := assign_staging rows d src target t1 d2
        (hs target (List.mem_cons_self _ _)) ha
      subst hd2
      simp only [ha, Prod.mk.injEq] at h
      obtain ⟨he, ht, hd⟩ := h
      have hrec := scan_loop_staging rows srcs targets d2
        (Rows.Scan.loop rows srcs targets d2).2.1 (Rows.Scan.loop rows srcs targets d2).2.2
        (by simpa using hl) (fun t hm => hs t (List.mem_cons_of_mem _ hm))
        (by rw [← he])
      obtain ⟨h1, h2, h3⟩ := hrec
      refine ⟨by rw [← hd, h1], by rw [← ht]; simp [h2], ?_⟩
      intro i tg hi
      cases i with
      | zero =>
        simp only [List.getElem?_cons_zero, Option.some.injEq] at hi
        subst hi
        exact ⟨src, t1, by simp, ha, by rw [← ht]; simp⟩
      | succ i =>
        simp only [List.getElem?_cons_succ] at hi
        obtain ⟨s, t2, hs1, hs2, hs3⟩ := h3 i tg hi
        exact ⟨s, t2, by simpa using hs1, hs2, by rw [← ht]; simpa using hs3⟩

theorem setTargets_loop_spec [CaseRanges] (cfg : Config) (finfo : fieldInfo) (elemTyp : GoType)
    (hvalid : ∀ name p, matchColumn finfo name = some p → validPath cfg elemTyp p = true) :
    ∀ (cols : List String) (targets : List Target) (elem : Value) (ev : List Event),
    cols.length = targets.length →
    (∀ (i : Nat) (name : String) (target : Target), cols[i]? = some name → targets[i]? = some target →
      Staged finfo elemTyp name target) →
    (∀ name ∈ cols, ∀ p, matchColumn finfo name = some p → ∃ y, elem.walk p = some y) →
    ∃ elem1 ev1, setTargets.loop finfo elemTyp cols targets (some elem) ev
        = (none, some elem1, ev1) ∧
      (∀ (i : Nat) (p : List Nat) (target : Target), lastMatch finfo cols i p → targets[i]? = some target →
        elem1.walk p = some (stagedValue target)) ∧
      (∀ q, (∀ name ∈ cols, ∀ p, matchColumn finfo name = some p → ¬ p <+: q ∧ ¬ q <+: p) →
        elem1.walk q = elem.walk q)
  | [], targets, elem, ev, _, _, _ => by
    refine ⟨elem, ev, by simp [setTargets.loop], ?_, fun q _ => rfl⟩
    intro i p target h
    obtain ⟨⟨n, hn, _⟩, _⟩ := h
    simp at hn
  | name :: rest, [], elem, ev, hl, _, _ => by simp at hl
  | name :: rest, target :: ts, elem, ev, hl, hst, hex => by
    have hl1 : rest.length = ts.length := by simpa using hl
    have hst1 : ∀ (i : Nat) (n : String) (tg : Target), rest[i]? = some n → ts[i]? = some tg → Staged finfo elemTyp n tg :=
      fun i n tg h1 h2 => hst (i + 1) n tg (by simpa using h1) (by simpa using h2)
    rw [setTargets.loop]
    cases hm : mapGet finfo (strings.ToLower name) with
    | none =>
      have hex1 : ∀ n ∈ rest, ∀ p, matchColumn finfo n = some p → ∃ y, elem.walk p = some y :=
        fun n hn => hex n (List.mem_cons_of_mem _ hn)
      obtain ⟨e1, ev1, h1, hA, hB⟩ := setTargets_loop_spec cfg finfo elemTyp hvalid rest ts elem
        (ev ++ [Event.log ("sqlx: column [" ++ name ++ "] not found in struct")]) hl1 hst1 hex1
      refine ⟨e1, ev1, by simpa using h1, ?_, ?_⟩
      · intro i p tg hlm htg
        cases i with
        | zero =>
          have := (lastMatch_zero finfo name rest p hlm).1
          simp [matchColumn, hm] at this
        | succ i =>
          exact hA i p tg (lastMatch_succ finfo name rest i p hlm) (by simpa using htg)
      · intro q hq
        exact hB q (fun n hn => hq n (List.mem_cons_of_mem _ hn))
    | some idx =>
      have hmc : matchColumn finfo name = some idx := hm
      obtain ⟨t, cell, htg, htyp, hcell⟩ := hst 0 name target (by simp) (by simp) idx hmc
      subst htg
      obtain ⟨y, hy⟩ := hex name (List.mem_cons_self _ _) idx hmc
      have hvp := hvalid name idx hmc
      have hne : idx ≠ [] := by
        intro e; subst e; simp [validPath] at hvp
      obtain ⟨e1, hc1, hs1⟩ := commit_staged elemTyp elem idx t cell y hne htyp hy hcell
      have hex1 : ∀ n ∈ rest, ∀ p, matchColumn finfo n = some p → ∃ y, e1.walk p = some y := by
        intro n hn p hp
        by_cases e : p = idx
        · subst e
          exact ⟨_, walk_setWalk_same _ _ _ _ hs1⟩
        · have hvq := hvalid n p hp
          have h1 : ¬ idx <+: p := fun hh =>
            e (validPath_isPrefix_eq cfg idx p elemTyp hvp hvq hh).symm
          have h2 : ¬ p <+: idx := fun hh =>
            e (validPath_isPrefix_eq cfg p idx elemTyp hvq hvp hh)
          rw [walk_setWalk_frame idx elem _ e1 p hs1 h1 h2]
          exact hex n (List.mem_cons_of_mem _ hn) p hp
      obtain ⟨e2, ev2, h2, hA, hB⟩ := setTargets_loop_spec cfg finfo elemTyp hvalid rest ts e1
        ev hl1 hst1 hex1
      refine ⟨e2, ev2, by simp only [hc1]; exact h2, ?_, ?_⟩
      · intro i p tg hlm htg
        cases i with
        | zero =>
          obtain ⟨hp, hno⟩ := lastMatch_zero finfo name rest p hlm
          rw [hmc] at hp
          simp only [Option.some.injEq] at hp
          subst hp
          simp only [List.getElem?_cons_zero, Option.some.injEq] at htg
          subst htg
          have hfr : e2.walk idx = e1.walk idx := by
            apply hB
            intro n hn p hp
            have hvq := hvalid n p hp
            have hpne : p ≠ idx := fun e => hno n hn (e ▸ hp)
            exact ⟨fun hh => hpne (validPath_isPrefix_eq cfg p idx elemTyp hvq hvp hh),
              fun hh => hpne (validPath_isPrefix_eq cfg idx p elemTyp hvp hvq hh).symm⟩
          rw [hfr]
          exact walk_setWalk_same _ _ _ _ hs1
        | succ i =>
          exact hA i p tg (lastMatch_succ finfo name rest i p hlm) (by simpa using htg)
      · intro q hq
        rw [hB q (fun n hn => hq n (List.mem_cons_of_mem _ hn))]
        obtain ⟨h1, h2⟩ := hq name (List.mem_cons_self _ _) idx hmc
        exact walk_setWalk_frame idx elem _ e1 q hs1 h1 h2

/-! ## A scan through staging cells -/

theorem assign_ptrPtr (rows : Rows) (d src : Value) (t : GoType) (cell0 : Value) (t1 : Target)
    (d1 : Value) (h : rows.assign d src (.ptrPtr t cell0) = .ok (t1, d1)) :
    (src.isNull = true ∧ t1 = .ptrPtr t .nil) ∨
      (src.isNull = false ∧ ∃ v, rows.convertAssign src t = .ok v ∧ t1 = .ptrPtr t (.ptr v)) := by
  simp only [Rows.assign] at h
  rw [Rows.convertAssign] at h
  cases hn : src.isNull with
  | true =>
    simp [hn] at h
    exact Or.inl ⟨rfl, h.1.symm⟩
  | false =>
    simp only [hn] at h
    cases hc : rows.convertAssign src t with
    | error e => simp [hc] at h
    | ok v =>
      simp [hc] at h
      exact Or.inr ⟨rfl, v, rfl, h.1.symm⟩

theorem matchColumn_resolve_valid [CaseRanges] (cfg : Config) (t : GoType) (name : String) (p : List Nat)
    (h : matchColumn (resolve cfg t) name = some p) : validPath cfg t p = true := by
  unfold matchColumn at h
  rw [(resolve_spec cfg t).2] at h
  exact validPath_of_lastPath cfg p t _ h

theorem validPath_ne_nil (cfg : Config) (t : GoType) (p : List Nat)
    (h : validPath cfg t p = true) : p ≠ [] := by
  intro e; subst e; simp [validPath] at h

/-- With the null policy on, a scan into a struct whose cursor succeeds commits, for
every path, the staged value of the last column matched to it and leaves every
location apart from the matched paths as it was. -/
theorem scanRow_staged [CaseRanges] (cfg : Config) (hz : cfg.ZeroIsNull = true) (st : State)
    (hc : CacheValid cfg st.finfos) (fs : List (StructField GoType)) (sv : Value)
    (ht : hasType (.struct fs) sv = true) (rows : Rows) (cols : List String)
    (hcols : rows.columns = .ok cols)
    (hscan : ∀ targets st1, getTargets cfg st (some ⟨.ptr (.struct fs), .ptr sv⟩) cols
      = (.ok targets, st1) → (rows.Scan targets (.ptr sv)).1 = none) :
    ∃ c1 sv1 st1,
      getFieldInfo cfg (.struct fs) st.finfos = some (resolve cfg (.struct fs), c1) ∧
      scanRow cfg st (some ⟨.ptr (.struct fs), .ptr sv⟩) rows
        = (rows.Err, some ⟨.ptr (.struct fs), .ptr sv1⟩, st1) ∧
      CacheValid cfg st1.finfos ∧
      (∀ (i : Nat) (p : List Nat), lastMatch (resolve cfg (.struct fs)) cols i p →
        ∃ src t, rows.lastcols[i]? = some src ∧ (GoType.struct fs).FieldByIndex p = some t ∧
          ((src.isNull = true ∧ sv1.walk p = some t.Zero) ∨
           (src.isNull = false ∧ ∃ v, rows.convertAssign src t = .ok v ∧ sv1.walk p = some v))) ∧
      (∀ q, (∀ name ∈ cols, ∀ p, matchColumn (resolve cfg (.struct fs)) name = some p →
          ¬ p <+: q ∧ ¬ q <+: p) → sv1.walk q = sv.walk q) := by
  obtain ⟨c1, hg1, hc1⟩ := getFieldInfo_valid cfg (.struct fs) st.finfos hc rfl
  have hvalid : ∀ name p, matchColumn (resolve cfg (.struct fs)) name = some p →
      validPath cfg (.struct fs) p = true :=
    fun name p h => matchColumn_resolve_valid cfg _ name p h
  have hpath : ∀ name p, matchColumn (resolve cfg (.struct fs)) name = some p →
      p ≠ [] ∧ (∃ y, sv.walk p = some y) ∧ ∃ t, (GoType.struct fs).FieldByIndex p = some t := by
    intro name p h
    have hv := hvalid name p h
    obtain ⟨t, htp⟩ := validPath_typeField cfg p _ hv
    obtain ⟨y, hy, _⟩ := hasType_walk p _ sv t ht htp
    exact ⟨validPath_ne_nil cfg _ p hv, ⟨y, hy⟩, t, htp⟩
  obtain ⟨ev1, hloop⟩ := getTargets_loop_spec cfg (resolve cfg (.struct fs)) (.struct fs) sv cols []
    st.events (fun name _ p h => hpath name p h)
  have hgt : getTargets cfg st (some ⟨.ptr (.struct fs), .ptr sv⟩) cols
      = (.ok (cols.map (targetFor cfg (resolve cfg (.struct fs)) (.struct fs))),
          { finfos := c1, events := ev1 }) := by
    simp [getTargets, GoType.Kind, GoType.Elem, hg1, Value.Elem, hloop]
  have hs := hscan _ _ hgt
  have hlen : (cols.map (targetFor cfg (resolve cfg (.struct fs)) (.struct fs))).length
      = rows.lastcols.length := by
    by_contra hne
    unfold Rows.Scan at hs
    rw [if_pos hne] at hs
    simp at hs
  have hstaging : ∀ t ∈ cols.map (targetFor cfg (resolve cfg (.struct fs)) (.struct fs)),
      t.isStaging = true := by
    intro t hmem
    obtain ⟨name, _, e⟩ := List.mem_map.mp hmem
    subst e
    unfold targetFor
    cases matchColumn (resolve cfg (.struct fs)) name <;> simp [Target.isStaging, hz]
  have hsl : Rows.Scan rows (cols.map (targetFor cfg (resolve cfg (.struct fs)) (.struct fs)))
      (.ptr sv) = Rows.Scan.loop rows rows.lastcols
        (cols.map (targetFor cfg (resolve cfg (.struct fs)) (.struct fs))) (.ptr sv) := by
    unfold Rows.Scan
    rw [if_neg (not_not.mpr hlen)]
  rw [hsl] at hs
  obtain ⟨hd1, hl1, hidx⟩ := scan_loop_staging rows rows.lastcols _ (.ptr sv)
    (Rows.Scan.loop rows rows.lastcols _ (.ptr sv)).2.1
    (Rows.Scan.loop rows rows.lastcols _ (.ptr sv)).2.2 hlen.symm hstaging
    (by rw [← hs])
  generalize hres : Rows.Scan.loop rows rows.lastcols
    (cols.map (targetFor cfg (resolve cfg (.struct fs)) (.struct fs))) (.ptr sv) = res at hs hd1 hl1 hidx
  obtain ⟨e0, targets1, d1⟩ := res
  simp only at hs hd1 hl1 hidx
  subst hs hd1
  obtain ⟨c2, hg2, hc2⟩ := getFieldInfo_valid cfg (.struct fs) c1 hc1 rfl
  have hl2 : cols.length = targets1.length := by simp [hl1]
  have hstaged : ∀ (i : Nat) (name : String) (target : Target), cols[i]? = some name →
      targets1[i]? = some target → Staged (resolve cfg (.struct fs)) (.struct fs) name target := by
    intro i name target hn htg idx hm
    have h0 : (cols.map (targetFor cfg (resolve cfg (.struct fs)) (.struct fs)))[i]?
        = some (targetFor cfg (resolve cfg (.struct fs)) (.struct fs) name) := by
      simp [hn]
    obtain ⟨src, t1, _, hass, ht1⟩ := hidx i _ h0
    rw [htg] at ht1
    simp only [Option.some.injEq] at ht1
    subst ht1
    obtain ⟨_, _, t, htp⟩ := hpath name idx hm
    have htf : targetFor cfg (resolve cfg (.struct fs)) (.struct fs) name = .ptrPtr t .nil := by
      simp [targetFor, hm, htp, hz]
    rw [htf] at hass
    rcases assign_ptrPtr rows _ src t .nil target _ hass with ⟨_, e⟩ | ⟨_, v, _, e⟩
    · exact ⟨t, .nil, e, htp, Or.inl rfl⟩
    · exact ⟨t, .ptr v, e, htp, Or.inr ⟨v, rfl⟩⟩
  obtain ⟨elem1, ev2, hset, hA, hB⟩ := setTargets_loop_spec cfg (resolve cfg (.struct fs))
    (.struct fs) hvalid cols targets1 sv
    (ev1 ++ [Event.scan (cols.map (targetFor cfg (resolve cfg (.struct fs)) (.struct fs))).length])
    hl2 hstaged (fun name _ p h => (hpath name p h).2.1)
  refine ⟨c1, elem1, { finfos := c2, events := ev2 }, hg1, ?_, hc2, ?_, hB⟩
  · simp only [scanRow, Interface.value, Interface.withValue, hcols, hgt, hsl, hres, setTargets,
      hl2, ne_eq, not_true_eq_false,
      if_false, GoType.Elem, hg2, Value.Elem, hset, Value.withElem]
  · intro i p hlm
    have hlm2 := hlm
    obtain ⟨⟨name, hn, hm⟩, _⟩ := hlm
    have h0 : (cols.map (targetFor cfg (resolve cfg (.struct fs)) (.struct fs)))[i]?
        = some (targetFor cfg (resolve cfg (.struct fs)) (.struct fs) name) := by
      simp [hn]
    obtain ⟨src, t1, hsrc, hass, ht1⟩ := hidx i _ h0
    obtain ⟨_, _, t, htp⟩ := hpath name p hm
    have htf : targetFor cfg (resolve cfg (.struct fs)) (.struct fs) name = .ptrPtr t .nil := by
      simp [targetFor, hm, htp, hz]
    rw [htf] at hass
    have hw := hA i p t1 hlm2 ht1
    refine ⟨src, t, hsrc, htp, ?_⟩
    rcases assign_ptrPtr rows _ src t .nil t1 _ hass with ⟨hnull, e⟩ | ⟨hnull, v, hv, e⟩
    · subst e
      exact Or.inl ⟨hnull, by simpa [stagedValue] using hw⟩
    · subst e
      exact Or.inr ⟨hnull, v, hv, by simpa [stagedValue] using hw⟩

/-! ## The last field producing a name, and the name of a field -/

theorem visits_fields_head (cfg : Config) : ∀ (fs : List (StructField GoType)) (i0 : Nat)
    (k : String) (q : List Nat), (k, q) ∈ visits.fields cfg fs i0 →
    ∃ h rest, q = h :: rest ∧ i0 ≤ h
  | [], i0, k, q, hm => by simp [visits.fields] at hm
  | f :: fs, i0, k, q, hm => by
    rw [visits.fields] at hm
    rcases List.mem_append.mp hm with h1 | h1
    · by_cases hv : f.visible cfg
      · by_cases he : f.embedded
        · simp only [hv, not_true_eq_false, if_false, he, if_true, List.mem_map] at h1
          obtain ⟨kp, _, e⟩ := h1
          simp only [Prod.mk.injEq] at e
          exact ⟨i0, kp.2, e.2.symm, le_refl _⟩
        · simp only [hv, not_true_eq_false, if_false, he, List.mem_singleton,
            Prod.mk.injEq] at h1
          exact ⟨i0, [], h1.2, le_refl _⟩
      · simp [hv] at h1
    · obtain ⟨h, rest, e, hle⟩ := visits_fields_head cfg fs (i0 + 1) k q h1
      exact ⟨h, rest, e, by omega⟩

theorem lastPath_leaf_fields (cfg : Config) : ∀ (fs : List (StructField GoType)) (i0 j : Nat)
    (f : StructField GoType), fs[j]? = some f → f.visible cfg → ¬ f.embedded →
    (∀ q, (columnName cfg f, q) ∈ visits.fields cfg fs i0 → ∀ h ∈ q.head?, h ≤ i0 + j) →
    lastPath (columnName cfg f) (visits.fields cfg fs i0) = some [i0 + j]
  | [], i0, j, f, hj, _, _, _ => by simp at hj
  | g :: rest, i0, 0, f, hj, hv, he, hlast => by
    simp only [List.getElem?_cons_zero, Option.some.injEq] at hj
    subst hj
    rw [visits.fields, lastPath_append]
    cases hr : lastPath (columnName cfg g) (visits.fields cfg rest (i0 + 1)) with
    | some q =>
      exfalso
      have hmem := lastPath_mem _ _ _ hr
      obtain ⟨h, r, e, hle⟩ := visits_fields_head cfg rest (i0 + 1) _ q hmem
      have hmem2 : (columnName cfg g, q) ∈ visits.fields cfg (g :: rest) i0 := by
        rw [visits.fields]
        exact List.mem_append_right _ hmem
      have := hlast q hmem2 h (by simp [e])
      omega
    | none => simp [hv, he, lastPath]
  | g :: rest, i0, j + 1, f, hj, hv, he, hlast => by
    simp only [List.getElem?_cons_succ] at hj
    have ih := lastPath_leaf_fields cfg rest (i0 + 1) j f hj hv he (by
      intro q hq h hh
      have hmem2 : (columnName cfg f, q) ∈ visits.fields cfg (g :: rest) i0 := by
        rw [visits.fields]
        exact List.mem_append_right _ hq
      have := hlast q hmem2 h hh
      omega)
    rw [visits.fields, lastPath_append, ih]
    simp only [Option.some.injEq, List.cons.injEq, and_true]
    omega

/-- A leaf field after which no field produces the same name owns the entry of that
name. -/
theorem resolve_leaf_last (cfg : Config) (fs : List (StructField GoType)) (j : Nat)
    (f : StructField GoType) (hj : fs[j]? = some f) (hv : f.visible cfg) (he : ¬ f.embedded)
    (hlast : ∀ q, (columnName cfg f, q) ∈ visits cfg (.struct fs) → ∀ h ∈ q.head?, h ≤ j) :
    mapGet (resolve cfg (.struct fs)) (columnName cfg f) = some [j] := by
  rw [(resolve_spec cfg (.struct fs)).2]
  have := lastPath_leaf_fields cfg fs 0 j f hj hv he (by simpa [visits] using hlast)
  simpa [visits] using this

theorem indexFrom_comma (pre post : List Char) (n : Nat) (h : ',' ∉ pre) :
    strings.indexFrom [','] (pre ++ ',' :: post) n = ((n + pre.length : Nat) : Int) := by
  induction pre generalizing n with
  | nil => simp [strings.indexFrom, List.isPrefixOf]
  | cons c cs ih =>
    simp only [List.mem_cons, not_or] at h
    have hc : ¬ (',' = c) := h.1
    have e : (c :: cs) ++ ',' :: post = c :: (cs ++ ',' :: post) := rfl
    rw [e, strings.indexFrom]
    have hp : List.isPrefixOf [','] (c :: (cs ++ ',' :: post)) = false := by
      simp [List.isPrefixOf, hc]
    rw [hp]
    simp only [Bool.false_eq_true, if_false]
    rw [ih (n + 1) h.2]
    simp only [List.length_cons]
    congr 1
    omega

theorem indexFrom_no_comma (l : List Char) (n : Nat) (h : ',' ∉ l) :
    strings.indexFrom [','] l n = -1 := by
  induction l generalizing n with
  | nil => simp [strings.indexFrom]
  | cons c cs ih =>
    simp only [List.mem_cons, not_or] at h
    have hc : ¬ (',' = c) := h.1
    rw [strings.indexFrom]
    have hp : List.isPrefixOf [','] (c :: cs) = false := by
      simp [List.isPrefixOf, hc]
    rw [hp]
    simp only [Bool.false_eq_true, if_false]
    exact ih (n + 1) h.2

/-- The name of a field whose tag has a non-empty name part before its first comma. -/
theorem columnName_of_tag_comma (cfg : Config) (f : StructField GoType) (pre post : List Char)
    (htag : StructTag.Get f.Tag cfg.TagName = ⟨pre ++ ',' :: post⟩) (hpre : pre ≠ [])
    (hnc : ',' ∉ pre) : columnName cfg f = cfg.NameMapper ⟨pre⟩ := by
  have hne : ¬ ((⟨pre ++ ',' :: post⟩ : String) = "") := by
    intro e
    have := congrArg String.data e
    simp at this
  have hidx : strings.Index ⟨pre ++ ',' :: post⟩ "," = (pre.length : Int) := by
    have := indexFrom_comma pre post 0 hnc
    simpa [strings.Index] using this
  have hpos : (pre.length : Int) > 0 := by
    have : 0 < pre.length := List.length_pos.mpr hpre
    omega
  simp only [columnName, htag, hne, if_false, hidx, hpos, if_true, sliceTo, Int.toNat_ofNat]
  simp

/-- The name of a field whose tag, or whose declared name when it has no tag, is
free of commas. -/
theorem columnName_of_no_comma (cfg : Config) (f : StructField GoType) (s : String)
    (hs : s = if StructTag.Get f.Tag cfg.TagName = "" then f.Name
      else StructTag.Get f.Tag cfg.TagName)
    (hnc : ',' ∉ s.data) : columnName cfg f = cfg.NameMapper s := by
  have hidx : strings.Index s "," = -1 := by
    have := indexFrom_no_comma s.data 0 hnc
    simpa [strings.Index] using this
  simp only [columnName, ← hs, hidx]
  simp

/-- What `getTargets` returns for a destination that points to a struct value. -/
theorem getTargets_ok [CaseRanges] (cfg : Config) (st : State) (hc : CacheValid cfg st.finfos)
    (fs : List (StructField GoType)) (sv : Value) (ht : hasType (.struct fs) sv = true)
    (cols : List String) :
    ∃ c1 ev1, getFieldInfo cfg (.struct fs) st.finfos = some (resolve cfg (.struct fs), c1) ∧
      getTargets cfg st (some ⟨.ptr (.struct fs), .ptr sv⟩) cols
        = (.ok (cols.map (targetFor cfg (resolve cfg (.struct fs)) (.struct fs))),
            { finfos := c1, events := ev1 }) := by
  obtain ⟨c1, hg1, _⟩ := getFieldInfo_valid cfg (.struct fs) st.finfos hc rfl
  have hpath : ∀ name ∈ cols, ∀ p, matchColumn (resolve cfg (.struct fs)) name = some p →
      p ≠ [] ∧ (∃ y, sv.walk p = some y) ∧ ∃ t, (GoType.struct fs).FieldByIndex p = some t := by
    intro name _ p h
    have hv := matchColumn_resolve_valid cfg _ name p h
    obtain ⟨t, htp⟩ := validPath_typeField cfg p _ hv
    obtain ⟨y, hy, _⟩ := hasType_walk p _ sv t ht htp
    exact ⟨validPath_ne_nil cfg _ p hv, ⟨y, hy⟩, t, htp⟩
  obtain ⟨ev1, hloop⟩ := getTargets_loop_spec cfg (resolve cfg (.struct fs)) (.struct fs) sv
    cols [] st.events hpath
  exact ⟨c1, ev1, hg1, by simp [getTargets, GoType.Kind, GoType.Elem, hg1, Value.Elem, hloop]⟩

/-! ## ToSnakeCase against its reference -/

theorem isUpperAZ_iff (c : Char) : isUpperAZ c = true ↔ 65 ≤ c.toNat ∧ c.toNat ≤ 90 := by
  unfold isUpperAZ
  simp only [decide_eq_true_eq, Char.le_def]
  exact Iff.rfl

theorem toNat_ofNat_small (n : Nat) (h : n < 55296) : (Char.ofNat n).toNat = n := by
  unfold Char.ofNat
  have hv : n.isValidChar := Or.inl h
  simp only [hv, dite_true, Char.ofNatAux, Char.toNat]
  show (BitVec.ofNatLt n _).toNat = n
  rfl

theorem unicodeToLower_toNat [CaseRanges] (c : Char) (ha : c.toNat ≤ 127) :
    (unicodeToLower c).toNat = if isUpperAZ c then c.toNat + 32 else c.toNat := by
  unfold unicodeToLower
  rw [if_pos ha]
  by_cases h : isUpperAZ c = true
  · have h2 : 'A' ≤ c ∧ c ≤ 'Z' := by simpa [isUpperAZ] using h
    rw [if_pos h2, if_pos h]
    have := (isUpperAZ_iff c).mp h
    exact toNat_ofNat_small _ (by omega)
  · have h2 : ¬ ('A' ≤ c ∧ c ≤ 'Z') := by simpa [isUpperAZ] using h
    rw [if_neg h2, if_neg h]

theorem unicodeToLower_of_not_upper [CaseRanges] (c : Char) (ha : c.toNat ≤ 127)
    (h : isUpperAZ c = false) : unicodeToLower c = c := by
  unfold unicodeToLower
  have h2 : ¬ ('A' ≤ c ∧ c ≤ 'Z') := by simpa [isUpperAZ] using h
  rw [if_pos ha, if_neg h2]

theorem unicodeToLower_beyond [CaseRanges] (c : Char) (ha : ¬ c.toNat ≤ 127) :
    unicodeToLower c = CaseRanges.toLower c := by
  unfold unicodeToLower
  rw [if_neg ha]

/-- What `unicode.ToLower` returns: an ASCII rune for an ASCII rune, shifted by 32
when it is one of `A`..`Z`; for a rune beyond ASCII a rune beyond ASCII or one of
`a`..`z`. -/
theorem unicodeToLower_cases [CaseRanges] (c : Char) :
    (c.toNat ≤ 127 ∧ (unicodeToLower c).toNat = if isUpperAZ c then c.toNat + 32 else c.toNat) ∨
    (¬ c.toNat ≤ 127 ∧ unicodeToLower c = CaseRanges.toLower c ∧
      (¬ (unicodeToLower c).toNat ≤ 127 ∨
        (97 ≤ (unicodeToLower c).toNat ∧ (unicodeToLower c).toNat ≤ 122))) := by
  by_cases ha : c.toNat ≤ 127
  · exact Or.inl ⟨ha, unicodeToLower_toNat c ha⟩
  · refine Or.inr ⟨ha, unicodeToLower_beyond c ha, ?_⟩
    rw [unicodeToLower_beyond c ha]
    rcases CaseRanges.toLower_range c ha with h | h
    · exact Or.inl h
    · exact Or.inr h

theorem isUpperAZ_unicodeToLower [CaseRanges] (c : Char) :
    isUpperAZ (unicodeToLower c) = false := by
  cases hu : isUpperAZ (unicodeToLower c) with
  | false => rfl
  | true =>
    have h1 := (isUpperAZ_iff _).mp hu
    rcases unicodeToLower_cases c with ⟨ha, e⟩ | ⟨ha, _, h | h⟩
    · rw [e] at h1
      by_cases h : isUpperAZ c = true
      · have := (isUpperAZ_iff c).mp h
        simp [h] at h1
        omega
      · have hc : ¬ (65 ≤ c.toNat ∧ c.toNat ≤ 90) := fun hh => h ((isUpperAZ_iff c).mpr hh)
        simp [h] at h1
        exact absurd h1 hc
    · omega
    · omega

theorem unicodeToLower_eq_underscore [CaseRanges] (c : Char) :
    unicodeToLower c = '_' ↔ c = '_' := by
  have h95 : ('_' : Char).toNat = 95 := rfl
  constructor
  · intro h
    have h1 := congrArg Char.toNat h
    rcases unicodeToLower_cases c with ⟨ha, e⟩ | ⟨ha, _, h2 | h2⟩
    · rw [e] at h1
      by_cases hu : isUpperAZ c = true
      · have := (isUpperAZ_iff c).mp hu
        simp only [hu, if_true] at h1
        omega
      · have hf : isUpperAZ c = false := by simpa using hu
        rw [unicodeToLower_of_not_upper c ha hf] at h
        exact h
    · omega
    · omega
  · intro h
    subst h
    rfl

/-- Lower-casing a lower-cased rune changes nothing. -/
theorem unicodeToLower_idem [CaseRanges] (c : Char) :
    unicodeToLower (unicodeToLower c) = unicodeToLower c := by
  have hno := isUpperAZ_unicodeToLower c
  by_cases hb : (unicodeToLower c).toNat ≤ 127
  · exact unicodeToLower_of_not_upper _ hb hno
  · rcases unicodeToLower_cases c with ⟨ha, e⟩ | ⟨ha, e, _⟩
    · exfalso
      have hc : ¬ (65 ≤ c.toNat ∧ c.toNat ≤ 90) ∨ (65 ≤ c.toNat ∧ c.toNat ≤ 90) := by omega
      rcases hc with hc | hc
      · have hf : isUpperAZ c = false := by
          cases hx : isUpperAZ c with
          | false => rfl
          | true => exact absurd ((isUpperAZ_iff c).mp hx) hc
        rw [hf] at e
        simp at e
        omega
      · rw [(isUpperAZ_iff c).mpr hc] at e
        simp at e
        omega
    · rw [unicodeToLower_beyond _ hb, e]
      rw [e] at hb
      exact CaseRanges.toLower_fixed c ha hb

theorem count_underscore_map_lower [CaseRanges] (l : List Char) :
    (l.map unicodeToLower).count '_' = l.count '_' := by
  induction l with
  | nil => rfl
  | cons c cs ih =>
    simp only [List.map_cons, List.count_cons, ih, beq_iff_eq]
    by_cases h : c = '_'
    · subst h
      have e : unicodeToLower '_' = '_' := rfl
      simp [e]
    · have : ¬ unicodeToLower c = '_' := fun e => h ((unicodeToLower_eq_underscore c).mp e)
      simp [h, this]

theorem separate_cons (prev : Option Char) (c : Char) (cs : List Char) :
    snakeRef.separate prev (c :: cs)
      = (match prev with
          | some p => if isUpperAZ c && !isUpperAZ p then ['_', c] else [c]
          | none => [c]) ++ snakeRef.separate (some c) cs := by
  cases prev <;> rfl

/-- The loop of `ToSnakeCase` appends to its buffer what the separator rule gives for
the rest of the text. -/
theorem loop_eq_separate : ∀ (l : List Char) (prev : Option Char) (buf : List Char),
    ToSnakeCase.loop l prev.isNone
        (match prev with
          | some p => isUpperAZ p
          | none => false) buf
      = buf ++ snakeRef.separate prev l
  | [], prev, buf => by simp [ToSnakeCase.loop, snakeRef.separate]
  | c :: cs, prev, buf => by
    rw [ToSnakeCase.loop, separate_cons]
    have ih := loop_eq_separate cs (some c)
    simp only [Option.isNone_some] at ih
    cases prev with
    | none =>
      simp only [Option.isNone_none, Bool.not_true, Bool.false_and, Bool.false_eq_true, if_false]
      have := ih (buf ++ [c])
      simp only [isUpperAZ] at this
      rw [this]
      simp
    | some p =>
      simp only [Option.isNone_some, Bool.not_false, Bool.true_and]
      by_cases hcond : (isUpperAZ c && !isUpperAZ p) = true
      · have hc2 : (decide ('A' ≤ c ∧ c ≤ 'Z') && !isUpperAZ p) = true := hcond
        simp only [hc2, if_true, hcond]
        have := ih (buf ++ ['_'] ++ [c])
        simp only [isUpperAZ] at this
        rw [this]
        simp
      · have hc2 : ¬ (decide ('A' ≤ c ∧ c ≤ 'Z') && !isUpperAZ p) = true := hcond
        simp only [hc2, hcond, Bool.false_eq_true, if_false]
        have := ih (buf ++ [c])
        simp only [isUpperAZ] at this
        rw [this]
        simp

theorem ToSnakeCase_eq_snakeRef [CaseRanges] (s : String) : ToSnakeCase s = snakeRef s := by
  have := loop_eq_separate s.data none []
  simp only [Option.isNone_none, List.nil_append] at this
  unfold ToSnakeCase snakeRef strings.ToLower
  rw [this]

theorem separate_of_no_upper : ∀ (l : List Char) (prev : Option Char),
    (∀ c ∈ l, isUpperAZ c = false) → snakeRef.separate prev l = l
  | [], _, _ => rfl
  | c :: cs, prev, h => by
    have hc := h c (List.mem_cons_self _ _)
    rw [separate_cons, separate_of_no_upper cs (some c)
      (fun d hd => h d (List.mem_cons_of_mem _ hd))]
    cases prev <;> simp [hc]

theorem separate_of_all_upper : ∀ (l : List Char) (prev : Option Char),
    (∀ c ∈ l, isUpperAZ c = true) → (∀ p, prev = some p → isUpperAZ p = true) →
    snakeRef.separate prev l = l
  | [], _, _, _ => rfl
  | c :: cs, prev, h, hp => by
    have hc := h c (List.mem_cons_self _ _)
    rw [separate_cons, separate_of_all_upper cs (some c)
      (fun d hd => h d (List.mem_cons_of_mem _ hd))
      (fun p e => by cases e; exact hc)]
    cases prev with
    | none => simp
    | some p => simp [hc, hp p rfl]

theorem maximalRuns_cons (c : Char) (cs : List Char) :
    ∃ r rest, maximalRuns (c :: cs) = (c :: r) :: rest := by
  cases h : maximalRuns cs with
  | nil => exact ⟨[], [], by simp [maximalRuns, h]⟩
  | cons g rest =>
    cases g with
    | nil => exact ⟨[], [] :: rest, by simp [maximalRuns, h]⟩
    | cons d r =>
      by_cases hd : isUpperAZ c = isUpperAZ d
      · exact ⟨d :: r, rest, by simp [maximalRuns, h, hd]⟩
      · exact ⟨[], (d :: r) :: rest, by simp [maximalRuns, h, hd]⟩

/-- The separators put after a character `p` are as many as the uppercase runs that
follow the first run of `p :: cs`; they add to the length and to the number of
underscores. -/
theorem separate_counts : ∀ (cs : List Char) (p : Char),
    (snakeRef.separate (some p) cs).length = cs.length + upperRunsAfterStart (p :: cs) ∧
    (snakeRef.separate (some p) cs).count '_' = cs.count '_' + upperRunsAfterStart (p :: cs)
  | [], p => by
    simp [snakeRef.separate, upperRunsAfterStart, maximalRuns]
  | c :: cs, p => by
    obtain ⟨ih1, ih2⟩ := separate_counts cs c
    obtain ⟨r, rest, hr⟩ := maximalRuns_cons c cs
    have hruns : upperRunsAfterStart (c :: cs) = (rest.filter runIsUpper).length := by
      simp [upperRunsAfterStart, hr]
    rw [hruns] at ih1 ih2
    have hp : maximalRuns (p :: c :: cs)
        = if isUpperAZ p = isUpperAZ c then (p :: c :: r) :: rest
          else [p] :: (c :: r) :: rest := by
      rw [maximalRuns, hr]
    rw [separate_cons]
    by_cases hsame : isUpperAZ p = isUpperAZ c
    · have hcond : (isUpperAZ c && !isUpperAZ p) = false := by
        rw [hsame]; cases isUpperAZ c <;> rfl
      have hN : upperRunsAfterStart (p :: c :: cs) = (rest.filter runIsUpper).length := by
        rw [upperRunsAfterStart, hp, if_pos hsame]
        rfl
      rw [hN]
      simp only [hcond, Bool.false_eq_true, if_false, List.singleton_append, List.length_cons,
        List.count_cons, ih1, ih2]
      constructor <;> omega
    · cases hc : isUpperAZ c with
      | true =>
        have hpf : isUpperAZ p = false := by
          cases hpp : isUpperAZ p with
          | false => rfl
          | true => rw [hpp, hc] at hsame; exact absurd rfl hsame
        have hN : upperRunsAfterStart (p :: c :: cs)
            = (rest.filter runIsUpper).length + 1 := by
          rw [upperRunsAfterStart, hp, if_neg hsame]
          simp [runIsUpper, hc]
        rw [hN]
        simp only [hc, hpf, Bool.not_false, Bool.and_self, if_true, List.cons_append,
          List.nil_append, List.length_cons, List.count_cons, ih1, ih2, beq_self_eq_true]
        constructor <;> omega
      | false =>
        have hN : upperRunsAfterStart (p :: c :: cs) = (rest.filter runIsUpper).length := by
          rw [upperRunsAfterStart, hp, if_neg hsame]
          simp [runIsUpper, hc]
        rw [hN]
        simp only [hc, Bool.false_and, Bool.false_eq_true, if_false, List.singleton_append,
          List.length_cons, List.count_cons, ih1, ih2]
        constructor <;> omega

theorem separate_none_counts (l : List Char) :
    (snakeRef.separate none l).length = l.length + upperRunsAfterStart l ∧
    (snakeRef.separate none l).count '_' = l.count '_' + upperRunsAfterStart l := by
  cases l with
  | nil => simp [snakeRef.separate, upperRunsAfterStart, maximalRuns]
  | cons c cs =>
    obtain ⟨h1, h2⟩ := separate_counts cs c
    rw [separate_cons]
    simp only [List.singleton_append, List.length_cons, List.count_cons, h1, h2]
    constructor <;> omega

theorem ToSnakeCase_no_upper [CaseRanges] (s : String) :
    ∀ c ∈ (ToSnakeCase s).data, isUpperAZ c = false := by
  intro c hc
  unfold ToSnakeCase strings.ToLower at hc
  simp only [List.mem_map] at hc
  obtain ⟨d, _, e⟩ := hc
  rw [← e]
  exact isUpperAZ_unicodeToLower d

/-- Lower-casing a lower-cased string changes nothing. -/
theorem ToLower_idem [CaseRanges] (s : String) :
    strings.ToLower (strings.ToLower s) = strings.ToLower s := by
  unfold strings.ToLower
  simp only [List.map_map]
  congr 1
  exact List.map_congr_left (fun c _ => unicodeToLower_idem c)

/-- The result of `ToSnakeCase` is unchanged by lower-casing. -/
theorem ToLower_ToSnakeCase [CaseRanges] (s : String) :
    strings.ToLower (ToSnakeCase s) = ToSnakeCase s := by
  unfold ToSnakeCase
  exact ToLower_idem _

/-- The function `ToSnakeCase` maps each of its results to itself: the result holds
none of `A`..`Z`, so no separator is added, and lower-casing it changes nothing. -/
theorem ToSnakeCase_idem [CaseRanges] (s : String) :
    ToSnakeCase (ToSnakeCase s) = ToSnakeCase s := by
  have h := ToSnakeCase_no_upper s
  rw [ToSnakeCase_eq_snakeRef (ToSnakeCase s)]
  unfold snakeRef
  rw [separate_of_no_upper (ToSnakeCase s).data none h]
  exact ToLower_ToSnakeCase s
theorem separate_filter : ∀ (l : List Char) (prev : Option Char),
    (snakeRef.separate prev l).filter (fun c => c != '_') = l.filter (fun c => c != '_')
  | [], _ => rfl
  | c :: cs, prev => by
    rw [separate_cons, List.filter_append, separate_filter cs (some c)]
    have hu : ('_' != '_') = false := by decide
    cases prev with
    | none => by_cases hc : c = '_' <;> simp [List.filter_cons, hc]
    | some p =>
      by_cases h : (isUpperAZ c && !isUpperAZ p) = true
      · simp only [h, if_true]
        by_cases hc : c = '_' <;> simp [List.filter_cons, hc, hu]
      · simp only [h, Bool.false_eq_true, if_false]
        by_cases hc : c = '_' <;> simp [List.filter_cons, hc]

theorem filter_map_lower [CaseRanges] (l : List Char) :
    (l.map unicodeToLower).filter (fun c => c != '_')
      = (l.filter (fun c => c != '_')).map unicodeToLower := by
  induction l with
  | nil => rfl
  | cons c cs ih =>
    by_cases h : c = '_'
    · subst h
      have e : unicodeToLower '_' = '_' := rfl
      simp [e, ih]
    · have h2 : ¬ unicodeToLower c = '_' := fun e => h ((unicodeToLower_eq_underscore c).mp e)
      simp [h, h2, ih]

mutual
/-- Every name a type produces is the computed name of some field. -/
theorem visits_key (cfg : Config) : ∀ (t : GoType) (k : String) (p : List Nat),
    (k, p) ∈ visits cfg t → ∃ f, k = columnName cfg f
  | .struct fs, k, p, h => visits_fields_key cfg fs 0 k p (by simpa [visits] using h)
  | .bool, k, p, h => by simp [visits] at h
  | .int, k, p, h => by simp [visits] at h
  | .string, k, p, h => by simp [visits] at h
  | .bytes, k, p, h => by simp [visits] at h
  | .ptr _, k, p, h => by simp [visits] at h
theorem visits_fields_key (cfg : Config) : ∀ (fs : List (StructField GoType)) (i0 : Nat)
    (k : String) (p : List Nat), (k, p) ∈ visits.fields cfg fs i0 → ∃ f, k = columnName cfg f
  | [], i0, k, p, h => by simp [visits.fields] at h
  | f :: rest, i0, k, p, h => by
    rw [visits.fields] at h
    rcases List.mem_append.mp h with h1 | h1
    · by_cases hv : f.visible cfg
      · by_cases he : f.embedded
        · simp only [hv, not_true_eq_false, if_false, he, if_true, List.mem_map] at h1
          obtain ⟨kp, hkp, e⟩ := h1
          simp only [Prod.mk.injEq] at e
          obtain ⟨g, hg⟩ := visits_key cfg f.Typ kp.1 kp.2 hkp
          exact ⟨g, by rw [← e.1, hg]⟩
        · simp only [hv, not_true_eq_false, if_false, he, List.mem_singleton,
            Prod.mk.injEq] at h1
          exact ⟨f, h1.1⟩
      · simp [hv] at h1
    · exact visits_fields_key cfg rest (i0 + 1) k p h1
end

theorem columnName_eq_mapper (cfg : Config) (f : StructField GoType) :
    ∃ s, columnName cfg f = cfg.NameMapper s :=
  ⟨_, rfl⟩

/-! ## The cache only grows -/

mutual
theorem getFieldInfo_cache (cfg : Config) : ∀ (t : GoType) (c : Cache), CacheValid cfg c →
    t.Kind = Kind.Struct →
    ∃ c1, getFieldInfo cfg t c = some (resolve cfg t, c1) ∧ CacheValid cfg c1 ∧
      (∀ t0 m, mapGet c t0 = some m → mapGet c1 t0 = some m) ∧
      mapGet c1 t = some (resolve cfg t)
  | .struct fs, c, hc, _ => by
    rw [getFieldInfo]
    cases hg : mapGet c (GoType.struct fs) with
    | some m =>
      have := hc _ _ hg
      subst this
      exact ⟨c, rfl, hc, fun _ _ h => h, hg⟩
    | none =>
      obtain ⟨c1, h1, hc1, hmono, _⟩ := getFieldInfo_loop_cache cfg fs 0 [] c hc
      simp only [h1]
      have hv := cacheValid_mapSet cfg c1 (GoType.struct fs) hc1
      refine ⟨mapSet c1 (GoType.struct fs) (resolve.loop cfg fs 0 []), by simp [resolve],
        by simpa [resolve] using hv, ?_, ?_⟩
      · intro t0 m hm
        have h2 := hmono t0 m hm
        rw [mapGet_mapSet]
        by_cases e : GoType.struct fs = t0
        · subst e
          have := hc1 _ _ h2
          simp [this, resolve]
        · simp [e, h2]
      · rw [mapGet_mapSet]
        simp [resolve]
  | .bool, _, _, h => by simp [GoType.Kind] at h
  | .int, _, _, h => by simp [GoType.Kind] at h
  | .string, _, _, h => by simp [GoType.Kind] at h
  | .bytes, _, _, h => by simp [GoType.Kind] at h
  | .ptr _, _, _, h => by simp [GoType.Kind] at h
theorem getFieldInfo_loop_cache (cfg : Config) : ∀ (fs : List (StructField GoType)) (i : Nat)
    (acc : fieldInfo) (c : Cache), CacheValid cfg c →
    ∃ c1, getFieldInfo.loop cfg fs i acc c = some (resolve.loop cfg fs i acc, c1) ∧
      CacheValid cfg c1 ∧
      (∀ t0 m, mapGet c t0 = some m → mapGet c1 t0 = some m) ∧
      (∀ (j : Nat) (f : StructField GoType), fs[j]? = some f → f.visible cfg → f.embedded →
        mapGet c1 f.Typ = some (resolve cfg f.Typ))
  | [], i, acc, c, hc =>
    ⟨c, by simp [getFieldInfo.loop, resolve.loop], hc, fun _ _ h => h,
      fun j f hj => by simp at hj⟩
  | f :: rest, i, acc, c, hc => by
    rw [getFieldInfo.loop, resolve.loop]
    by_cases hskip : f.PkgPath ≠ "" ∨ StructTag.Get f.Tag cfg.TagName = "-"
    · simp only [hskip, if_true]
      obtain ⟨c1, h1, hc1, hmono, hemb⟩ := getFieldInfo_loop_cache cfg rest (i + 1) acc c hc
      refine ⟨c1, h1, hc1, hmono, ?_⟩
      intro j g hj hv he
      cases j with
      | zero =>
        simp only [List.getElem?_cons_zero, Option.some.injEq] at hj
        subst hj
        rcases hskip with h | h
        · exact absurd hv.1 h
        · exact absurd h hv.2
      | succ j => exact hemb j g (by simpa using hj) hv he
    · simp only [hskip, if_false]
      by_cases hembf : f.Anonymous = true ∧ f.Typ.Kind = Kind.Struct
      · simp only [hembf, and_self, if_true]
        obtain ⟨c1, h1, hc1, hmono1, hin1⟩ := getFieldInfo_cache cfg f.Typ c hc hembf.2
        simp only [h1]
        obtain ⟨c2, h2, hc2, hmono2, hemb2⟩ := getFieldInfo_loop_cache cfg rest (i + 1)
          (mergeEmbedded acc i (resolve cfg f.Typ)) c1 hc1
        refine ⟨c2, h2, hc2, fun t0 m hm => hmono2 t0 m (hmono1 t0 m hm), ?_⟩
        intro j g hj hv he
        cases j with
        | zero =>
          simp only [List.getElem?_cons_zero, Option.some.injEq] at hj
          subst hj
          exact hmono2 _ _ hin1
        | succ j => exact hemb2 j g (by simpa using hj) hv he
      · simp only [hembf, if_false]
        obtain ⟨c1, h1, hc1, hmono, hemb⟩ := getFieldInfo_loop_cache cfg rest (i + 1)
          (mapSet acc (columnName cfg f) [i]) c hc
        refine ⟨c1, h1, hc1, hmono, ?_⟩
        intro j g hj hv he
        cases j with
        | zero =>
          simp only [List.getElem?_cons_zero, Option.some.injEq] at hj
          subst hj
          exact absurd he hembf
        | succ j => exact hemb j g (by simpa using hj) hv he
end

theorem visits_fields_leaf_mem (cfg : Config) : ∀ (fs : List (StructField GoType)) (i0 j : Nat)
    (f : StructField GoType), fs[j]? = some f → f.visible cfg → ¬ f.embedded →
    (columnName cfg f, [i0 + j]) ∈ visits.fields cfg fs i0
  | [], i0, j, f, hj, _, _ => by simp at hj
  | g :: rest, i0, 0, f, hj, hv, he => by
    simp only [List.getElem?_cons_zero, Option.some.injEq] at hj
    subst hj
    rw [visits.fields]
    simp [hv, he]
  | g :: rest, i0, j + 1, f, hj, hv, he => by
    simp only [List.getElem?_cons_succ] at hj
    rw [visits.fields]
    apply List.mem_append_right
    have := visits_fields_leaf_mem cfg rest (i0 + 1) j f hj hv he
    have e : i0 + 1 + j = i0 + (j + 1) := by omega
    rw [e] at this
    exact this

/-! ## Scan into interface cells, and what every Scan preserves -/

theorem scan_loop_iface (rows : Rows) : ∀ (srcs : List Value) (d : Value),
    Rows.Scan.loop rows srcs (List.replicate srcs.length (Target.iface .nil)) d
      = (none, srcs.map Target.iface, d)
  | [], d => by simp [Rows.Scan.loop]
  | src :: srcs, d => by
    have ih := scan_loop_iface rows srcs d
    simp only [List.length_cons, List.replicate_succ, Rows.Scan.loop, Rows.assign, ih,
      List.map_cons]

theorem scan_loop_length (rows : Rows) : ∀ (srcs : List Value) (targets : List Target)
    (d : Value), (Rows.Scan.loop rows srcs targets d).2.1.length = targets.length
  | [], targets, d => by simp [Rows.Scan.loop]
  | _ :: _, [], d => by simp [Rows.Scan.loop]
  | src :: srcs, target :: targets, d => by
    rw [Rows.Scan.loop]
    cases ha : rows.assign d src target with
    | error e => simp
    | ok r =>
      obtain ⟨t1, d1⟩ := r
      simp only [List.length_cons]
      rw [scan_loop_length rows srcs targets d1]

theorem scan_length (rows : Rows) (targets : List Target) (d : Value) :
    (rows.Scan targets d).2.1.length = targets.length := by
  unfold Rows.Scan
  split
  · rfl
  · exact scan_loop_length rows _ _ _

theorem scan_loop_staging_dst (rows : Rows) : ∀ (srcs : List Value) (targets : List Target)
    (d : Value), (∀ t ∈ targets, t.isStaging = true) →
    (Rows.Scan.loop rows srcs targets d).2.2 = d
  | [], targets, d, _ => by simp [Rows.Scan.loop]
  | _ :: _, [], d, _ => by simp [Rows.Scan.loop]
  | src :: srcs, target :: targets, d, hs => by
    rw [Rows.Scan.loop]
    cases ha : rows.assign d src target with
    | error e => simp
    | ok r =>
      obtain ⟨t1, d1⟩ := r
      have hd : d1 = d := assign_staging rows d src target t1 d1
        (hs target (List.mem_cons_self _ _)) ha
      subst hd
      simp only
      exact scan_loop_staging_dst rows srcs targets d1
        (fun t hm => hs t (List.mem_cons_of_mem _ hm))

theorem scan_staging_dst (rows : Rows) (targets : List Target) (d : Value)
    (hs : ∀ t ∈ targets, t.isStaging = true) : (rows.Scan targets d).2.2 = d := by
  unfold Rows.Scan
  split
  · rfl
  · exact scan_loop_staging_dst rows _ _ _ hs

theorem targetFor_isStaging [CaseRanges] (cfg : Config) (hz : cfg.ZeroIsNull = true) (finfo : fieldInfo)
    (elemTyp : GoType) (name : String) : (targetFor cfg finfo elemTyp name).isStaging = true := by
  unfold targetFor
  cases matchColumn finfo name <;> simp [Target.isStaging, hz]

/-! ## The store loop of ScanMap -/

theorem store_spec : ∀ (cols : List String) (srcs : List Value) (m : GoMap),
    cols.length = srcs.length →
    ScanMap.store cols (srcs.map Target.iface) m
      = (none, (cols.zip srcs).foldl (fun d kv => mapSet d kv.1 kv.2) m)
  | [], srcs, m, _ => by simp [ScanMap.store]
  | c :: cs, [], m, h => by simp at h
  | c :: cs, s :: ss, m, h => by
    have ih := store_spec cs ss (mapSet m c s) (by simpa using h)
    simp only [List.map_cons, ScanMap.store, ih, List.zip_cons_cons, List.foldl_cons]

theorem foldl_mapSet_other : ∀ (pairs : List (String × Value)) (m : GoMap) (k : String),
    k ∉ pairs.map Prod.fst →
    mapGet (pairs.foldl (fun d kv => mapSet d kv.1 kv.2) m) k = mapGet m k
  | [], m, k, _ => rfl
  | (c, v) :: rest, m, k, h => by
    simp only [List.map_cons, List.mem_cons, not_or] at h
    rw [List.foldl_cons, foldl_mapSet_other rest _ k h.2, mapGet_mapSet]
    have : ¬ c = k := fun e => h.1 e.symm
    simp [this]

theorem foldl_mapSet_last : ∀ (cols : List String) (srcs : List Value) (m : GoMap) (i : Nat)
    (k : String), cols.length = srcs.length → cols[i]? = some k →
    (∀ (j : Nat), i < j → cols[j]? ≠ some k) →
    ∃ src, srcs[i]? = some src ∧
      mapGet ((cols.zip srcs).foldl (fun d kv => mapSet d kv.1 kv.2) m) k = some src
  | [], srcs, m, i, k, _, hi, _ => by simp at hi
  | c :: cs, [], m, i, k, h, _, _ => by simp at h
  | c :: cs, s :: ss, m, 0, k, h, hi, hlast => by
    simp only [List.getElem?_cons_zero, Option.some.injEq] at hi
    subst hi
    refine ⟨s, by simp, ?_⟩
    rw [List.zip_cons_cons, List.foldl_cons]
    have hnot : c ∉ (cs.zip ss).map Prod.fst := by
      intro hmem
      have hmem2 : c ∈ cs := by
        obtain ⟨kv, hkv, e⟩ := List.mem_map.mp hmem
        rw [← e]
        exact (List.of_mem_zip hkv).1
      obtain ⟨j, hj, hje⟩ := List.getElem_of_mem hmem2
      exact hlast (j + 1) (by omega) (by simp [List.getElem?_eq_getElem hj, hje])
    rw [foldl_mapSet_other _ _ _ hnot, mapGet_mapSet_self]
  | c :: cs, s :: ss, m, i + 1, k, h, hi, hlast => by
    simp only [List.getElem?_cons_succ] at hi
    obtain ⟨src, hsrc, hget⟩ := foldl_mapSet_last cs ss (mapSet m c s) i k (by simpa using h) hi
      (fun j hij hj => hlast (j + 1) (by omega) (by simpa using hj))
    exact ⟨src, by simpa using hsrc, by rw [List.zip_cons_cons, List.foldl_cons]; exact hget⟩

/-! ## The commit step with the null policy off -/

theorem commit_error_is_panic (elemTyp : GoType) (elem : Option Value) (idx : List Nat)
    (target : Target) (f : Failure)
    (h : setTargets.commit elemTyp elem idx target = .error f) : ∃ msg, f = .panic msg := by
  unfold setTargets.commit at h
  repeat' split at h
  all_goals first
    | (cases h; exact ⟨_, rfl⟩)
    | cases h

theorem commit_fieldAddr_ordinary (elemTyp : GoType) (elem : Option Value) (idx p : List Nat)
    (t : GoType) (hk : t.Kind = Kind.Bool ∨ t.Kind = Kind.Int ∨ t.Kind = Kind.String) :
    ∃ msg, setTargets.commit elemTyp elem idx (.fieldAddr p t) = .error (.panic msg) := by
  have hnil : t.Kind ≠ Kind.Ptr ∧ t.Kind ≠ Kind.Slice := by
    rcases hk with h | h | h <;> rw [h] <;> exact ⟨by decide, by decide⟩
  unfold setTargets.commit
  cases hd : Target.deref elem (.fieldAddr p t) with
  | none => exact ⟨_, rfl⟩
  | some r =>
    obtain ⟨t1, v⟩ := r
    have ht1 : t1 = t := by
      simp only [Target.deref, Option.map_eq_some'] at hd
      obtain ⟨_, _, e⟩ := hd
      simp only [Prod.mk.injEq] at e
      exact e.1.symm
    subst ht1
    simp only [hnil, ne_eq, not_false_eq_true, and_self, if_true]
    exact ⟨_, rfl⟩

theorem assign_fieldAddr (rows : Rows) (d src : Value) (p : List Nat) (t : GoType)
    (t1 : Target) (d1 : Value) (h : rows.assign d src (.fieldAddr p t) = .ok (t1, d1)) :
    t1 = .fieldAddr p t := by
  simp only [Rows.assign] at h
  cases hc : rows.convertAssign src t with
  | error e => simp [hc] at h
  | ok v =>
    simp only [hc] at h
    cases hs : d.Elem.bind (fun e => e.setWalk p v) with
    | none => simp [hs] at h; exact h.1.symm
    | some e1 => simp [hs] at h; exact h.1.symm

/-- The cursor never replaces a pointer into the destination by another target. -/
theorem scan_loop_keeps_fieldAddr (rows : Rows) : ∀ (srcs : List Value) (targets : List Target)
    (d : Value) (i : Nat) (p : List Nat) (t : GoType),
    targets[i]? = some (.fieldAddr p t) →
    (Rows.Scan.loop rows srcs targets d).2.1[i]? = some (.fieldAddr p t)
  | [], targets, d, i, p, t, h => by simpa [Rows.Scan.loop] using h
  | _ :: _, [], d, i, p, t, h => by simp at h
  | src :: srcs, target :: targets, d, i, p, t, h => by
    rw [Rows.Scan.loop]
    cases ha : rows.assign d src target with
    | error e => simpa using h
    | ok r =>
      obtain ⟨t1, d1⟩ := r
      simp only
      cases i with
      | zero =>
        simp only [List.getElem?_cons_zero, Option.some.injEq] at h
        subst h
        simp [assign_fieldAddr rows d src p t t1 d1 ha]
      | succ i =>
        simp only [List.getElem?_cons_succ] at h ⊢
        exact scan_loop_keeps_fieldAddr rows srcs targets d1 i p t h

theorem scan_keeps_fieldAddr (rows : Rows) (targets : List Target) (d : Value) (i : Nat)
    (p : List Nat) (t : GoType) (h : targets[i]? = some (.fieldAddr p t)) :
    (rows.Scan targets d).2.1[i]? = some (.fieldAddr p t) := by
  unfold Rows.Scan
  split
  · exact h
  · exact scan_loop_keeps_fieldAddr rows _ _ _ i p t h

/-- The loop of `setTargets` panics as soon as one of its columns is matched and has
for target a pointer to a destination field of kind bool, int or string. -/
theorem setTargets_loop_panics [CaseRanges] (finfo : fieldInfo) (elemTyp : GoType) :
    ∀ (cols : List String) (targets : List Target) (elem : Option Value) (ev : List Event)
      (i : Nat) (name : String) (idx p : List Nat) (t : GoType),
    cols[i]? = some name → targets[i]? = some (.fieldAddr p t) →
    mapGet finfo (strings.ToLower name) = some idx →
    (t.Kind = Kind.Bool ∨ t.Kind = Kind.Int ∨ t.Kind = Kind.String) →
    ∃ msg e ev1, setTargets.loop finfo elemTyp cols targets elem ev
      = (some (.panic msg), e, ev1)
  | [], targets, elem, ev, i, name, idx, p, t, hi, _, _, _ => by simp at hi
  | c :: cs, [], elem, ev, i, name, idx, p, t, _, htg, _, _ => by simp at htg
  | c :: cs, tg :: ts, elem, ev, 0, name, idx, p, t, hi, htg, hm, hk => by
    simp only [List.getElem?_cons_zero, Option.some.injEq] at hi htg
    subst hi htg
    obtain ⟨msg, hmsg⟩ := commit_fieldAddr_ordinary elemTyp elem idx p t hk
    exact ⟨msg, elem, ev, by rw [setTargets.loop]; simp only [hm, hmsg]⟩
  | c :: cs, tg :: ts, elem, ev, i + 1, name, idx, p, t, hi, htg, hm, hk => by
    simp only [List.getElem?_cons_succ] at hi htg
    rw [setTargets.loop]
    cases hc : mapGet finfo (strings.ToLower c) with
    | none =>
      simp only [List.tail_cons]
      exact setTargets_loop_panics finfo elemTyp cs ts elem _ i name idx p t hi htg hm hk
    | some idx0 =>
      simp only
      cases hcm : setTargets.commit elemTyp elem idx0 tg with
      | ok e1 =>
        simp only
        exact setTargets_loop_panics finfo elemTyp cs ts (some e1) ev i name idx p t hi htg hm hk
      | error f =>
        obtain ⟨msg, e⟩ := commit_error_is_panic elemTyp elem idx0 tg f hcm
        subst e
        exact ⟨msg, elem, ev, rfl⟩

/-- With the null policy off, every scan into a struct that the cursor decodes
without error and that has a column matched to a field of kind bool, int or string
ends in a panic of the commit step. -/
theorem scanRow_null_policy_off_panics [CaseRanges] (cfg : Config) (hz : cfg.ZeroIsNull = false)
    (st : State) (hc : CacheValid cfg st.finfos) (fs : List (StructField GoType)) (sv : Value)
    (ht : hasType (.struct fs) sv = true) (rows : Rows) (cols : List String)
    (hcols : rows.columns = .ok cols)
    (hscan : ∀ targets st1, getTargets cfg st (some ⟨.ptr (.struct fs), .ptr sv⟩) cols
      = (.ok targets, st1) → (rows.Scan targets (.ptr sv)).1 = none)
    (i : Nat) (name : String) (p : List Nat) (t : GoType) (hi : cols[i]? = some name)
    (hm : matchColumn (resolve cfg (.struct fs)) name = some p)
    (htp : (GoType.struct fs).FieldByIndex p = some t)
    (hk : t.Kind = Kind.Bool ∨ t.Kind = Kind.Int ∨ t.Kind = Kind.String) :
    ∃ msg, (scanRow cfg st (some ⟨.ptr (.struct fs), .ptr sv⟩) rows).1 = some (.panic msg) := by
  obtain ⟨c1, ev1, hg1, hgt⟩ := getTargets_ok cfg st hc fs sv ht cols
  have hc1 : CacheValid cfg c1 := by
    obtain ⟨c1b, hg1b, hv⟩ := getFieldInfo_valid cfg (.struct fs) st.finfos hc rfl
    rw [hg1] at hg1b
    simp only [Option.some.injEq, Prod.mk.injEq, true_and] at hg1b
    rw [hg1b]
    exact hv
  obtain ⟨c2, hg2, _⟩ := getFieldInfo_valid cfg (.struct fs) c1 hc1 rfl
  have hs := hscan _ _ hgt
  have htg0 : (cols.map (targetFor cfg (resolve cfg (.struct fs)) (.struct fs)))[i]?
      = some (.fieldAddr p t) := by
    simp [hi, targetFor, hm, htp, hz]
  have htg1 := scan_keeps_fieldAddr rows _ (.ptr sv) i p t htg0
  have hlen := scan_length rows
    (cols.map (targetFor cfg (resolve cfg (.struct fs)) (.struct fs))) (.ptr sv)
  generalize hres : rows.Scan (cols.map (targetFor cfg (resolve cfg (.struct fs)) (.struct fs)))
    (.ptr sv) = res at hs htg1 hlen
  obtain ⟨e0, targets1, d1⟩ := res
  simp only at hs htg1 hlen
  subst hs
  have hl2 : cols.length = targets1.length := by simp [hlen]
  obtain ⟨msg, e, ev2, hloop⟩ := setTargets_loop_panics (resolve cfg (.struct fs)) (.struct fs)
    cols targets1 d1.Elem
    (ev1 ++ [Event.scan (cols.map (targetFor cfg (resolve cfg (.struct fs)) (.struct fs))).length])
    i name p p t hi htg1 hm hk
  refine ⟨msg, ?_⟩
  simp only [scanRow, Interface.value, Interface.withValue, hcols, hgt, hres, setTargets, hl2,
    ne_eq, not_true_eq_false, if_false,
    GoType.Elem, hg2, hloop]

/-! ## Claims about the row scan -/

theorem exists_lastMatch [CaseRanges] (finfo : fieldInfo) : ∀ (cols : List String) (name : String)
    (p : List Nat), name ∈ cols → matchColumn finfo name = some p →
    ∃ i, lastMatch finfo cols i p
  | [], name, p, h, _ => by simp at h
  | n :: rest, name, p, h, hm => by
    by_cases hex : ∃ n1 ∈ rest, matchColumn finfo n1 = some p
    · obtain ⟨n1, hn1, hm1⟩ := hex
      obtain ⟨i, ⟨m, hmi, hmm⟩, hlast⟩ := exists_lastMatch finfo rest n1 p hn1 hm1
      refine ⟨i + 1, ⟨m, by simpa using hmi, hmm⟩, ?_⟩
      intro j nj hij hj
      cases j with
      | zero => omega
      | succ j => exact hlast j nj (by omega) (by simpa using hj)
    · have hhead : matchColumn finfo n = some p := by
        rcases List.mem_cons.mp h with e | h1
        · exact e ▸ hm
        · exact absurd ⟨name, h1, hm⟩ hex
      refine ⟨0, ⟨n, by simp, hhead⟩, ?_⟩
      intro j nj hij hj
      cases j with
      | zero => omega
      | succ j =>
        intro hc
        simp only [List.getElem?_cons_succ] at hj
        exact hex ⟨nj, List.getElem?_mem hj, hc⟩

/-- C1. With the null policy on, for a destination that points to a struct and a
row of non-NULL values on which the cursor reports no error, `ScanStruct` returns
no error, and every field that some column is matched to holds afterwards the value
the cursor decoded, for the field's type, from the last column matched to it. -/
theorem C1_scanStruct_commits_last_match [CaseRanges] (cfg : Config) (hz : cfg.ZeroIsNull = true)
    (st : State) (hc : CacheValid cfg st.finfos) (fs : List (StructField GoType)) (sv : Value)
    (ht : hasType (.struct fs) sv = true) (rows : Rows) (cols : List String)
    (hcols : rows.columns = .ok cols)
    (hnonnull : ∀ src ∈ rows.lastcols, src.isNull = false)
    (hscan : ∀ targets st1, getTargets cfg st (some ⟨.ptr (.struct fs), .ptr sv⟩) cols
      = (.ok targets, st1) → (rows.Scan targets (.ptr sv)).1 = none)
    (herr : rows.err = none) :
    ∃ finfo c1 sv1 st1,
      getFieldInfo cfg (.struct fs) st.finfos = some (finfo, c1) ∧
      ScanStruct cfg st rows (some ⟨.ptr (.struct fs), .ptr sv⟩)
        = (none, some ⟨.ptr (.struct fs), .ptr sv1⟩, st1) ∧
      ∀ name ∈ cols, ∀ p, matchColumn finfo name = some p →
        ∃ i src t v, lastMatch finfo cols i p ∧ rows.lastcols[i]? = some src ∧
          (GoType.struct fs).FieldByIndex p = some t ∧
          rows.convertAssign src t = .ok v ∧ sv1.FieldByIndex p = some v := by
  obtain ⟨c1, sv1, st1, hg, hrun, _, hA, _⟩ :=
    scanRow_staged cfg hz st hc fs sv ht rows cols hcols hscan
  refine ⟨resolve cfg (.struct fs), c1, sv1, st1, hg, ?_, ?_⟩
  · simp [ScanStruct, hrun, Rows.Err, herr]
  · intro name hname p hm
    obtain ⟨i, hlm⟩ := exists_lastMatch _ cols name p hname hm
    obtain ⟨src, t, hsrc, htp, hcase⟩ := hA i p hlm
    have hne : p ≠ [] := validPath_ne_nil cfg _ p (matchColumn_resolve_valid cfg _ name p hm)
    rcases hcase with ⟨hnull, _⟩ | ⟨_, v, hv, hw⟩
    · have := hnonnull src (List.getElem?_mem hsrc)
      rw [hnull] at this
      cases this
    · exact ⟨i, src, t, v, hlm, hsrc, htp, hv, by rw [FieldByIndex_eq_walk _ _ hne, hw]⟩

theorem sample_getTargets :
    getTargets Config.default State.initial sampleDst ["id", "full_name", "extra"]
      = (.ok [.ptrPtr .int .nil, .ptrPtr .string .nil, .rawBytes (.bytes [])],
          { finfos := [(sampleUser, [("id", [0]), ("full_name", [1])])],
            events := [Event.log "sql: column [extra] not found in struct"] }) := by
  rfl

/-- C1, witness: fields `ID` (no tag) and `Name` (tag `full_name`), columns
`id`, `full_name`, `extra`, row `(7, "Ada", "x")` give `{ID: 7, Name: "Ada"}` and
no error. -/
theorem C1_witness :
    (∃ finfo c1 sv1 st1,
      getFieldInfo Config.default sampleUser State.initial.finfos = some (finfo, c1) ∧
      ScanStruct Config.default State.initial sampleRows sampleDst
        = (none, some ⟨.ptr sampleUser, .ptr sv1⟩, st1) ∧
      ∀ name ∈ ["id", "full_name", "extra"], ∀ p, matchColumn finfo name = some p →
        ∃ i src t v, lastMatch finfo ["id", "full_name", "extra"] i p ∧
          sampleRows.lastcols[i]? = some src ∧
          sampleUser.FieldByIndex p = some t ∧
          sampleRows.convertAssign src t = .ok v ∧ sv1.FieldByIndex p = some v) ∧
    (ScanStruct Config.default State.initial sampleRows sampleDst).1 = none ∧
    Interface.value (ScanStruct Config.default State.initial sampleRows sampleDst).2.1
      = .ptr (.struct [.int 7, .string "Ada"]) :=
  ⟨C1_scanStruct_commits_last_match Config.default rfl State.initial (cacheValid_nil _)
      [⟨"ID", [], "", false, .int⟩, ⟨"Name", [("db", "full_name")], "", false, .string⟩]
      (.struct [.int 1, .string "old"]) rfl sampleRows ["id", "full_name", "extra"] rfl
      (by intro src h; simp [sampleRows] at h; rcases h with h | h | h <;> subst h <;> rfl)
      (by
        intro targets st1 h
        have h2 := sample_getTargets
        simp only [sampleDst, sampleUser] at h2
        rw [h2] at h
        cases h
        rfl)
      rfl,
    rfl, rfl⟩

/-- C2, counterexample: the columns `id`, `id` with the row `(NULL, 7)` are both
matched to the field `ID`; the first column's value is NULL, and yet the scan leaves
`ID = 7`, not the zero value, because the second column is committed after it. -/
theorem C2_counterexample :
    (getFieldInfo Config.default sampleUser State.initial.finfos).map (fun r => r.1)
      = some [("id", [0]), ("full_name", [1])] ∧
    matchColumn [("id", [0]), ("full_name", [1])] "id" = some [0] ∧
    sampleRowsTwice.lastcols[0]? = some Value.nil ∧
    (ScanStruct Config.default State.initial sampleRowsTwice sampleDst).1 = none ∧
    Interface.value (ScanStruct Config.default State.initial sampleRowsTwice sampleDst).2.1
      = .ptr (.struct [.int 7, .string "old"]) ∧
    GoType.int.Zero = Value.int 0 ∧ Value.int 7 ≠ Value.int 0 :=
  ⟨rfl, rfl, rfl, rfl, rfl, rfl, by intro h; cases h⟩

/-- C2, amended. With the null policy on, for a destination that points to a struct
and a row the cursor decodes without error, every matched column whose database
value is NULL and after which no column is matched to the same field leaves that
field equal to the zero value of its type, whatever the field held before. -/
theorem C2_null_sets_zero [CaseRanges] (cfg : Config) (hz : cfg.ZeroIsNull = true)
    (st : State) (hc : CacheValid cfg st.finfos) (fs : List (StructField GoType)) (sv : Value)
    (ht : hasType (.struct fs) sv = true) (rows : Rows) (cols : List String)
    (hcols : rows.columns = .ok cols)
    (hscan : ∀ targets st1, getTargets cfg st (some ⟨.ptr (.struct fs), .ptr sv⟩) cols
      = (.ok targets, st1) → (rows.Scan targets (.ptr sv)).1 = none) :
    ∃ finfo c1 sv1 st1,
      getFieldInfo cfg (.struct fs) st.finfos = some (finfo, c1) ∧
      ScanStruct cfg st rows (some ⟨.ptr (.struct fs), .ptr sv⟩)
        = (rows.Err, some ⟨.ptr (.struct fs), .ptr sv1⟩, st1) ∧
      ∀ (i : Nat) (p : List Nat) (src : Value), lastMatch finfo cols i p →
        rows.lastcols[i]? = some src → src.isNull = true →
        ∃ t, (GoType.struct fs).FieldByIndex p = some t ∧ sv1.FieldByIndex p = some t.Zero := by
  obtain ⟨c1, sv1, st1, hg, hrun, _, hA, _⟩ :=
    scanRow_staged cfg hz st hc fs sv ht rows cols hcols hscan
  refine ⟨resolve cfg (.struct fs), c1, sv1, st1, hg, by simp [ScanStruct, hrun], ?_⟩
  intro i p src hlm hsrc hnull
  obtain ⟨src1, t, hsrc1, htp, hcase⟩ := hA i p hlm
  rw [hsrc] at hsrc1
  simp only [Option.some.injEq] at hsrc1
  subst hsrc1
  obtain ⟨⟨name, _, hm⟩, _⟩ := hlm
  have hne : p ≠ [] := validPath_ne_nil cfg _ p (matchColumn_resolve_valid cfg _ name p hm)
  rcases hcase with ⟨_, hw⟩ | ⟨hnn, _⟩
  · exact ⟨t, htp, by rw [FieldByIndex_eq_walk _ _ hne, hw]⟩
  · rw [hnull] at hnn
    cases hnn

theorem sample_getTargets_two :
    getTargets Config.default State.initial sampleDst ["id", "full_name"]
      = (.ok [.ptrPtr .int .nil, .ptrPtr .string .nil],
          { finfos := [(sampleUser, [("id", [0]), ("full_name", [1])])],
            events := [] }) := by
  rfl

/-- C2, witness: columns `id`, `full_name`, row `(NULL, "Ada")` give
`{ID: 0, Name: "Ada"}` from a destination that held `ID = 1`. -/
theorem C2_witness :
    (∃ finfo c1 sv1 st1,
      getFieldInfo Config.default sampleUser State.initial.finfos = some (finfo, c1) ∧
      ScanStruct Config.default State.initial sampleRowsNull sampleDst
        = (sampleRowsNull.Err, some ⟨.ptr sampleUser, .ptr sv1⟩, st1) ∧
      ∀ (i : Nat) (p : List Nat) (src : Value), lastMatch finfo ["id", "full_name"] i p →
        sampleRowsNull.lastcols[i]? = some src → src.isNull = true →
        ∃ t, sampleUser.FieldByIndex p = some t ∧ sv1.FieldByIndex p = some t.Zero) ∧
    Interface.value (ScanStruct Config.default State.initial sampleRowsNull sampleDst).2.1
      = .ptr (.struct [.int 0, .string "Ada"]) :=
  ⟨C2_null_sets_zero Config.default rfl State.initial (cacheValid_nil _)
      [⟨"ID", [], "", false, .int⟩, ⟨"Name", [("db", "full_name")], "", false, .string⟩]
      (.struct [.int 1, .string "old"]) rfl sampleRowsNull ["id", "full_name"] rfl
      (by
        intro targets st1 h
        have h2 := sample_getTargets_two
        simp only [sampleDst, sampleUser] at h2
        rw [h2] at h
        cases h
        rfl),
    rfl⟩

/-- C3, failing input: with the null policy switched off, the columns `id`, `extra`
and the row `(7, "x")` scanned into a `*struct` with an `int` field `ID`: the cursor
decodes without error, writing 7 into the field, and the commit step then panics in
`IsNil` on the `int` value instead of returning no error. -/
theorem C3_null_policy_off_panics :
    (getTargets Config.nullOff State.initial sampleDst ["id", "extra"]).1
      = .ok [.fieldAddr [0] .int, .rawBytes (.bytes [])] ∧
    (sampleRowsExtra.Scan [.fieldAddr [0] .int, .rawBytes (.bytes [])]
        (Interface.value sampleDst)).1 = none ∧
    (ScanStruct Config.nullOff State.initial sampleRowsExtra sampleDst).1
      = some (.panic "reflect: call of reflect.Value.IsNil on a non-nillable Value") ∧
    (ScanStruct Config.default State.initial sampleRowsExtra sampleDst).1 = none ∧
    Interface.value (ScanStruct Config.default State.initial sampleRowsExtra sampleDst).2.1
      = .ptr (.struct [.int 7, .string "old"]) :=
  ⟨rfl, rfl, rfl, rfl, rfl⟩

/-- The loop of `getTargets` ends with targets or with a panic, never with a
returned error. -/
theorem getTargets_loop_no_error [CaseRanges] (cfg : Config) (finfo : fieldInfo) (elemTyp : GoType)
    (elem : Option Value) : ∀ (cols : List String) (values : List Target) (ev : List Event)
    (msg : String), (getTargets.loop cfg finfo elemTyp elem cols values ev).1 ≠ .error (.error msg)
  | [], values, ev, msg => by simp [getTargets.loop]
  | name :: rest, values, ev, msg => by
    rw [getTargets.loop]
    cases mapGet finfo (strings.ToLower name) with
    | none => exact getTargets_loop_no_error cfg finfo elemTyp elem rest _ _ msg
    | some idx =>
      simp only
      cases h1 : elem.bind (fun e => e.FieldByIndex idx) with
      | none => simp
      | some y =>
        cases h2 : elemTyp.FieldByIndex idx with
        | none => simp
        | some t => exact getTargets_loop_no_error cfg finfo elemTyp elem rest _ _ msg

/-- The kind checks of `getTargets` on a destination that is not nil: a destination
whose dynamic type is not a pointer to a struct makes `ScanStruct` return an error
without any physical scan and without any change to the destination, the cache or
the log; for a pointer-to-struct type `getTargets` ends with targets or with a
panic, never with a returned error; and when the pointer points to a struct value
it returns one target per column. -/
theorem getTargets_kind_check [CaseRanges] (cfg : Config) (st : State) (hc : CacheValid cfg st.finfos) :
    (∀ (rows : Rows) (dst : Interface), (¬ ∃ fs, dst.typ = .ptr (.struct fs)) →
      ∃ msg, ScanStruct cfg st rows (some dst) = (some (.error msg), some dst, st)) ∧
    (∀ (fs : List (StructField GoType)) (v : Value) (cols : List String) (msg : String),
      (getTargets cfg st (some ⟨.ptr (.struct fs), v⟩) cols).1 ≠ .error (.error msg)) ∧
    (∀ (fs : List (StructField GoType)) (sv : Value) (cols : List String),
      hasType (.struct fs) sv = true →
      ∃ targets st1, getTargets cfg st (some ⟨.ptr (.struct fs), .ptr sv⟩) cols = (.ok targets, st1)
        ∧ targets.length = cols.length) := by
  refine ⟨?_, ?_, ?_⟩
  · intro rows dst hdst
    unfold ScanStruct scanRow
    cases hcol : rows.columns with
    | error e => exact ⟨e, rfl⟩
    | ok cols =>
      simp only
      obtain ⟨typ, val⟩ := dst
      cases typ with
      | ptr e =>
        cases e with
        | struct fs => exact absurd ⟨fs, rfl⟩ hdst
        | bool => exact ⟨"sqlx: called with pointer to non-struct", by simp [getTargets, GoType.Kind, GoType.Elem]⟩
        | int => exact ⟨"sqlx: called with pointer to non-struct", by simp [getTargets, GoType.Kind, GoType.Elem]⟩
        | string => exact ⟨"sqlx: called with pointer to non-struct", by simp [getTargets, GoType.Kind, GoType.Elem]⟩
        | bytes => exact ⟨"sqlx: called with pointer to non-struct", by simp [getTargets, GoType.Kind, GoType.Elem]⟩
        | ptr e2 => exact ⟨"sqlx: called with pointer to non-struct", by simp [getTargets, GoType.Kind, GoType.Elem]⟩
      | bool => exact ⟨"sqlx: called with non-pointer destination", by simp [getTargets, GoType.Kind]⟩
      | int => exact ⟨"sqlx: called with non-pointer destination", by simp [getTargets, GoType.Kind]⟩
      | string => exact ⟨"sqlx: called with non-pointer destination", by simp [getTargets, GoType.Kind]⟩
      | bytes => exact ⟨"sqlx: called with non-pointer destination", by simp [getTargets, GoType.Kind]⟩
      | struct fs => exact ⟨"sqlx: called with non-pointer destination", by simp [getTargets, GoType.Kind]⟩
  · intro fs v cols msg
    obtain ⟨c1, hg1, _⟩ := getFieldInfo_valid cfg (.struct fs) st.finfos hc rfl
    simp only [getTargets, GoType.Kind, GoType.Elem, hg1, ne_eq, not_true_eq_false, if_false]
    exact getTargets_loop_no_error cfg _ _ _ cols [] st.events msg
  · intro fs sv cols ht
    obtain ⟨c1, hg1, _⟩ := getFieldInfo_valid cfg (.struct fs) st.finfos hc rfl
    have hpath : ∀ name ∈ cols, ∀ p, matchColumn (resolve cfg (.struct fs)) name = some p →
        p ≠ [] ∧ (∃ y, sv.walk p = some y) ∧ ∃ t, (GoType.struct fs).FieldByIndex p = some t := by
      intro name _ p h
      have hv := matchColumn_resolve_valid cfg _ name p h
      obtain ⟨t, htp⟩ := validPath_typeField cfg p _ hv
      obtain ⟨y, hy, _⟩ := hasType_walk p _ sv t ht htp
      exact ⟨validPath_ne_nil cfg _ p hv, ⟨y, hy⟩, t, htp⟩
    obtain ⟨ev1, hloop⟩ := getTargets_loop_spec cfg (resolve cfg (.struct fs)) (.struct fs) sv
      cols [] st.events hpath
    refine ⟨cols.map (targetFor cfg (resolve cfg (.struct fs)) (.struct fs)),
      { finfos := c1, events := ev1 }, ?_, by simp⟩
    simp [getTargets, GoType.Kind, GoType.Elem, hg1, Value.Elem, hloop]

/-- C4, failing inputs: the nil interface is a destination that is not a pointer to
a struct, and `ScanStruct(rows, nil)` panics in `reflect.Value.Type` (scan.go, line
130) before either kind check instead of returning an error, the state and the
destination left as they were; a nil `*sampleUser` is a pointer to a struct, and
`getTargets` on it with the column `id` panics in `FieldByIndex` (line 147) instead
of returning without an error, so that `ScanStruct` panics as well. For contrast, a
`sampleUser` passed by value is refused with a returned error. -/
theorem C4_nil_destination_panics :
    (getTargets Config.default State.initial none ["id", "full_name", "extra"]).1
      = .error (.panic "reflect: call of reflect.Value.Type on zero Value") ∧
    ScanStruct Config.default State.initial sampleRows none
      = (some (.panic "reflect: call of reflect.Value.Type on zero Value"), none, State.initial) ∧
    (getTargets Config.default State.initial (some ⟨.ptr sampleUser, .nil⟩) ["id"]).1
      = .error (.panic "reflect: call of reflect.Value.FieldByIndex") ∧
    (ScanStruct Config.default State.initial sampleRows (some ⟨.ptr sampleUser, .nil⟩)).1
      = some (.panic "reflect: call of reflect.Value.FieldByIndex") ∧
    (ScanStruct Config.default State.initial sampleRows
        (some ⟨sampleUser, .struct [.int 1, .string "old"]⟩)).1
      = some (.error "sqlx: called with non-pointer destination") :=
  ⟨rfl, rfl, rfl, rfl, rfl⟩

/-! ## Claims about the field resolver -/

/-- C5. For every struct type and every canonical name that some visible, non-ignored
field produces (directly or through an embedded struct), the map `getFieldInfo`
returns has an entry for the name, and its path is that of the last field producing
the name in visit order; in particular a leaf field after which no field of the
struct produces its name owns the entry, whatever came before it. -/
theorem C5_last_visited_wins (cfg : Config) (finfos : Cache) (hc : CacheValid cfg finfos)
    (fs : List (StructField GoType)) :
    ∃ finfo c1, getFieldInfo cfg (.struct fs) finfos = some (finfo, c1) ∧
      (∀ k p0, (k, p0) ∈ visits cfg (.struct fs) →
        ∃ p l1 l2, mapGet finfo k = some p ∧
          visits cfg (.struct fs) = l1 ++ (k, p) :: l2 ∧ ∀ q, (k, q) ∉ l2) ∧
      (∀ (j : Nat) (f : StructField GoType), fs[j]? = some f → f.visible cfg → ¬ f.embedded →
        (∀ q, (columnName cfg f, q) ∈ visits cfg (.struct fs) → ∀ h ∈ q.head?, h ≤ j) →
        mapGet finfo (columnName cfg f) = some [j]) := by
  obtain ⟨c1, hg, _⟩ := getFieldInfo_valid cfg (.struct fs) finfos hc rfl
  refine ⟨resolve cfg (.struct fs), c1, hg, ?_, ?_⟩
  · intro k p0 hmem
    obtain ⟨p, hp⟩ := lastPath_isSome_of_mem k _ p0 hmem
    obtain ⟨l1, l2, hsplit, hno⟩ := lastPath_split k _ p hp
    exact ⟨p, l1, l2, by rw [(resolve_spec cfg _).2, hp], hsplit, hno⟩
  · intro j f hj hv he hlast
    exact resolve_leaf_last cfg fs j f hj hv he hlast

/-- C5, witness: the struct that embeds `struct { ID int }` and then declares its own
`ID` maps `id` to the outer field's path `[1]`, not to `[0, 0]`. -/
theorem C5_witness :
    (∃ finfo c1, getFieldInfo Config.default sampleOuter [] = some (finfo, c1) ∧
      (∀ k p0, (k, p0) ∈ visits Config.default sampleOuter →
        ∃ p l1 l2, mapGet finfo k = some p ∧
          visits Config.default sampleOuter = l1 ++ (k, p) :: l2 ∧ ∀ q, (k, q) ∉ l2) ∧
      (∀ (j : Nat) (f : StructField GoType),
        [(⟨"Inner", [], "", true, sampleInner⟩ : StructField GoType),
          ⟨"ID", [], "", false, .int⟩][j]? = some f →
        f.visible Config.default → ¬ f.embedded →
        (∀ q, (columnName Config.default f, q) ∈ visits Config.default sampleOuter →
          ∀ h ∈ q.head?, h ≤ j) →
        mapGet finfo (columnName Config.default f) = some [j])) ∧
    visits Config.default sampleOuter = [("id", [0, 0]), ("id", [1])] ∧
    (getFieldInfo Config.default sampleOuter []).map (fun r => r.1) = some [("id", [1])] :=
  ⟨C5_last_visited_wins Config.default [] (cacheValid_nil _)
      [⟨"Inner", [], "", true, sampleInner⟩, ⟨"ID", [], "", false, .int⟩],
    by decide, by decide⟩

/-- C6. For every struct type `T` and every entry `(k, p)` of `getFieldInfo(T)`: `p` is
not empty and is a valid path of `T` (every index in range, every step but the last
through an exported embedded struct whose tag is not `"-"`, the last step to an
exported field whose tag is not `"-"` and which is not an embedded struct); and
either `p` has length 1 and its field is declared in `T` itself, or `p` is the index
of an embedded struct of `T` followed by the non-empty path that the embedded
struct's own map records for `k`. -/
theorem C6_paths_are_valid (cfg : Config) (finfos : Cache) (hc : CacheValid cfg finfos)
    (fs : List (StructField GoType)) :
    ∃ finfo c1, getFieldInfo cfg (.struct fs) finfos = some (finfo, c1) ∧
      ∀ k p, (k, p) ∈ finfo →
        p ≠ [] ∧ validPath cfg (.struct fs) p = true ∧
        ((∃ i f, p = [i] ∧ fs[i]? = some f ∧ f.visible cfg ∧ ¬ f.embedded
            ∧ k = columnName cfg f) ∨
         (∃ i q f sub c2, p = i :: q ∧ q ≠ [] ∧ fs[i]? = some f ∧ f.visible cfg ∧ f.embedded
            ∧ getFieldInfo cfg f.Typ c1 = some (sub, c2) ∧ (k, q) ∈ sub)) := by
  obtain ⟨c1, hg, hc1⟩ := getFieldInfo_valid cfg (.struct fs) finfos hc rfl
  refine ⟨resolve cfg (.struct fs), c1, hg, ?_⟩
  intro k p hmem
  have hspec := resolve_spec cfg (.struct fs)
  have hget := mapGet_of_mem _ k p hspec.1 hmem
  rw [hspec.2] at hget
  refine ⟨lastPath_visits_ne_nil cfg _ k p hget, validPath_of_lastPath cfg p _ k hget, ?_⟩
  obtain ⟨j, f, hj, hv, hcase⟩ := lastPath_visits_struct cfg fs k p hget
  rcases hcase with ⟨he, e, hk⟩ | ⟨he, q, e, hq⟩
  · exact Or.inl ⟨j, f, e, hj, hv, he, hk⟩
  · obtain ⟨c2, hg2, _⟩ := getFieldInfo_valid cfg f.Typ c1 hc1 he.2
    refine Or.inr ⟨j, q, f, resolve cfg f.Typ, c2, e, lastPath_visits_ne_nil cfg _ k q hq,
      hj, hv, he, hg2, ?_⟩
    apply mapGet_mem
    rw [(resolve_spec cfg f.Typ).2, hq]

/-- C6, witness: the entries of the struct embedding `struct { ID int }` before a
`Name` field are `id` at `[0, 0]` and `name` at `[1]`. -/
theorem C6_witness :
    (∃ finfo c1, getFieldInfo Config.default
        (.struct [⟨"Inner", [], "", true, sampleInner⟩, ⟨"Name", [], "", false, .string⟩]) []
        = some (finfo, c1) ∧
      ∀ k p, (k, p) ∈ finfo →
        p ≠ [] ∧ validPath Config.default
          (.struct [⟨"Inner", [], "", true, sampleInner⟩, ⟨"Name", [], "", false, .string⟩]) p
            = true ∧
        ((∃ i f, p = [i] ∧
            [(⟨"Inner", [], "", true, sampleInner⟩ : StructField GoType),
              ⟨"Name", [], "", false, .string⟩][i]? = some f ∧
            f.visible Config.default ∧ ¬ f.embedded ∧ k = columnName Config.default f) ∨
         (∃ i q f sub c2, p = i :: q ∧ q ≠ [] ∧
            [(⟨"Inner", [], "", true, sampleInner⟩ : StructField GoType),
              ⟨"Name", [], "", false, .string⟩][i]? = some f ∧
            f.visible Config.default ∧ f.embedded ∧
            getFieldInfo Config.default f.Typ c1 = some (sub, c2) ∧ (k, q) ∈ sub))) ∧
    (getFieldInfo Config.default
        (.struct [⟨"Inner", [], "", true, sampleInner⟩, ⟨"Name", [], "", false, .string⟩]) []).map
      (fun r => r.1) = some [("id", [0, 0]), ("name", [1])] :=
  ⟨C6_paths_are_valid Config.default [] (cacheValid_nil _)
      [⟨"Inner", [], "", true, sampleInner⟩, ⟨"Name", [], "", false, .string⟩],
    by decide⟩

/-- C7, counterexample: the exported field `Opt` with the tag `",omitempty"`. The tag
starts with a comma, so its name part is empty; the name `getFieldInfo` records is
the whole tag, comma included, and not the mapped declared name `"opt"`. -/
theorem C7_counterexample :
    columnName Config.default ⟨"Opt", [("db", ",omitempty")], "", false, .int⟩ = ",omitempty" ∧
    Config.default.NameMapper "Opt" = "opt" ∧
    (getFieldInfo Config.default sampleOpt []).map (fun r => r.1)
      = some [(",omitempty", [0])] ∧
    mapGet [(",omitempty", [0])] (Config.default.NameMapper "Opt") = none := by
  decide

/-- C7, amended. For every exported field that is not an embedded struct and whose tag
(not `"-"`) has its first comma after at least one character, the name `getFieldInfo`
computes for the field is the Name Mapper applied to the text before that comma,
everything from the comma on being discarded; and that name maps to the field's
path when no later field produces it. -/
theorem C7_tag_trimmed_at_comma (cfg : Config) (f : StructField GoType) (pre post : List Char)
    (htag : StructTag.Get f.Tag cfg.TagName = ⟨pre ++ ',' :: post⟩) (hpre : pre ≠ [])
    (hnc : ',' ∉ pre) (hv : f.visible cfg) (he : ¬ f.embedded) :
    columnName cfg f = cfg.NameMapper ⟨pre⟩ ∧
    ∀ (finfos : Cache) (fs : List (StructField GoType)) (j : Nat), CacheValid cfg finfos →
      fs[j]? = some f →
      (∀ q, (cfg.NameMapper ⟨pre⟩, q) ∈ visits cfg (.struct fs) → ∀ h ∈ q.head?, h ≤ j) →
      ∃ finfo c1, getFieldInfo cfg (.struct fs) finfos = some (finfo, c1) ∧
        mapGet finfo (cfg.NameMapper ⟨pre⟩) = some [j] := by
  have hname := columnName_of_tag_comma cfg f pre post htag hpre hnc
  refine ⟨hname, ?_⟩
  intro finfos fs j hc hj hlast
  obtain ⟨c1, hg, _⟩ := getFieldInfo_valid cfg (.struct fs) finfos hc rfl
  refine ⟨resolve cfg (.struct fs), c1, hg, ?_⟩
  rw [← hname]
  exact resolve_leaf_last cfg fs j f hj hv he (by rw [hname]; exact hlast)

/-- C7, witness: the tag `"id,PRIMARY_KEY"` on the field `Key` records the name `id`,
which maps to the path `[0]` of `Key`. -/
theorem C7_witness :
    columnName Config.default ⟨"Key", [("db", "id,PRIMARY_KEY")], "", false, .int⟩
        = Config.default.NameMapper ⟨['i', 'd']⟩ ∧
    (∃ finfo c1, getFieldInfo Config.default sampleKeyed [] = some (finfo, c1) ∧
        mapGet finfo (Config.default.NameMapper ⟨['i', 'd']⟩) = some [0]) ∧
    (getFieldInfo Config.default sampleKeyed []).map (fun r => r.1)
      = some [("id", [0]), ("name", [1])] :=
  ⟨(C7_tag_trimmed_at_comma Config.default ⟨"Key", [("db", "id,PRIMARY_KEY")], "", false, .int⟩
      ['i', 'd'] "PRIMARY_KEY".data (by decide) (by decide) (by decide) (by decide)
      (by decide)).1,
    (C7_tag_trimmed_at_comma Config.default ⟨"Key", [("db", "id,PRIMARY_KEY")], "", false, .int⟩
      ['i', 'd'] "PRIMARY_KEY".data (by decide) (by decide) (by decide) (by decide)
      (by decide)).2 []
      [⟨"Key", [("db", "id,PRIMARY_KEY")], "", false, .int⟩, ⟨"Name", [], "", false, .string⟩]
      0 (cacheValid_nil _) rfl
      (by
        intro q hq h hh
        have hvis : visits Config.default
            (.struct [⟨"Key", [("db", "id,PRIMARY_KEY")], "", false, .int⟩,
              ⟨"Name", [], "", false, .string⟩])
            = [("id", [0]), ("name", [1])] := by decide
        rw [hvis] at hq
        simp only [List.mem_cons, Prod.mk.injEq, List.mem_singleton] at hq
        rcases hq with ⟨_, e⟩ | ⟨e, _⟩ | hfalse
        · subst e
          simp at hh
          omega
        · exact absurd e (by decide)
        · simp at hfalse),
    by decide⟩

/-- C8, counterexample: the field `Name` of the scenario struct is exported and its tag
`"full_name"` is not `"-"`, yet the lookup of `NameMapper("Name") = "name"` in the map
of the struct finds nothing: the field is entered under its tag. -/
theorem C8_counterexample :
    StructField.visible Config.default
      (⟨"Name", [("db", "full_name")], "", false, .string⟩ : StructField GoType) ∧
    Config.default.NameMapper "Name" = "name" ∧
    (getFieldInfo Config.default sampleUser []).map (fun r => r.1)
      = some [("id", [0]), ("full_name", [1])] ∧
    mapGet [("id", [0]), ("full_name", [1])] (Config.default.NameMapper "Name") = none := by
  decide

/-- C8, amended. For every struct type `T` and every exported field `f` of `T` that
carries no tag under `TagName`, is not an embedded struct, and after which no field of
`T` produces the name `NameMapper(f.Name)`, the lookup of `NameMapper(f.Name)` in
`getFieldInfo(T)` returns the path of `f`. The declared name is an identifier and so
holds no comma. -/
theorem C8_untagged_round_trip (cfg : Config) (finfos : Cache) (hc : CacheValid cfg finfos)
    (fs : List (StructField GoType)) (j : Nat) (f : StructField GoType)
    (hj : fs[j]? = some f) (hexp : f.PkgPath = "") (hnotag : StructTag.Get f.Tag cfg.TagName = "")
    (hident : ',' ∉ f.Name.data) (he : ¬ f.embedded)
    (hlast : ∀ q, (cfg.NameMapper f.Name, q) ∈ visits cfg (.struct fs) → ∀ h ∈ q.head?, h ≤ j) :
    ∃ finfo c1, getFieldInfo cfg (.struct fs) finfos = some (finfo, c1) ∧
      mapGet finfo (cfg.NameMapper f.Name) = some [j] := by
  have hv : f.visible cfg := by
    refine ⟨hexp, ?_⟩
    rw [hnotag]
    decide
  have hname : columnName cfg f = cfg.NameMapper f.Name :=
    columnName_of_no_comma cfg f f.Name (by simp [hnotag]) hident
  obtain ⟨c1, hg, _⟩ := getFieldInfo_valid cfg (.struct fs) finfos hc rfl
  refine ⟨resolve cfg (.struct fs), c1, hg, ?_⟩
  rw [← hname]
  exact resolve_leaf_last cfg fs j f hj hv he (by rw [hname]; exact hlast)

/-- C8, witness: the untagged field `ID` of the scenario struct is found under
`NameMapper("ID") = "id"` at its own path `[0]`. -/
theorem C8_witness :
    ∃ finfo c1, getFieldInfo Config.default sampleUser [] = some (finfo, c1) ∧
      mapGet finfo (Config.default.NameMapper "ID") = some [0] :=
  C8_untagged_round_trip Config.default [] (cacheValid_nil _)
    [⟨"ID", [], "", false, .int⟩, ⟨"Name", [("db", "full_name")], "", false, .string⟩]
    0 ⟨"ID", [], "", false, .int⟩ rfl rfl (by decide) (by decide) (by decide)
    (by
      intro q hq h hh
      have hvis : visits Config.default
          (.struct [⟨"ID", [], "", false, .int⟩,
            ⟨"Name", [("db", "full_name")], "", false, .string⟩])
          = [("id", [0]), ("full_name", [1])] := by decide
      rw [hvis] at hq
      simp only [List.mem_cons, Prod.mk.injEq, List.mem_singleton] at hq
      rcases hq with ⟨_, e⟩ | ⟨e, _⟩ | hfalse
      · subst e
        simp at hh
        omega
      · exact absurd e (by decide)
      · simp at hfalse)

/-! ## Claims about column matching -/

/-- The lookup of `getTargets` and `setTargets` reaches lower-cased keys only: a key
that `strings.ToLower` changes is the lower-cased name of no column. -/
theorem ToLower_ne_of_not_lower [CaseRanges] (k : String) (hk : strings.ToLower k ≠ k)
    (name : String) : strings.ToLower name ≠ k := by
  intro h
  apply hk
  rw [← h]
  exact ToLower_idem name

/-- C9, failing input: the identity function installed as `NameMapper`, the
destination `&struct{ID int}{1}`, the result column `ID` and the row `(7)`. The
Column Map has the single key `"ID"`, which equals the column's name exactly, and
so up to letter case. The column is looked up as `"id"` (scan.go, lines 143 and
170), found under no key, given a discard target and logged as not found, and the
scan returns no error and leaves the field at 1. The column `id` fares the same.
With the default mapper the key is `"id"` and the column `ID` is stored. -/
theorem C9_identity_mapper_unmatched :
    (getFieldInfo Config.identity sampleInner []).map (fun r => r.1) = some [("ID", [0])] ∧
    strings.ToLower "ID" = "id" ∧
    matchColumn [("ID", [0])] "ID" = none ∧
    getTargets Config.identity State.initial (some ⟨.ptr sampleInner, .ptr (.struct [.int 1])⟩) ["ID"]
      = (.ok [.rawBytes (.bytes [])],
          { finfos := [(sampleInner, [("ID", [0])])],
            events := [.log "sql: column [ID] not found in struct"] }) ∧
    (ScanStruct Config.identity State.initial sampleRowsUpperId
        (some ⟨.ptr sampleInner, .ptr (.struct [.int 1])⟩)).1 = none ∧
    Interface.value (ScanStruct Config.identity State.initial sampleRowsUpperId
        (some ⟨.ptr sampleInner, .ptr (.struct [.int 1])⟩)).2.1 = .ptr (.struct [.int 1]) ∧
    matchColumn [("ID", [0])] "id" = none ∧
    Interface.value (ScanStruct Config.identity State.initial sampleRowsId
        (some ⟨.ptr sampleInner, .ptr (.struct [.int 1])⟩)).2.1 = .ptr (.struct [.int 1]) ∧
    Interface.value (ScanStruct Config.default State.initial sampleRowsUpperId
        (some ⟨.ptr sampleInner, .ptr (.struct [.int 1])⟩)).2.1 = .ptr (.struct [.int 7]) :=
  ⟨by decide, by decide, by decide, rfl, rfl, rfl, by decide, rfl, rfl⟩

/-- C10, counterexample: the exported field `UserName` with the tag `"userName"`. The
mapper turns the tag into the key `user_name`, the result column `userName` is looked
up as `username`, and so the column is not matched to the field: it gets a discard
target and the scan leaves the field unchanged. -/
theorem C10_counterexample :
    (getFieldInfo Config.default sampleCamel []).map (fun r => r.1)
      = some [("user_name", [0])] ∧
    strings.ToLower "userName" = "username" ∧
    matchColumn [("user_name", [0])] "userName" = none ∧
    (getTargets Config.default State.initial (some ⟨.ptr sampleCamel, .ptr (.struct [.string "old"])⟩)
        ["userName"]).1 = .ok [.rawBytes (.bytes [])] ∧
    Interface.value (ScanStruct Config.default State.initial sampleRowsCamel
        (some ⟨.ptr sampleCamel, .ptr (.struct [.string "old"])⟩)).2.1
      = .ptr (.struct [.string "old"]) :=
  ⟨by decide, by decide, by decide, rfl, rfl⟩

theorem string_mk_data (s : String) : (⟨s.data⟩ : String) = s := by
  cases s; rfl

/-- C10, amended. Under the default Name Mapper and tag key, for every exported field
that is not an embedded struct, whose tag names a column `t` (not empty, not `"-"`,
free of commas, optionally followed by comma-separated modifiers) into which the
mapper inserts no separator, that is `ToSnakeCase(t) = strings.ToLower(t)`, and whose
canonical name no later field produces, a result column named exactly `t` is matched
to the field's path and gets the staging target of the field's type. -/
theorem C10_tag_column_matched [CaseRanges] (st : State) (hc : CacheValid Config.default st.finfos)
    (fs : List (StructField GoType)) (sv : Value) (ht : hasType (.struct fs) sv = true)
    (j : Nat) (f : StructField GoType) (hj : fs[j]? = some f) (hexp : f.PkgPath = "")
    (he : ¬ f.embedded) (t : String) (mods : List Char)
    (htag : StructTag.Get f.Tag Config.default.TagName = ⟨t.data ++ mods⟩)
    (hmods : mods = [] ∨ ∃ m, mods = ',' :: m) (ht0 : t.data ≠ []) (htc : ',' ∉ t.data)
    (hdash : t ≠ "-") (hsnake : ToSnakeCase t = strings.ToLower t)
    (hlast : ∀ q, (ToSnakeCase t, q) ∈ visits Config.default (.struct fs) → ∀ h ∈ q.head?, h ≤ j)
    (cols : List String) (i : Nat) (hcol : cols[i]? = some t) :
    ∃ finfo c1 ev1 targets,
      getFieldInfo Config.default (.struct fs) st.finfos = some (finfo, c1) ∧
      matchColumn finfo t = some [j] ∧
      getTargets Config.default st (some ⟨.ptr (.struct fs), .ptr sv⟩) cols
        = (.ok targets, { finfos := c1, events := ev1 }) ∧
      targets[i]? = some (Target.ptrPtr f.Typ .nil) := by
  have hnd : StructTag.Get f.Tag Config.default.TagName ≠ "-" := by
    rw [htag]
    intro e
    have hd := congrArg String.data e
    simp only at hd
    rcases hmods with hm | ⟨m, hm⟩
    · subst hm
      simp only [List.append_nil] at hd
      apply hdash
      rw [← string_mk_data t, hd]
    · subst hm
      have hl : (t.data ++ ',' :: m).length = 1 := by rw [hd]; rfl
      simp only [List.length_append, List.length_cons] at hl
      have hpos : 0 < t.data.length := List.length_pos.mpr ht0
      omega
  have hv : f.visible Config.default := ⟨hexp, hnd⟩
  have hname : columnName Config.default f = ToSnakeCase t := by
    rcases hmods with hm | ⟨m, hm⟩
    · subst hm
      have htag2 : StructTag.Get f.Tag Config.default.TagName = t := by
        rw [htag]
        simp [string_mk_data]
      have hne : ¬ (t = "") := by
        intro e
        apply ht0
        rw [e]
      have := columnName_of_no_comma Config.default f t (by simp [htag2, hne]) htc
      exact this
    · subst hm
      have := columnName_of_tag_comma Config.default f t.data m htag ht0 htc
      rw [this, string_mk_data]
      rfl
  obtain ⟨c1, ev1, hg, hgt⟩ := getTargets_ok Config.default st hc fs sv ht cols
  have hget : mapGet (resolve Config.default (.struct fs)) (ToSnakeCase t) = some [j] := by
    rw [← hname]
    exact resolve_leaf_last Config.default fs j f hj hv he (by rw [hname]; exact hlast)
  have hm : matchColumn (resolve Config.default (.struct fs)) t = some [j] := by
    unfold matchColumn
    rw [← hsnake, hget]
  have htp : (GoType.struct fs).FieldByIndex [j] = some f.Typ := by
    simp [GoType.FieldByIndex, GoType.Field, hj]
  have hz : Config.default.ZeroIsNull = true := rfl
  refine ⟨_, c1, ev1, _, hg, hm, hgt, ?_⟩
  simp [hcol, targetFor, hm, htp, hz]

/-- C10, witness: the tag `"full_name"` of the scenario struct is matched by the column
`full_name`. -/
theorem C10_witness :
    ∃ finfo c1 ev1 targets,
      getFieldInfo Config.default sampleUser State.initial.finfos = some (finfo, c1) ∧
      matchColumn finfo "full_name" = some [1] ∧
      getTargets Config.default State.initial sampleDst ["id", "full_name", "extra"]
        = (.ok targets, { finfos := c1, events := ev1 }) ∧
      targets[1]? = some (Target.ptrPtr GoType.string .nil) :=
  C10_tag_column_matched State.initial (cacheValid_nil _)
    [⟨"ID", [], "", false, .int⟩, ⟨"Name", [("db", "full_name")], "", false, .string⟩]
    (.struct [.int 1, .string "old"]) rfl
    1 ⟨"Name", [("db", "full_name")], "", false, .string⟩ rfl rfl (by decide)
    "full_name" [] (by decide) (Or.inl rfl) (by decide) (by decide) (by decide) (by decide)
    (by
      intro q hq h hh
      have hvis : visits Config.default
          (.struct [⟨"ID", [], "", false, .int⟩,
            ⟨"Name", [("db", "full_name")], "", false, .string⟩])
          = [("id", [0]), ("full_name", [1])] := by decide
      rw [hvis] at hq
      simp only [List.mem_cons, Prod.mk.injEq, List.mem_singleton] at hq
      rcases hq with ⟨e, _⟩ | ⟨_, e⟩ | hfalse
      · exact absurd e (by decide)
      · subst e
        simp at hh
        omega
      · simp at hfalse)
    ["id", "full_name", "extra"] 1 rfl

/-! ## Claims about ToSnakeCase -/

/-- C11. For every ASCII string `s`, `ToSnakeCase(s)` is the reference result: one `'_'`
put immediately before each uppercase letter that is not at position 0 and whose
preceding character is not an uppercase letter, and then every character lower-cased.
Apart from the underscores the result is the lower-cased input, character by
character in the same order. -/
theorem C11_snake_case_is_reference [CaseRanges] (s : String) (_hascii : isASCII s) :
    ToSnakeCase s = snakeRef s ∧
    (ToSnakeCase s).data.filter (fun c => c != '_')
      = (strings.ToLower s).data.filter (fun c => c != '_') := by
  refine ⟨ToSnakeCase_eq_snakeRef s, ?_⟩
  rw [ToSnakeCase_eq_snakeRef]
  unfold snakeRef strings.ToLower
  simp only
  rw [filter_map_lower, separate_filter, filter_map_lower]

/-- C11, witness: `ToSnakeCase("UserID") = "user_id"`. -/
theorem C11_witness :
    isASCII "UserID" ∧
    (ToSnakeCase "UserID" = snakeRef "UserID" ∧
      (ToSnakeCase "UserID").data.filter (fun c => c != '_')
        = (strings.ToLower "UserID").data.filter (fun c => c != '_')) ∧
    ToSnakeCase "UserID" = "user_id" :=
  ⟨by unfold isASCII; decide,
    C11_snake_case_is_reference "UserID" (by unfold isASCII; decide), by decide⟩

/-- C12. `ToSnakeCase` adds exactly one underscore per maximal run of uppercase
letters that does not start at position 0, and nothing else: the result is longer
than `s` by that number and has that many more underscores. A string made only of
uppercase letters comes back lower-cased, with no underscore. -/
theorem C12_one_separator_per_run [CaseRanges] (s : String) :
    (ToSnakeCase s).data.count '_' = s.data.count '_' + upperRunsAfterStart s.data ∧
    (ToSnakeCase s).data.length = s.data.length + upperRunsAfterStart s.data ∧
    ((∀ c ∈ s.data, isUpperAZ c = true) →
      ToSnakeCase s = strings.ToLower s ∧ (ToSnakeCase s).data.count '_' = 0) := by
  obtain ⟨hlen, hcount⟩ := separate_none_counts s.data
  have hdata : (ToSnakeCase s).data = (snakeRef.separate none s.data).map unicodeToLower := by
    rw [ToSnakeCase_eq_snakeRef]
    rfl
  refine ⟨?_, ?_, ?_⟩
  · rw [hdata, count_underscore_map_lower, hcount]
  · rw [hdata, List.length_map, hlen]
  · intro hall
    have hsep := separate_of_all_upper s.data none hall (fun p e => by cases e)
    have heq : ToSnakeCase s = strings.ToLower s := by
      rw [ToSnakeCase_eq_snakeRef]
      unfold snakeRef strings.ToLower
      rw [hsep]
    refine ⟨heq, ?_⟩
    rw [hdata, hsep, count_underscore_map_lower]
    apply List.count_eq_zero_of_not_mem
    intro hmem
    have := hall '_' hmem
    exact absurd this (by decide)

/-- C12, witness: `"ID"` gives `"id"`, not `"i_d"`; `"UserID"` has one uppercase run
after position 0 and gets one underscore. -/
theorem C12_witness :
    ((ToSnakeCase "ID").data.count '_' = "ID".data.count '_' + upperRunsAfterStart "ID".data ∧
      (ToSnakeCase "ID").data.length = "ID".data.length + upperRunsAfterStart "ID".data ∧
      ((∀ c ∈ "ID".data, isUpperAZ c = true) →
        ToSnakeCase "ID" = strings.ToLower "ID" ∧ (ToSnakeCase "ID").data.count '_' = 0)) ∧
    ToSnakeCase "ID" = "id" ∧
    maximalRuns "UserID".data = [['U'], ['s', 'e', 'r'], ['I', 'D']] ∧
    upperRunsAfterStart "UserID".data = 1 :=
  ⟨C12_one_separator_per_run "ID", by decide, by decide, by decide⟩

/-- C20. For every string `s`, ASCII or not, and whatever the case table of package
`unicode` holds for the runes beyond ASCII: the result of `ToSnakeCase` holds no
uppercase letter `A` to `Z` and `ToSnakeCase` maps it to itself; so, when `ToSnakeCase`
is the Name Mapper, every key of every map that `getFieldInfo` returns is unchanged
by `strings.ToLower`. The proof rests on two properties of `unicode.ToLower`: it never
returns one of `A`..`Z`, and it returns a lower-cased rune as it is. -/
theorem C20_snake_case_idempotent [CaseRanges] :
    (∀ s : String, (∀ c ∈ (ToSnakeCase s).data, isUpperAZ c = false) ∧
      ToSnakeCase (ToSnakeCase s) = ToSnakeCase s) ∧
    (∀ (cfg : Config) (finfos : Cache) (fs : List (StructField GoType)),
      cfg.NameMapper = ToSnakeCase → CacheValid cfg finfos →
      ∃ finfo c1, getFieldInfo cfg (.struct fs) finfos = some (finfo, c1) ∧
        ∀ k p, (k, p) ∈ finfo → strings.ToLower k = k) := by
  refine ⟨fun s => ⟨ToSnakeCase_no_upper s, ToSnakeCase_idem s⟩, ?_⟩
  intro cfg finfos fs hm hc
  obtain ⟨c1, hg, _⟩ := getFieldInfo_valid cfg (.struct fs) finfos hc rfl
  refine ⟨resolve cfg (.struct fs), c1, hg, ?_⟩
  intro k p hmem
  have hspec := resolve_spec cfg (.struct fs)
  have hget := mapGet_of_mem _ k p hspec.1 hmem
  rw [hspec.2] at hget
  obtain ⟨f, hf⟩ := visits_key cfg _ k p (lastPath_mem _ _ _ hget)
  obtain ⟨s, hs⟩ := columnName_eq_mapper cfg f
  rw [hf, hs, hm]
  exact ToLower_ToSnakeCase s

/-- C20, witness: `ToSnakeCase("UserID") = "user_id"` is returned as it is by a second
call, and the keys `id` and `full_name` of the scenario struct are in lower case. -/
theorem C20_witness :
    ToSnakeCase (ToSnakeCase "UserID") = ToSnakeCase "UserID" ∧
    ToSnakeCase "UserID" = "user_id" ∧
    (∃ finfo c1, getFieldInfo Config.default sampleUser [] = some (finfo, c1) ∧
      ∀ k p, (k, p) ∈ finfo → strings.ToLower k = k) :=
  ⟨(C20_snake_case_idempotent.1 "UserID").2, by decide,
    C20_snake_case_idempotent.2 Config.default []
      [⟨"ID", [], "", false, .int⟩, ⟨"Name", [("db", "full_name")], "", false, .string⟩]
      rfl (cacheValid_nil _)⟩

/-! ## Claims about the cache and about untagged fields -/

/-- C13. With `TagName` and `NameMapper` fixed, if every entry of the cache is the
uncached resolution of its type (as in the empty initial cache), then
`getFieldInfo(T)` returns exactly the uncached resolution of `T` and leaves a cache
that again satisfies the invariant, keeps every earlier entry, contains `T` and,
when `T` was not cached before, the type of every embedded struct field it resolved;
a later `getFieldInfo(T)` returns the same map and leaves the cache as it is. -/
theorem C13_cache_invariant (cfg : Config) (finfos : Cache) (hc : CacheValid cfg finfos)
    (fs : List (StructField GoType)) :
    CacheValid cfg [] ∧
    ∃ c1, getFieldInfo cfg (.struct fs) finfos = some (resolve cfg (.struct fs), c1) ∧
      CacheValid cfg c1 ∧
      mapGet c1 (GoType.struct fs) = some (resolve cfg (.struct fs)) ∧
      (∀ t0 m, mapGet finfos t0 = some m → mapGet c1 t0 = some m) ∧
      (mapGet finfos (GoType.struct fs) = none →
        ∀ (j : Nat) (f : StructField GoType), fs[j]? = some f → f.visible cfg → f.embedded →
          mapGet c1 f.Typ = some (resolve cfg f.Typ)) ∧
      getFieldInfo cfg (.struct fs) c1 = some (resolve cfg (.struct fs), c1) := by
  refine ⟨cacheValid_nil cfg, ?_⟩
  obtain ⟨c1, hg, hc1, hmono, hin⟩ := getFieldInfo_cache cfg (.struct fs) finfos hc rfl
  refine ⟨c1, hg, hc1, hin, hmono, ?_, ?_⟩
  · intro hnone j f hj hv he
    rw [getFieldInfo] at hg
    simp only [hnone] at hg
    obtain ⟨c2, h2, hc2, _, hemb⟩ := getFieldInfo_loop_cache cfg fs 0 [] finfos hc
    simp only [h2, Option.some.injEq, Prod.mk.injEq] at hg
    have hin2 := hemb j f hj hv he
    rw [← hg.2, mapGet_mapSet]
    by_cases e : GoType.struct fs = f.Typ
    · simp only [e, beq_self_eq_true, if_true, Option.some.injEq]
      rw [← e]
      simp [resolve]
    · simp [e, hin2]
  · rw [getFieldInfo]
    simp only [hin]

/-- C13, witness: from the empty cache the struct embedding `struct { ID int }` is
resolved, both types are cached, and a second call changes nothing. -/
theorem C13_witness :
    (CacheValid Config.default [] ∧
      ∃ c1, getFieldInfo Config.default sampleOuter [] = some (resolve Config.default sampleOuter, c1) ∧
        CacheValid Config.default c1 ∧
        mapGet c1 sampleOuter = some (resolve Config.default sampleOuter) ∧
        (∀ t0 m, mapGet ([] : Cache) t0 = some m → mapGet c1 t0 = some m) ∧
        (mapGet ([] : Cache) sampleOuter = none →
          ∀ (j : Nat) (f : StructField GoType),
            [(⟨"Inner", [], "", true, sampleInner⟩ : StructField GoType),
              ⟨"ID", [], "", false, .int⟩][j]? = some f →
            f.visible Config.default → f.embedded →
            mapGet c1 f.Typ = some (resolve Config.default f.Typ)) ∧
        getFieldInfo Config.default sampleOuter c1
          = some (resolve Config.default sampleOuter, c1)) ∧
    getFieldInfo Config.default sampleOuter []
      = some ([("id", [1])], [(sampleInner, [("id", [0])]), (sampleOuter, [("id", [1])])]) ∧
    getFieldInfo Config.default sampleOuter
        [(sampleInner, [("id", [0])]), (sampleOuter, [("id", [1])])]
      = some ([("id", [1])], [(sampleInner, [("id", [0])]), (sampleOuter, [("id", [1])])]) :=
  ⟨C13_cache_invariant Config.default [] (cacheValid_nil _)
      [⟨"Inner", [], "", true, sampleInner⟩, ⟨"ID", [], "", false, .int⟩],
    rfl, rfl⟩

/-- C15, counterexample: the field `ID` of the scenario struct is exported and carries
no tag under `TagName`, and the map `getFieldInfo` returns has the entry
`id -> [0]` for it. -/
theorem C15_counterexample :
    StructTag.Get ([] : List (String × String)) Config.default.TagName = "" ∧
    (getFieldInfo Config.default sampleUser []).map (fun r => r.1)
      = some [("id", [0]), ("full_name", [1])] ∧
    mapGet [("id", [0]), ("full_name", [1])] (Config.default.NameMapper "ID") = some [0] := by
  decide

/-- C15, amended. The map `getFieldInfo` returns does have an entry for every exported
field that carries no tag under `TagName` and is not an embedded struct: the key is the
Name Mapper of the declared name (an identifier, so free of commas), and its path is
the field's own unless a later field produces the same name. What is not included are
unexported fields and fields tagged `"-"`: the path of every entry starts at an
exported field whose tag is not `"-"`. -/
theorem C15_untagged_fields_included (cfg : Config) (finfos : Cache)
    (hc : CacheValid cfg finfos) (fs : List (StructField GoType)) :
    ∃ finfo c1, getFieldInfo cfg (.struct fs) finfos = some (finfo, c1) ∧
      (∀ (j : Nat) (f : StructField GoType), fs[j]? = some f → f.PkgPath = "" →
        StructTag.Get f.Tag cfg.TagName = "" → ',' ∉ f.Name.data → ¬ f.embedded →
        (∃ p, mapGet finfo (cfg.NameMapper f.Name) = some p) ∧
        ((∀ q, (cfg.NameMapper f.Name, q) ∈ visits cfg (.struct fs) → ∀ h ∈ q.head?, h ≤ j) →
          mapGet finfo (cfg.NameMapper f.Name) = some [j])) ∧
      (∀ k p, (k, p) ∈ finfo → ∃ i rest f, p = i :: rest ∧ fs[i]? = some f ∧
        f.PkgPath = "" ∧ StructTag.Get f.Tag cfg.TagName ≠ "-") := by
  obtain ⟨c1, hg, _⟩ := getFieldInfo_valid cfg (.struct fs) finfos hc rfl
  have hspec := resolve_spec cfg (.struct fs)
  refine ⟨resolve cfg (.struct fs), c1, hg, ?_, ?_⟩
  · intro j f hj hexp hnotag hident he
    have hv : f.visible cfg := by
      refine ⟨hexp, ?_⟩
      rw [hnotag]
      decide
    have hname : columnName cfg f = cfg.NameMapper f.Name :=
      columnName_of_no_comma cfg f f.Name (by simp [hnotag]) hident
    constructor
    · have hmem := visits_fields_leaf_mem cfg fs 0 j f hj hv he
      simp only [Nat.zero_add] at hmem
      obtain ⟨q, hq⟩ := lastPath_isSome_of_mem _ (visits cfg (.struct fs)) [j]
        (by simpa [visits] using hmem)
      exact ⟨q, by rw [hspec.2, ← hname, hq]⟩
    · intro hlast
      rw [← hname]
      exact resolve_leaf_last cfg fs j f hj hv he (by rw [hname]; exact hlast)
  · intro k p hmem
    have hget := mapGet_of_mem _ k p hspec.1 hmem
    rw [hspec.2] at hget
    obtain ⟨j, f, hj, hv, hcase⟩ := lastPath_visits_struct cfg fs k p hget
    rcases hcase with ⟨_, e, _⟩ | ⟨_, q, e, _⟩
    · exact ⟨j, [], f, e, hj, hv.1, hv.2⟩
    · exact ⟨j, q, f, e, hj, hv.1, hv.2⟩

/-- C15, witness: the untagged field `ID` of the scenario struct has its entry under
`NameMapper("ID")`. -/
theorem C15_witness :
    ∃ finfo c1, getFieldInfo Config.default sampleUser [] = some (finfo, c1) ∧
      (∃ p, mapGet finfo (Config.default.NameMapper "ID") = some p) ∧
      (∀ k p, (k, p) ∈ finfo → ∃ i rest f, p = i :: rest ∧
        [(⟨"ID", [], "", false, .int⟩ : StructField GoType),
          ⟨"Name", [("db", "full_name")], "", false, .string⟩][i]? = some f ∧
        f.PkgPath = "" ∧ StructTag.Get f.Tag Config.default.TagName ≠ "-") := by
  obtain ⟨finfo, c1, hg, h1, h2⟩ := C15_untagged_fields_included Config.default []
    (cacheValid_nil _)
    [⟨"ID", [], "", false, .int⟩, ⟨"Name", [("db", "full_name")], "", false, .string⟩]
  exact ⟨finfo, c1, hg,
    (h1 0 ⟨"ID", [], "", false, .int⟩ rfl rfl (by decide) (by decide) (by decide)).1, h2⟩

/-! ## Claims about ScanMap and about the scan targets -/

/-- C14. `ScanMap` on a destination map `m`: when `Columns` fails or the physical scan
fails, the error is returned and the map is `m` unchanged; when the cursor decodes the
row without error, the map afterwards is `m` overridden, in column order, with each
column name mapped to its decoded value, so that every column name holds the value of
its last occurrence and every key that is not a column name keeps its value. -/
theorem C14_scanMap_overrides (st : State) (rows : Rows) (m : GoMap) :
    (∀ e, rows.columns = .error e → ScanMap st rows m = (some (.error e), m, st)) ∧
    (∀ cols f, rows.columns = .ok cols →
      (rows.Scan (List.replicate cols.length (Target.iface .nil)) .nil).1 = some f →
      ∃ st1, ScanMap st rows m = (some f, m, st1)) ∧
    (∀ cols, rows.columns = .ok cols →
      (rows.Scan (List.replicate cols.length (Target.iface .nil)) .nil).1 = none →
      ∃ m1 st1, ScanMap st rows m = (rows.Err, m1, st1) ∧
        m1 = (cols.zip rows.lastcols).foldl (fun d kv => mapSet d kv.1 kv.2) m ∧
        (∀ (i : Nat) (k : String), cols[i]? = some k →
          (∀ (j : Nat), i < j → cols[j]? ≠ some k) →
          ∃ src, rows.lastcols[i]? = some src ∧ mapGet m1 k = some src) ∧
        (∀ k, k ∉ cols → mapGet m1 k = mapGet m k)) := by
  refine ⟨?_, ?_, ?_⟩
  · intro e he
    simp [ScanMap, he]
  · intro cols f hcols hf
    refine ⟨{ finfos := st.finfos, events := st.events ++ [Event.scan cols.length] }, ?_⟩
    generalize hres : rows.Scan (List.replicate cols.length (Target.iface .nil)) .nil = res at hf
    obtain ⟨e0, t1, d1⟩ := res
    simp only at hf
    subst hf
    simp [ScanMap, hcols, hres]
  · intro cols hcols hok
    have hlen : cols.length = rows.lastcols.length := by
      by_contra hne
      unfold Rows.Scan at hok
      rw [if_pos (by simpa using hne)] at hok
      simp at hok
    have hscan : rows.Scan (List.replicate cols.length (Target.iface .nil)) .nil
        = (none, rows.lastcols.map Target.iface, .nil) := by
      unfold Rows.Scan
      rw [if_neg (by simpa using hlen)]
      have := scan_loop_iface rows rows.lastcols .nil
      rw [← hlen] at this
      exact this
    have hstore := store_spec cols rows.lastcols m hlen
    refine ⟨(cols.zip rows.lastcols).foldl (fun d kv => mapSet d kv.1 kv.2) m,
      { finfos := st.finfos, events := st.events ++ [Event.scan cols.length] }, ?_, rfl, ?_, ?_⟩
    · simp [ScanMap, hcols, hscan, hstore]
    · intro i k hi hlast
      exact foldl_mapSet_last cols rows.lastcols m i k hlen hi hlast
    · intro k hk
      apply foldl_mapSet_other
      intro hmem
      obtain ⟨kv, hkv, e⟩ := List.mem_map.mp hmem
      apply hk
      rw [← e]
      exact (List.of_mem_zip hkv).1

/-- C14, witness: the scenario row scanned into a map that already holds `id` and
`keep` overwrites `id`, keeps `keep` and adds the other two columns. -/
theorem C14_witness :
    (∃ m1 st1, ScanMap State.initial sampleRows sampleMap = (sampleRows.Err, m1, st1) ∧
      m1 = ((["id", "full_name", "extra"]).zip sampleRows.lastcols).foldl
        (fun d kv => mapSet d kv.1 kv.2) sampleMap ∧
      (∀ (i : Nat) (k : String), (["id", "full_name", "extra"])[i]? = some k →
        (∀ (j : Nat), i < j → (["id", "full_name", "extra"])[j]? ≠ some k) →
        ∃ src, sampleRows.lastcols[i]? = some src ∧ mapGet m1 k = some src) ∧
      (∀ k, k ∉ ["id", "full_name", "extra"] → mapGet m1 k = mapGet sampleMap k)) ∧
    (ScanMap State.initial sampleRows sampleMap).2.1
      = [("id", .int 7), ("keep", .string "k"), ("full_name", .string "Ada"),
          ("extra", .string "x")] :=
  ⟨(C14_scanMap_overrides State.initial sampleRows sampleMap).2.2
      ["id", "full_name", "extra"] rfl rfl,
    rfl⟩

/-- C17. With the null policy on, when the cursor's physical scan into the targets
built by `getTargets` fails, `scanRow` returns that very error and the destination
is what it was before the call: every target is a staging cell, none points into
the destination. -/
theorem C17_scan_error_leaves_destination [CaseRanges] (cfg : Config) (hz : cfg.ZeroIsNull = true)
    (st : State) (hc : CacheValid cfg st.finfos) (fs : List (StructField GoType)) (sv : Value)
    (ht : hasType (.struct fs) sv = true) (rows : Rows) (cols : List String)
    (hcols : rows.columns = .ok cols) (f : Failure)
    (hfail : ∀ targets st1, getTargets cfg st (some ⟨.ptr (.struct fs), .ptr sv⟩) cols
      = (.ok targets, st1) → (rows.Scan targets (.ptr sv)).1 = some f) :
    ∃ targets st1 st2,
      getTargets cfg st (some ⟨.ptr (.struct fs), .ptr sv⟩) cols = (.ok targets, st1) ∧
      (∀ t ∈ targets, t.isStaging = true) ∧
      scanRow cfg st (some ⟨.ptr (.struct fs), .ptr sv⟩) rows
        = (some f, some ⟨.ptr (.struct fs), .ptr sv⟩, st2) := by
  obtain ⟨c1, ev1, _, hgt⟩ := getTargets_ok cfg st hc fs sv ht cols
  have hstag : ∀ t ∈ cols.map (targetFor cfg (resolve cfg (.struct fs)) (.struct fs)),
      t.isStaging = true := by
    intro t hmem
    obtain ⟨name, _, e⟩ := List.mem_map.mp hmem
    rw [← e]
    exact targetFor_isStaging cfg hz _ _ name
  have hf := hfail _ _ hgt
  have hd := scan_staging_dst rows _ (.ptr sv) hstag
  generalize hres : rows.Scan (cols.map (targetFor cfg (resolve cfg (.struct fs)) (.struct fs)))
    (.ptr sv) = res at hf hd
  obtain ⟨e0, t1, d1⟩ := res
  simp only at hf hd
  subst hf hd
  refine ⟨_, _, { finfos := c1, events := ev1 ++ [Event.scan
    (cols.map (targetFor cfg (resolve cfg (.struct fs)) (.struct fs))).length] }, hgt, hstag, ?_⟩
  simp only [scanRow, Interface.value, Interface.withValue, hcols, hgt, hres]

/-- C17, witness: the value `"x"` cannot be decoded into the `int` field `ID`; the
scan returns the cursor's error and the destination keeps `{1, "old"}`, although
the column `full_name` before it was decoded. -/
theorem C17_witness :
    (∃ targets st1 st2,
      getTargets Config.default State.initial sampleDst ["full_name", "id"]
        = (.ok targets, st1) ∧
      (∀ t ∈ targets, t.isStaging = true) ∧
      scanRow Config.default State.initial sampleDst sampleRowsBad
        = (some (.error "sql: unsupported conversion"), sampleDst, st2)) ∧
    Interface.value (scanRow Config.default State.initial sampleDst sampleRowsBad).2.1
      = .ptr (.struct [.int 1, .string "old"]) :=
  ⟨C17_scan_error_leaves_destination Config.default rfl State.initial (cacheValid_nil _)
      [⟨"ID", [], "", false, .int⟩, ⟨"Name", [("db", "full_name")], "", false, .string⟩]
      (.struct [.int 1, .string "old"]) rfl sampleRowsBad ["full_name", "id"] rfl
      (.error "sql: unsupported conversion")
      (by
        intro targets st1 h
        have h2 : getTargets Config.default State.initial
            (some ⟨.ptr (.struct [⟨"ID", [], "", false, .int⟩,
              ⟨"Name", [("db", "full_name")], "", false, .string⟩]),
              .ptr (.struct [.int 1, .string "old"])⟩) ["full_name", "id"]
            = (.ok [.ptrPtr .string .nil, .ptrPtr .int .nil],
                { finfos := [(sampleUser, [("id", [0]), ("full_name", [1])])],
                  events := [] }) := rfl
        rw [h2] at h
        cases h
        rfl),
    rfl⟩

/-- C18. For a destination that points to a struct, `getTargets` returns exactly one
target per column, in column order: target `i` is the one allocated for column `i`,
a raw-bytes discard cell when the column is unmatched. Whatever the cursor does, it
hands back as many targets, so in `scanRow` the test `len(columns) != len(targets)`
of `setTargets` is false. -/
theorem C18_one_target_per_column [CaseRanges] (cfg : Config) (st : State) (hc : CacheValid cfg st.finfos)
    (fs : List (StructField GoType)) (sv : Value) (ht : hasType (.struct fs) sv = true)
    (cols : List String) :
    ∃ finfo c1 ev1 targets,
      getFieldInfo cfg (.struct fs) st.finfos = some (finfo, c1) ∧
      getTargets cfg st (some ⟨.ptr (.struct fs), .ptr sv⟩) cols
        = (.ok targets, { finfos := c1, events := ev1 }) ∧
      targets.length = cols.length ∧
      (∀ (i : Nat) (name : String), cols[i]? = some name →
        targets[i]? = some (targetFor cfg finfo (.struct fs) name) ∧
        (matchColumn finfo name = none → targets[i]? = some (Target.rawBytes (.bytes [])))) ∧
      (∀ (rows : Rows) (d : Value), ¬ (cols.length ≠ (rows.Scan targets d).2.1.length)) := by
  obtain ⟨c1, ev1, hg, hgt⟩ := getTargets_ok cfg st hc fs sv ht cols
  refine ⟨resolve cfg (.struct fs), c1, ev1, _, hg, hgt, by simp, ?_, ?_⟩
  · intro i name hi
    have h1 : (cols.map (targetFor cfg (resolve cfg (.struct fs)) (.struct fs)))[i]?
        = some (targetFor cfg (resolve cfg (.struct fs)) (.struct fs) name) := by
      simp [hi]
    refine ⟨h1, ?_⟩
    intro hnone
    rw [h1]
    simp [targetFor, hnone]
  · intro rows d
    rw [scan_length]
    simp

/-- C18, witness: the three columns of the scenario get three targets, the unmatched
`extra` a discard cell. -/
theorem C18_witness :
    ∃ finfo c1 ev1 targets,
      getFieldInfo Config.default sampleUser State.initial.finfos = some (finfo, c1) ∧
      getTargets Config.default State.initial sampleDst ["id", "full_name", "extra"]
        = (.ok targets, { finfos := c1, events := ev1 }) ∧
      targets.length = ["id", "full_name", "extra"].length ∧
      (∀ (i : Nat) (name : String), (["id", "full_name", "extra"])[i]? = some name →
        targets[i]? = some (targetFor Config.default finfo sampleUser name) ∧
        (matchColumn finfo name = none → targets[i]? = some (Target.rawBytes (.bytes [])))) ∧
      (∀ (rows : Rows) (d : Value),
        ¬ ((["id", "full_name", "extra"]).length ≠ (rows.Scan targets d).2.1.length)) :=
  C18_one_target_per_column Config.default State.initial (cacheValid_nil _)
    [⟨"ID", [], "", false, .int⟩, ⟨"Name", [("db", "full_name")], "", false, .string⟩]
    (.struct [.int 1, .string "old"]) rfl ["id", "full_name", "extra"]

/-- C19, failing input: null policy off, the scenario struct with its `int` field `ID`
and `string` field `Name`, columns `id`, `full_name`, row `(7, "Ada")`. `getTargets`
hands the cursor pointers to the two fields, the cursor decodes both values without
error, and the commit step then panics in `IsNil` on the `int` value; with the null
policy on the same scan returns no error. -/
theorem C19_commit_panics_without_staging :
    (getTargets Config.nullOff State.initial sampleDst ["id", "full_name"]).1
      = .ok [.fieldAddr [0] .int, .fieldAddr [1] .string] ∧
    sampleRowsPlain.Scan [.fieldAddr [0] .int, .fieldAddr [1] .string] (Interface.value sampleDst)
      = (none, [.fieldAddr [0] .int, .fieldAddr [1] .string],
          .ptr (.struct [.int 7, .string "Ada"])) ∧
    (ScanStruct Config.nullOff State.initial sampleRowsPlain sampleDst).1
      = some (.panic "reflect: call of reflect.Value.IsNil on a non-nillable Value") ∧
    (ScanStruct Config.default State.initial sampleRowsPlain sampleDst).1 = none ∧
    Interface.value (ScanStruct Config.default State.initial sampleRowsPlain sampleDst).2.1
      = .ptr (.struct [.int 7, .string "Ada"]) :=
  ⟨rfl, rfl, rfl, rfl, rfl⟩

end Sqlx
